import Mathlib

/-!
Verification development for the single-resource scheduling core
(`he_scheduling/services/single_resource_scheduler.pyx`).

Two shallow embeddings are used:

* a *chain model* (`STask`, `Chain`): the resource's task sequence as a list
  of scheduling records, with the lazy `dirty`/`calculate` cache threaded
  explicitly through every property read, mirroring the `SchedulingTask`
  attribute semantics (reading `start`/`earliest_start` triggers `calculate`,
  which recursively forces the predecessor via `earliest_stop`);

* a *pointer model* (`Node`, `Store`): the intrusive doubly-linked `Task` /
  `Resource` layer with `next`/`previous`/`resource` references stored in an
  arena, for the link-surgery primitives (`move_out`, `move_in`, `drop`,
  `insert`, `add_tail`, `add_head`).

Positions in the chain model are head-based indices: index 0 is the head
(no predecessor), index `length - 1` the tail.
-/

/-- Scheduling task record: the attribute block of `SchedulingTask`
(`_duration`, `_target`, `_min_margin_before`, `_dirty`, `_earliest_start`,
`_start`) plus the inherited `task_id` (modelled as a natural number). -/
structure STask where
  task_id : Nat
  duration : Int
  target : Int
  min_margin_before : Int
  dirty : Bool
  earliest_start : Int
  start : Int
deriving DecidableEq, Repr

/-- Out-of-range placeholder task (never denotes a real task; `dirty = false`
so that out-of-range lazy reads are no-ops). -/
def dfltTask : STask :=
  { task_id := 0, duration := 0, target := 0, min_margin_before := 0,
    dirty := false, earliest_start := 0, start := 0 }

/-- A resource's task chain, head first. -/
abbrev Chain := List STask

/-- Read the task at position `i`. -/
def getT (c : Chain) (i : Nat) : STask := c.getD i dfltTask

/-- Replace the task at position `i`. -/
def setT (c : Chain) (i : Nat) (t : STask) : Chain := c.set i t

/-- SchedulingTask.__init__: sets the attributes, marks the task dirty,
initialises `_earliest_start` to 0 and `_start` to `target`.  No input
validation is performed. -/
def mkSchedulingTask (task_id : Nat) (duration target min_margin_before : Int) :
    STask :=
  { task_id := task_id, duration := duration, target := target,
    min_margin_before := min_margin_before, dirty := true,
    earliest_start := 0, start := target }

/-- Lazy-cache closure of `SchedulingTask.calculate` at position `i`: reading
`earliest_start`/`start` of a dirty task runs `calculate`, which reads the
predecessor's `earliest_stop` property — itself a lazy `earliest_start` read,
recursing through dirty predecessors.  With a predecessor, `calculate` sets
`_earliest_start := prev.earliest_stop + _min_margin_before` and clamps
`_start := max(_earliest_start, _start)`; with no predecessor it sets
`_earliest_start := 0` and leaves `_start` unchanged.  Either way it clears
`dirty`.  A clean task is returned untouched (the cache is trusted). -/
def forceIdx : Chain → Nat → Chain
  | c, 0 =>
      let t := getT c 0
      if t.dirty then setT c 0 { t with earliest_start := 0, dirty := false }
      else c
  | c, i+1 =>
      let t := getT c (i+1)
      if t.dirty then
        let c' := forceIdx c i
        let p := getT c' i
        let e := p.earliest_start + p.duration + t.min_margin_before
        setT c' (i+1)
          { t with earliest_start := e, start := max e t.start, dirty := false }
      else c

/-- Property read `task.start` at position `i` (calculates first if dirty). -/
def read_start (c : Chain) (i : Nat) : Int × Chain :=
  let c' := forceIdx c i
  ((getT c' i).start, c')

/-- Property read `task.earliest_start` at position `i`. -/
def read_es (c : Chain) (i : Nat) : Int × Chain :=
  let c' := forceIdx c i
  ((getT c' i).earliest_start, c')

/-- Property write `task.start = v`: the setter stores
`max(self.earliest_start, value)`, where reading `earliest_start` calculates
first if dirty. -/
def write_start (c : Chain) (i : Nat) (v : Int) : Chain :=
  let c' := forceIdx c i
  setT c' i { getT c' i with start := max (getT c' i).earliest_start v }

/-- SchedulingTask.invalidate at position `i`: marks the task and,
recursively through `next`, every following task dirty. -/
def invalidate_from (c : Chain) (i : Nat) : Chain :=
  c.mapIdx (fun j t => if i ≤ j then { t with dirty := true } else t)

/-- Exchange the tasks at positions `i` and `i+1` (the link surgery of
`Task.move_out` / `Task.move_in`, seen through the order abstraction). -/
def swapAdj (c : Chain) (i : Nat) : Chain :=
  setT (setT c i (getT c (i+1))) (i+1) (getT c i)

/-- SchedulingTask.move_out at position `i`: if a successor exists, swap with
it (the task ends at position `i+1`), then `self.invalidate()` — which starts
from the task's *new* position `i+1`. -/
def move_out_at (c : Chain) (i : Nat) : Chain :=
  if i + 1 < c.length then invalidate_from (swapAdj c i) (i+1) else c

/-- SchedulingTask.move_in at position `i`: if a predecessor exists, swap
with it (the task ends at position `i-1`), then `self.invalidate()` from the
task's new position `i-1`. -/
def move_in_at (c : Chain) (i : Nat) : Chain :=
  if 0 < i then invalidate_from (swapAdj c (i-1)) (i-1) else c

/-- SchedulingTask.insert: splice `t` immediately before position `i`
(so `t` lands at position `i`), then invalidate it from that position. -/
def insert_at (c : Chain) (i : Nat) (t : STask) : Chain :=
  invalidate_from (c.insertIdx i t) i

/-- SchedulingTask.drop at position `i`: `self.invalidate()` first (marking
positions `i` onward), then the link removal. -/
def drop_at (c : Chain) (i : Nat) : Chain :=
  (invalidate_from c i).eraseIdx i

/-- Resource.add_tail for a scheduling chain. -/
def add_tail (c : Chain) (t : STask) : Chain := c ++ [t]

/-- Resource.add_head for a scheduling chain. -/
def add_head (c : Chain) (t : STask) : Chain := t :: c

/-- One iteration of the `schedule_backward` loop at position `i`: with a
successor, `t.start = min(t.target, next.start - next.min_margin_before -
t.duration)` (the read of `next.start` and the `start` setter both go through
the lazy cache); the tail gets `t.start = t.target`. -/
def sched_back_step (c : Chain) (i : Nat) : Chain :=
  if i + 1 < c.length then
    let r := read_start c (i+1)
    let nt := getT r.2 (i+1)
    let t := getT r.2 i
    write_start r.2 i (min t.target (r.1 - nt.min_margin_before - t.duration))
  else
    write_start c i (getT c i).target

/-- The `schedule_backward` loop, walking positions `i, i-1, ..., 0`. -/
def schedule_backward_aux : Chain → Nat → Chain
  | c, 0 => sched_back_step c 0
  | c, i+1 => schedule_backward_aux (sched_back_step c (i+1)) i

/-- schedule_backward run from the tail (no-op on an empty chain, matching
the `while t` guard with a null argument). -/
def schedule_backward (c : Chain) : Chain :=
  if c.isEmpty then c else schedule_backward_aux c (c.length - 1)

/-- One iteration of the `schedule_forward` loop at position `i`: with a
predecessor, `t.start = max(prev.start + prev.duration + t.min_margin_before,
t.start)`; then `score += max(0, t.start - t.target)` re-reads `t.start`. -/
def sched_fwd_step (c : Chain) (i : Nat) : Int × Chain :=
  match i with
  | 0 =>
      let r := read_start c 0
      (max 0 (r.1 - (getT r.2 0).target), r.2)
  | j+1 =>
      let rp := read_start c j
      let p := getT rp.2 j
      let rt := read_start rp.2 (j+1)
      let t := getT rt.2 (j+1)
      let c3 := write_start rt.2 (j+1)
        (max (rp.1 + p.duration + t.min_margin_before) rt.1)
      let rs := read_start c3 (j+1)
      (max 0 (rs.1 - t.target), rs.2)

/-- The `schedule_forward` loop from position `i`, with `k` tasks left to
visit; accumulates the lateness score. -/
def schedule_forward_aux : Chain → Nat → Nat → Int × Chain
  | c, _, 0 => (0, c)
  | c, i, k+1 =>
      let s := sched_fwd_step c i
      let rest := schedule_forward_aux s.2 (i+1) k
      (s.1 + rest.1, rest.2)

/-- schedule_forward run from the head, returning the lateness score. -/
def schedule_forward (c : Chain) : Int × Chain :=
  schedule_forward_aux c 0 c.length

/-- SchedulingResource.schedule: backward sweep from the tail, then forward
sweep from the head returning the score; an empty resource returns 0. -/
def schedule_res (c : Chain) : Int × Chain :=
  if c.isEmpty then (0, c) else schedule_forward (schedule_backward c)

/-- improvement_move_in on the task at position `i` (`t2 = task`,
`t1 = task.previous`), following the source's read/write order.  Without a
predecessor it returns 0.  Otherwise it computes the current pair costs from
`t1.start`/`t2.start`, the hypothetical post-swap costs from
`t1.earliest_start`, and `improvement = t1_as + t2_as - t1_cs - t2_cs`.
In execute mode with `improvement < 0` it performs `task.move_in()` (swap +
invalidate from the new position `i-1`) and re-tightens both starts:
`next_task.start = max(next_task.earliest_start - next_task.min_margin_before,
min(task.target, task.start))`, then `task.start = max(task.earliest_start,
min(next_task.start - next_task.min_margin_before - task.duration,
task.target))`. -/
def improvement_move_in (c : Chain) (i : Nat) (execute : Bool) : Int × Chain :=
  if i = 0 then (0, c)
  else
    let r1 := read_start c (i-1)
    let r2 := read_start r1.2 i
    let t1 := getT r2.2 (i-1)
    let t2 := getT r2.2 i
    let t1_cs := max 0 (r1.1 - t1.target)
    let t2_cs := max 0 (r2.1 - t2.target)
    let re := read_es r2.2 (i-1)
    let t1_as := max 0 (re.1 + t2.min_margin_before + t2.duration - t1.target)
    let t2_as :=
      max 0 (re.1 - t1.min_margin_before + t2.min_margin_before - t2.target)
    let improvement := t1_as + t2_as - t1_cs - t2_cs
    if execute ∧ improvement < 0 then
      let c5 := invalidate_from (swapAdj re.2 (i-1)) (i-1)
      let rn := read_es c5 i
      let nt := getT rn.2 i
      let tk := getT rn.2 (i-1)
      let rs := read_start rn.2 (i-1)
      let c8 := write_start rs.2 i
        (max (rn.1 - nt.min_margin_before) (min tk.target rs.1))
      let rt := read_es c8 (i-1)
      let rn2 := read_start rt.2 i
      let nt2 := getT rn2.2 i
      let tk2 := getT rn2.2 (i-1)
      let c11 := write_start rn2.2 (i-1)
        (max rt.1 (min (rn2.1 - nt2.min_margin_before - tk2.duration) tk2.target))
      (improvement, c11)
    else (improvement, re.2)

/-- The `improve` cursor loop.  The cursor index decreases by one every
iteration: an applied swap moves the cursor task one slot left (cursor stays
on it), otherwise the cursor steps to the previous task.  At the head,
`improvement_move_in` returns 0 and the cursor walks off the chain. -/
def improve_aux : Chain → Nat → Int × Chain
  | c, 0 => (0, c)
  | c, i+1 =>
      let s := improvement_move_in c (i+1) true
      let rest := improve_aux s.2 i
      (if s.1 < 0 then s.1 + rest.1 else rest.1, rest.2)

/-- SchedulingResource.improve: greedy adjacent-exchange pass from the tail,
returning the accumulated (negative) improvement; 0 on an empty resource. -/
def improve_res (c : Chain) : Int × Chain :=
  if c.isEmpty then (0, c) else improve_aux c (c.length - 1)

/-- Instrumented `improve` loop: additionally returns the number of
`improvement_move_in` gain evaluations performed and the list of gains of the
exchanges actually applied. -/
def improve_trace : Chain → Nat → Int × Chain × Nat × List Int
  | c, 0 => (0, c, 1, [])
  | c, i+1 =>
      let s := improvement_move_in c (i+1) true
      let rest := improve_trace s.2 i
      (if s.1 < 0 then s.1 + rest.1 else rest.1, rest.2.1, rest.2.2.1 + 1,
       if s.1 < 0 then s.1 :: rest.2.2.2 else rest.2.2.2)

/-- Total lateness of a chain over the stored starts:
`sum over tasks of max(0, start - target)`. -/
def score_of (c : Chain) : Int :=
  (c.map (fun t => max 0 (t.start - t.target))).sum

/-- Static attributes of a task (identity, duration, target, margin): the
fields never written by the lazy cache machinery or the sweeps. -/
def attrs (t : STask) : Nat × Int × Int × Int :=
  (t.task_id, t.duration, t.target, t.min_margin_before)

/-- Right-hand side of the backward-sweep recurrence at position `j` of a
chain: the value `schedule_backward` is proved to leave in `start` — the
assigned value `min(target, successor.start - successor.min_margin_before -
duration)` (or `target` at the tail), clamped by the `start` setter at the
`earliest_start` floor. -/
def back_rhs (c : Chain) (j : Nat) : Int :=
  if j + 1 < c.length then
    max (getT c j).earliest_start
      (min (getT c j).target
        ((getT c (j+1)).start - (getT c (j+1)).min_margin_before -
          (getT c j).duration))
  else
    max (getT c j).earliest_start (getT c j).target


/-- Concrete chain of the spec's two-task example scenario: task A
(duration 5, target 0) then task B (duration 1, target 0), zero margins. -/
def example_AB : Chain := [mkSchedulingTask 1 5 0 0, mkSchedulingTask 2 1 0 0]

/-- Concrete chain exhibiting an unsound exchange-gain estimate:
task A (duration 12, target 0) then task B (duration 1, target 10),
zero margins. -/
def exchange_pair : Chain := [mkSchedulingTask 1 12 0 0, mkSchedulingTask 2 1 10 0]

/-- Concrete chain where the backward sweep's setter clamp binds at the tail:
task A (duration 1, target 10) then task B (duration 1, target 0). -/
def backward_pair : Chain := [mkSchedulingTask 1 1 10 0, mkSchedulingTask 2 1 0 0]

/-- Single freshly constructed task with a negative target. -/
def negative_target_solo : Chain := [mkSchedulingTask 1 1 (-1) 0]

/-- Two-task chain brought fully clean by reading the tail's `start`. -/
def clean_pair : Chain := (read_start [mkSchedulingTask 1 3 5 0, mkSchedulingTask 2 4 6 0] 1).2

/-! Pointer model: the intrusive doubly-linked `Task`/`Resource` layer.
Nodes live in an arena (`Store.nodes`) addressed by stable indices; `next`,
`previous` and the non-owning `resource` back-reference are stored per node.
The model covers one resource, so the back-reference is a flag.  Every
operation below is a statement-by-statement translation of the Cython
methods, reading each attribute from the current store at the moment the
source reads it. -/

/-- A `Task` node's link block (`next`, `previous`, `resource`). -/
structure Node where
  next : Option Nat
  previous : Option Nat
  resource : Bool
deriving DecidableEq, Repr

/-- A freshly constructed (or dropped) node: no links, no resource. -/
def blankNode : Node := { next := none, previous := none, resource := false }

/-- The resource's arena of nodes plus its `head`/`tail` references. -/
structure Store where
  nodes : List Node
  head : Option Nat
  tail : Option Nat
deriving DecidableEq, Repr

/-- Read node `x`. -/
def getN (s : Store) (x : Nat) : Node := s.nodes.getD x blankNode

/-- Overwrite node `x`. -/
def setN (s : Store) (x : Nat) (nd : Node) : Store :=
  { s with nodes := s.nodes.set x nd }

/-- Field write `x.next = v`. -/
def setNext (s : Store) (x : Nat) (v : Option Nat) : Store :=
  setN s x { getN s x with next := v }

/-- Field write `x.previous = v`. -/
def setPrev (s : Store) (x : Nat) (v : Option Nat) : Store :=
  setN s x { getN s x with previous := v }

/-- Field write `x.resource = v`. -/
def setRes (s : Store) (x : Nat) (v : Bool) : Store :=
  setN s x { getN s x with resource := v }

/-- Resource field write `head = v`. -/
def setHead (s : Store) (v : Option Nat) : Store := { s with head := v }

/-- Resource field write `tail = v`. -/
def setTail (s : Store) (v : Option Nat) : Store := { s with tail := v }

/-- Task.move_out: if a successor exists, exchange this node with it,
repairing neighbour links and the resource's head/tail. -/
def task_move_out (s : Store) (x : Nat) : Store :=
  match (getN s x).next with
  | none => s
  | some nxt =>
      let s1 := setPrev s nxt (getN s x).previous
      let s2 := match (getN s1 x).previous with
        | some p => setNext s1 p (some nxt)
        | none => if (getN s1 x).resource then setHead s1 (some nxt) else s1
      let s3 := setPrev s2 x (some nxt)
      let s4 := setNext s3 x (getN s3 nxt).next
      let s5 := match (getN s4 nxt).next with
        | some q => setPrev s4 q (some x)
        | none => if (getN s4 x).resource then setTail s4 (some x) else s4
      setNext s5 nxt (some x)

/-- Task.move_in: if a predecessor exists, exchange this node with it. -/
def task_move_in (s : Store) (x : Nat) : Store :=
  match (getN s x).previous with
  | none => s
  | some prev =>
      let s1 := setNext s prev (getN s x).next
      let s2 := match (getN s1 x).next with
        | some q => setPrev s1 q (some prev)
        | none => if (getN s1 x).resource then setTail s1 (some prev) else s1
      let s3 := setNext s2 x (some prev)
      let s4 := setPrev s3 x (getN s3 prev).previous
      let s5 := match (getN s4 prev).previous with
        | some p => setNext s4 p (some x)
        | none => if (getN s4 x).resource then setHead s4 (some x) else s4
      setPrev s5 prev (some x)

/-- Task.drop: unlink this node, repairing neighbours and head/tail, then
clear its links and resource reference. -/
def task_drop (s : Store) (x : Nat) : Store :=
  let s1 := match (getN s x).previous with
    | some p => setNext s p (getN s x).next
    | none => if (getN s x).resource then setHead s (getN s x).next else s
  let s2 := match (getN s1 x).next with
    | some q => setPrev s1 q (getN s1 x).previous
    | none => if (getN s1 x).resource then setTail s1 (getN s1 x).previous else s1
  setN s2 x blankNode

/-- Task.insert (`x.insert(t)`): drop `t` from wherever it resides, then
splice it immediately before `x`, inheriting `x`'s resource. -/
def task_insert (s : Store) (x t : Nat) : Store :=
  let s1 := task_drop s t
  let s2 := setRes s1 t (getN s1 x).resource
  let s3 := match (getN s2 x).previous with
    | some p => setNext s2 p (some t)
    | none => if (getN s2 x).resource then setHead s2 (some t) else s2
  let s4 := setNext s3 t (some x)
  let s5 := setPrev s4 t (getN s4 x).previous
  setPrev s5 x (some t)

/-- Resource.add_tail. -/
def res_add_tail (s : Store) (x : Nat) : Store :=
  let s1 := setRes s x true
  let s2 := setNext s1 x none
  let s3 := match s2.tail with
    | some t => setNext (setPrev s2 x (some t)) t (some x)
    | none => setPrev s2 x none
  let s4 := setTail s3 (some x)
  if s4.head = none then setHead s4 (some x) else s4

/-- Resource.add_head. -/
def res_add_head (s : Store) (x : Nat) : Store :=
  let s1 := setRes s x true
  let s2 := setPrev s1 x none
  let s3 := match s2.head with
    | some h => setPrev (setNext s2 x (some h)) h (some x)
    | none => setNext s2 x none
  let s4 := setHead s3 (some x)
  if s4.tail = none then setTail s4 (some x) else s4

/-- Walk forward following `next`, with fuel. -/
def walk_next (s : Store) : Nat → Option Nat → List Nat
  | 0, _ => []
  | _+1, none => []
  | k+1, some x => x :: walk_next s k (getN s x).next

/-- The head→tail traversal (`iter_tasks`), fuelled by the arena size. -/
def forward_walk (s : Store) : List Nat :=
  walk_next s s.nodes.length s.head

/-- Walk backward following `previous`, with fuel. -/
def walk_prev (s : Store) : Nat → Option Nat → List Nat
  | 0, _ => []
  | _+1, none => []
  | k+1, some x => x :: walk_prev s k (getN s x).previous

/-- The tail→head traversal, fuelled by the arena size. -/
def backward_walk (s : Store) : List Nat :=
  walk_prev s s.nodes.length s.tail

/-- Doubly-linked segment predicate: the nodes of `L`, in order, are linked
by `next`/`previous`, the first node's `previous` is `pa`, the last node's
`next` is `nb`, and every node is in range with its resource flag set. -/
def dllseg (s : Store) : Option Nat → List Nat → Option Nat → Prop
  | _, [], _ => True
  | pa, x :: xs, nb =>
      x < s.nodes.length ∧ (getN s x).previous = pa ∧
      (getN s x).resource = true ∧
      (getN s x).next = (xs.head?).or nb ∧ dllseg s (some x) xs nb

/-- The last node of `L`, seen as "the `previous` reference at the end of the
segment whose front boundary is `pa`". -/
def endPrev : Option Nat → List Nat → Option Nat
  | pa, [] => pa
  | _, x :: xs => endPrev (some x) xs

/-- The store represents the member list `L`: `head`/`tail` point at its
ends, the members form a doubly-linked segment with `none` boundaries, and
every non-member node in the arena is blank. -/
def encodes (s : Store) (L : List Nat) : Prop :=
  L.Nodup ∧ s.head = L.head? ∧ s.tail = endPrev none L ∧
  dllseg s none L none ∧
  (∀ y, y < s.nodes.length → y ∉ L → getN s y = blankNode)

/-- The link-surgery operations, with the documented contract as a guard:
indices must address arena nodes, attach targets must be detached, and
`insert` requires an attached receiver distinct from its argument. -/
inductive LOp where
  | moveOut (x : Nat)
  | moveIn (x : Nat)
  | dropN (x : Nat)
  | insertBefore (x t : Nat)
  | addTail (x : Nat)
  | addHead (x : Nat)
deriving DecidableEq, Repr

/-- Run one operation, refusing contract violations. -/
def apply_op (s : Store) : LOp → Option Store
  | .moveOut x => if x < s.nodes.length then some (task_move_out s x) else none
  | .moveIn x => if x < s.nodes.length then some (task_move_in s x) else none
  | .dropN x => if x < s.nodes.length then some (task_drop s x) else none
  | .insertBefore x t =>
      if x < s.nodes.length ∧ t < s.nodes.length ∧ t ≠ x ∧
          (getN s x).resource = true
      then some (task_insert s x t) else none
  | .addTail x =>
      if x < s.nodes.length ∧ getN s x = blankNode
      then some (res_add_tail s x) else none
  | .addHead x =>
      if x < s.nodes.length ∧ getN s x = blankNode
      then some (res_add_head s x) else none

/-- Run a sequence of operations. -/
def apply_ops : Store → List LOp → Option Store
  | s, [] => some s
  | s, o :: os =>
      match apply_op s o with
      | none => none
      | some s' => apply_ops s' os

/-- A fresh resource with an arena of `k` detached nodes. -/
def init_store (k : Nat) : Store :=
  { nodes := List.replicate k blankNode, head := none, tail := none }


/-- A demonstration operation sequence exercising every primitive. -/
def demo_ops : List LOp :=
  [LOp.addTail 0, LOp.addTail 1, LOp.addHead 2, LOp.moveOut 2,
   LOp.insertBefore 1 3, LOp.dropN 0, LOp.moveIn 3]

/-- The store reached by `demo_ops` from a four-node arena. -/
def demo_store : Store :=
  (apply_ops (init_store 4) demo_ops).getD (init_store 0)

/-! Basic lemmas about `getT`/`setT`. -/

theorem getT_eq_getElem (c : Chain) (i : Nat) (h : i < c.length) :
    getT c i = c.get ⟨i, h⟩ := by
  simp [getT, List.getD_eq_getElem?_getD, List.getElem?_eq_getElem h]

theorem getT_oob (c : Chain) (i : Nat) (h : c.length ≤ i) :
    getT c i = dfltTask := by
  simp [getT, List.getD_eq_getElem?_getD, List.getElem?_eq_none h]

theorem setT_length (c : Chain) (i : Nat) (t : STask) :
    (setT c i t).length = c.length := by
  simp [setT]

theorem getT_setT_self (c : Chain) (i : Nat) (t : STask) (h : i < c.length) :
    getT (setT c i t) i = t := by
  simp [getT, setT, List.getD_eq_getElem?_getD, List.getElem?_set_self h]

theorem getT_setT_ne (c : Chain) (i j : Nat) (t : STask) (h : i ≠ j) :
    getT (setT c i t) j = getT c j := by
  simp [getT, setT, List.getD_eq_getElem?_getD, List.getElem?_set_ne h]

theorem getT_dirty_lt (c : Chain) (i : Nat) (h : (getT c i).dirty = true) :
    i < c.length := by
  by_contra hle
  rw [getT_oob c i (Nat.le_of_not_lt hle)] at h
  simp [dfltTask] at h

/-- C10: on a resource holding no tasks, `schedule()` returns score 0 and
`improve()` returns improvement 0, and neither call changes the resource's
(empty) state. -/
theorem empty_resource_schedule_improve :
    schedule_res [] = (0, []) ∧ improve_res [] = (0, []) := by
  constructor <;> rfl

/-- C9: the `SchedulingTask` constructor performs no validation; run at the
failing input (duration `-1`, margin `-2`) it succeeds and produces a task
carrying the negative-time attributes, instead of raising a validation
error. -/
theorem constructor_accepts_negative_inputs :
    (mkSchedulingTask 7 (-1) 0 (-2)).duration = -1 ∧
    (mkSchedulingTask 7 (-1) 0 (-2)).min_margin_before = -2 ∧
    (mkSchedulingTask 7 (-1) 0 (-2)).dirty = true := by
  refine ⟨rfl, rfl, rfl⟩

/-- C1: evaluation of the code at the failing input.  On the fully clean
two-task chain `clean_pair = [task 1, task 2]`, `move_out` on the head task
swaps it with its successor and then invalidates only from the task's *new*
position 1: the former successor (task 2), now at position 0, still reads
`dirty = false` — violating invalidation completeness, which requires every
task at position `≥ 0` to be dirty. -/
theorem move_out_leaves_former_successor_clean :
    (getT clean_pair 0).dirty = false ∧ (getT clean_pair 1).dirty = false ∧
    (getT (move_out_at clean_pair 0) 0).task_id = 2 ∧
    (getT (move_out_at clean_pair 0) 0).dirty = false ∧
    (getT (move_out_at clean_pair 0) 1).dirty = true := by
  refine ⟨rfl, rfl, rfl, rfl, rfl⟩

/-- C2 counterexample: a freshly constructed task with target `-1` and no
predecessor, once its `start` is read, is clean (`dirty = false`) yet has
`start = -1 < 0 = earliest_start`: `calculate()` does not clamp `start` in
the no-predecessor branch, refuting the claimed invariant. -/
theorem clean_head_task_start_below_floor :
    (getT (read_start negative_target_solo 0).2 0).dirty = false ∧
    (getT (read_start negative_target_solo 0).2 0).start <
      (getT (read_start negative_target_solo 0).2 0).earliest_start := by
  exact ⟨rfl, by decide⟩

/-- C3 counterexample: on `backward_pair = [A (duration 1, target 10),
B (duration 1, target 0)]`, after `schedule_backward` the tail task B has
`start = 1 ≠ 0 = target`: the `start` setter clamps the assigned target at
`earliest_start = 1`. -/
theorem backward_tail_start_ne_target :
    (getT (schedule_backward backward_pair) 1).start = 1 ∧
    (getT (schedule_backward backward_pair) 1).target = 0 ∧
    (getT (schedule_backward backward_pair) 1).start ≠
      (getT (schedule_backward backward_pair) 1).target := by
  refine ⟨rfl, rfl, by decide⟩

/-- C4 counterexample: on `exchange_pair = [A (duration 12, target 0),
B (duration 1, target 10)]` with zero margins, `schedule()` returns 2, then
`improve()` applies an exchange with computed gain `-1` — but the resulting
total lateness `sum of max(0, start - target)` is 10, strictly greater than
the score `schedule()` alone produced. -/
theorem improve_can_worsen_total_lateness :
    (schedule_res exchange_pair).1 = 2 ∧
    (improve_res (schedule_res exchange_pair).2).1 = -1 ∧
    score_of (improve_res (schedule_res exchange_pair).2).2 = 10 ∧
    ¬ score_of (improve_res (schedule_res exchange_pair).2).2 ≤
        (schedule_res exchange_pair).1 := by
  refine ⟨rfl, rfl, rfl, by decide⟩

/-- C5 counterexample: on the spec's example `example_AB = [A (duration 5,
target 0), B (duration 1, target 0)]`, `schedule()` followed by `improve()`
does not return `-5`: the engine's lateness is measured on starts, not
completions, so the score drops from 5 to 1 and the returned estimate is
`-4`. -/
theorem improve_example_not_minus_five :
    (improve_res (schedule_res example_AB).2).1 ≠ -5 := by
  decide

/-- C5 (amended): on `example_AB`, `schedule()` returns score 5, and
`improve()` detects and applies the adjacent exchange that puts B before A
(resulting order `[B, A]` with starts 0 and 1, actual lateness 1) and
returns an improvement of exactly `-4`. -/
theorem improve_example_applies_swap_minus_four :
    (schedule_res example_AB).1 = 5 ∧
    (improve_res (schedule_res example_AB).2).1 = -4 ∧
    ((improve_res (schedule_res example_AB).2).2).map STask.task_id = [2, 1] ∧
    ((improve_res (schedule_res example_AB).2).2).map STask.start = [0, 1] ∧
    score_of (improve_res (schedule_res example_AB).2).2 = 1 := by
  refine ⟨rfl, rfl, rfl, rfl, rfl⟩

/-! Lemmas about the lazy-cache closure `forceIdx`. -/

theorem forceIdx_length (c : Chain) (i : Nat) :
    (forceIdx c i).length = c.length := by
  induction i generalizing c with
  | zero =>
      rw [forceIdx]
      split
      · exact setT_length _ _ _
      · rfl
  | succ i ih =>
      rw [forceIdx]
      split
      · rw [setT_length, ih]
      · rfl

theorem forceIdx_getT_gt (c : Chain) (i j : Nat) (h : i < j) :
    getT (forceIdx c i) j = getT c j := by
  induction i generalizing c with
  | zero =>
      rw [forceIdx]
      split
      · exact getT_setT_ne _ _ _ _ (Nat.ne_of_lt h)
      · rfl
  | succ i ih =>
      rw [forceIdx]
      split
      · rw [getT_setT_ne _ _ _ _ (Nat.ne_of_lt h),
          ih _ (Nat.lt_of_succ_lt h)]
      · rfl

theorem forceIdx_dirty_self (c : Chain) (i : Nat) :
    (getT (forceIdx c i) i).dirty = false := by
  cases i with
  | zero =>
      rw [forceIdx]
      split
      · next hd =>
          rw [getT_setT_self _ _ _ (getT_dirty_lt _ _ hd)]
      · next hd => exact Bool.eq_false_iff.mpr fun h => hd h
  | succ i =>
      rw [forceIdx]
      split
      · next hd =>
          rw [getT_setT_self]
          rw [forceIdx_length]
          exact getT_dirty_lt _ _ hd
      · next hd => exact Bool.eq_false_iff.mpr fun h => hd h

theorem forceIdx_of_clean (c : Chain) (i : Nat)
    (h : (getT c i).dirty = false) : forceIdx c i = c := by
  cases i with
  | zero => rw [forceIdx]; simp [h]
  | succ i => rw [forceIdx]; simp [h]

theorem forceIdx_getT_clean (c : Chain) (i j : Nat)
    (h : (getT c j).dirty = false) :
    getT (forceIdx c i) j = getT c j := by
  induction i generalizing c with
  | zero =>
      rw [forceIdx]
      split
      · next hd =>
          rcases eq_or_ne 0 j with rfl | hne
          · rw [hd] at h; cases h
          · exact getT_setT_ne _ _ _ _ hne
      · rfl
  | succ i ih =>
      rw [forceIdx]
      split
      · next hd =>
          rcases eq_or_ne (i+1) j with rfl | hne
          · rw [hd] at h; cases h
          · rw [getT_setT_ne _ _ _ _ hne, ih _ h]
      · rfl

theorem forceIdx_attrs (c : Chain) (i j : Nat) :
    attrs (getT (forceIdx c i) j) = attrs (getT c j) := by
  induction i generalizing c with
  | zero =>
      rw [forceIdx]
      split
      · next hd =>
          rcases eq_or_ne 0 j with rfl | hne
          · rw [getT_setT_self _ _ _ (getT_dirty_lt _ _ hd)]; rfl
          · rw [getT_setT_ne _ _ _ _ hne]
      · rfl
  | succ i ih =>
      rw [forceIdx]
      split
      · next hd =>
          rcases eq_or_ne (i+1) j with rfl | hne
          · rw [getT_setT_self _ _ _
              (by rw [forceIdx_length]; exact getT_dirty_lt _ _ hd)]
            rfl
          · rw [getT_setT_ne _ _ _ _ hne, ih]
      · rfl

/-! Lemmas about the `start` property setter. -/

theorem write_start_length (c : Chain) (i : Nat) (v : Int) :
    (write_start c i v).length = c.length := by
  rw [write_start, setT_length, forceIdx_length]

theorem write_start_getT_gt (c : Chain) (i j : Nat) (v : Int) (h : i < j) :
    getT (write_start c i v) j = getT c j := by
  rw [write_start, getT_setT_ne _ _ _ _ (Nat.ne_of_lt h),
    forceIdx_getT_gt _ _ _ h]

theorem write_start_self (c : Chain) (i : Nat) (v : Int) (h : i < c.length) :
    getT (write_start c i v) i =
      { getT (forceIdx c i) i with
          start := max (getT (forceIdx c i) i).earliest_start v } := by
  rw [write_start, getT_setT_self]
  rw [forceIdx_length]
  exact h

theorem write_start_dirty_self (c : Chain) (i : Nat) (v : Int) :
    (getT (write_start c i v) i).dirty = false := by
  rcases Nat.lt_or_ge i c.length with h | h
  · rw [write_start_self _ _ _ h]
    exact forceIdx_dirty_self c i
  · rw [write_start, setT]
    rw [List.set_eq_of_length_le (by rw [forceIdx_length]; exact h)]
    rw [getT_oob _ _ (by rw [forceIdx_length]; exact h)]
    rfl

theorem write_start_attrs (c : Chain) (i j : Nat) (v : Int) :
    attrs (getT (write_start c i v) j) = attrs (getT c j) := by
  rcases eq_or_ne i j with rfl | hne
  · rcases Nat.lt_or_ge i c.length with h | h
    · rw [write_start_self _ _ _ h]
      have := forceIdx_attrs c i i
      simpa [attrs] using this
    · have hc : forceIdx c i = c :=
        forceIdx_of_clean c i (by rw [getT_oob _ _ h]; rfl)
      rw [write_start, hc, setT, List.set_eq_of_length_le h]
  · rw [write_start, getT_setT_ne _ _ _ _ hne, forceIdx_attrs]

theorem write_start_clean (c : Chain) (i j : Nat) (v : Int)
    (h : (getT c j).dirty = false) :
    (getT (write_start c i v) j).dirty = false := by
  rcases eq_or_ne i j with rfl | hne
  · exact write_start_dirty_self c i v
  · rw [write_start, getT_setT_ne _ _ _ _ hne, forceIdx_getT_clean _ _ _ h]
    exact h

theorem write_start_clean_es (c : Chain) (i j : Nat) (v : Int)
    (h : (getT c j).dirty = false) :
    (getT (write_start c i v) j).earliest_start =
      (getT c j).earliest_start := by
  rcases eq_or_ne i j with rfl | hne
  · rcases Nat.lt_or_ge i c.length with hl | hl
    · rw [write_start_self _ _ _ hl]
      have := forceIdx_of_clean c i h
      rw [this]
    · rw [write_start, setT,
        List.set_eq_of_length_le (by rw [forceIdx_length]; exact hl),
        forceIdx_of_clean c i h]
  · rw [write_start, getT_setT_ne _ _ _ _ hne, forceIdx_getT_clean _ _ _ h]

/-! Task-identity preservation: the lazy cache machinery never reorders the
chain. -/

theorem list_set_getD_self {α : Type} :
    ∀ (l : List α) (i : Nat) (d : α), l.set i (l.getD i d) = l
  | [], _, _ => rfl
  | _ :: _, 0, _ => rfl
  | a :: l, i+1, d => by
      simpa [List.set, List.getD] using list_set_getD_self l i d

theorem map_task_id_setT :
    ∀ (c : Chain) (i : Nat) (t : STask),
      t.task_id = (getT c i).task_id →
      (setT c i t).map STask.task_id = c.map STask.task_id
  | [], _, _, _ => rfl
  | a :: c, 0, t, h => by
      simp only [getT, List.getD] at h
      simp [setT, h]
  | a :: c, i+1, t, h => by
      simp only [getT, List.getD] at h
      simp only [setT, List.set, List.map]
      rw [show (c.set i t).map STask.task_id = c.map STask.task_id from
        map_task_id_setT c i t h]

theorem map_task_id_forceIdx (c : Chain) (i : Nat) :
    (forceIdx c i).map STask.task_id = c.map STask.task_id := by
  induction i generalizing c with
  | zero =>
      rw [forceIdx]
      split
      · exact map_task_id_setT _ _ _ rfl
      · rfl
  | succ i ih =>
      rw [forceIdx]
      split
      · rw [map_task_id_setT _ _ _
          (by rw [forceIdx_getT_gt c i (i+1) (Nat.lt_succ_self i)]), ih]
      · rfl

/-- C2 (amended): when `calculate()` runs on a dirty task (the lazy closure
`forceIdx` at a dirty position `i`), it clears `dirty`; with no predecessor
(`i = 0`) it sets `earliest_start` to 0 and leaves `start` unchanged (so a
clean head task may keep `start < earliest_start`); with a predecessor
(`i = j+1`) it sets `earliest_start` to the predecessor's forced
`earliest_stop` (`earliest_start + duration`) plus `min_margin_before`, and
clamps `start` up to at least `earliest_start`. -/
theorem calculate_clamp_spec (c : Chain) (i : Nat)
    (h : (getT c i).dirty = true) :
    (getT (forceIdx c i) i).dirty = false ∧
    (i = 0 →
      (getT (forceIdx c i) i).earliest_start = 0 ∧
      (getT (forceIdx c i) i).start = (getT c i).start) ∧
    (∀ j, i = j + 1 →
      (getT (forceIdx c i) i).earliest_start =
        (getT (forceIdx c j) j).earliest_start +
          (getT (forceIdx c j) j).duration + (getT c i).min_margin_before ∧
      (getT (forceIdx c i) i).start =
        max (getT (forceIdx c i) i).earliest_start (getT c i).start ∧
      (getT (forceIdx c i) i).earliest_start ≤
        (getT (forceIdx c i) i).start) := by
  refine ⟨forceIdx_dirty_self c i, ?_, ?_⟩
  · rintro rfl
    rw [forceIdx]
    simp only [h, if_true]
    rw [getT_setT_self _ _ _ (getT_dirty_lt _ _ h)]
    exact ⟨rfl, rfl⟩
  · rintro j rfl
    rw [forceIdx]
    simp only [h, if_true]
    rw [getT_setT_self _ _ _
      (by rw [forceIdx_length]; exact getT_dirty_lt _ _ h)]
    exact ⟨rfl, rfl, le_max_left _ _⟩

/-- Witness for `calculate_clamp_spec`: the dirty tail of a concrete
two-task chain. -/
theorem calculate_clamp_spec_witness :
    (getT [mkSchedulingTask 1 2 3 0, mkSchedulingTask 2 2 3 1] 1).dirty = true ∧
    ((getT (forceIdx [mkSchedulingTask 1 2 3 0, mkSchedulingTask 2 2 3 1] 1) 1).dirty = false ∧
     (1 = 0 →
       (getT (forceIdx [mkSchedulingTask 1 2 3 0, mkSchedulingTask 2 2 3 1] 1) 1).earliest_start = 0 ∧
       (getT (forceIdx [mkSchedulingTask 1 2 3 0, mkSchedulingTask 2 2 3 1] 1) 1).start =
         (getT [mkSchedulingTask 1 2 3 0, mkSchedulingTask 2 2 3 1] 1).start) ∧
     (∀ j, 1 = j + 1 →
       (getT (forceIdx [mkSchedulingTask 1 2 3 0, mkSchedulingTask 2 2 3 1] 1) 1).earliest_start =
         (getT (forceIdx [mkSchedulingTask 1 2 3 0, mkSchedulingTask 2 2 3 1] j) j).earliest_start +
           (getT (forceIdx [mkSchedulingTask 1 2 3 0, mkSchedulingTask 2 2 3 1] j) j).duration +
           (getT [mkSchedulingTask 1 2 3 0, mkSchedulingTask 2 2 3 1] 1).min_margin_before ∧
       (getT (forceIdx [mkSchedulingTask 1 2 3 0, mkSchedulingTask 2 2 3 1] 1) 1).start =
         max (getT (forceIdx [mkSchedulingTask 1 2 3 0, mkSchedulingTask 2 2 3 1] 1) 1).earliest_start
           (getT [mkSchedulingTask 1 2 3 0, mkSchedulingTask 2 2 3 1] 1).start ∧
       (getT (forceIdx [mkSchedulingTask 1 2 3 0, mkSchedulingTask 2 2 3 1] 1) 1).earliest_start ≤
         (getT (forceIdx [mkSchedulingTask 1 2 3 0, mkSchedulingTask 2 2 3 1] 1) 1).start)) :=
  ⟨by decide, calculate_clamp_spec [mkSchedulingTask 1 2 3 0, mkSchedulingTask 2 2 3 1] 1 (by decide)⟩

/-- C4 (amended): every exchange that `improve()` actually applies has a
strictly negative computed gain — a structural change of the task order
happens only in the execute branch, which is guarded by `improvement < 0`.
(The other half of the original claim is refuted by
the concrete run recorded above: the post-improvement total lateness can
exceed the score of `schedule()` alone.) -/
theorem applied_exchange_gain_negative (c : Chain) (i : Nat)
    (h : ((improvement_move_in c i true).2).map STask.task_id ≠
      c.map STask.task_id) :
    (improvement_move_in c i true).1 < 0 := by
  by_cases hi : i = 0
  · exfalso
    apply h
    rw [improvement_move_in, if_pos hi]
  · have key : (improvement_move_in c i true).1 < 0 ∨
        (improvement_move_in c i true).2 =
          forceIdx (forceIdx (forceIdx c (i-1)) i) (i-1) := by
      rw [improvement_move_in, if_neg hi]
      simp only []
      split
      · next hcond => exact Or.inl hcond.2
      · next hcond => exact Or.inr rfl
    rcases key with hlt | heq
    · exact hlt
    · exfalso
      apply h
      rw [heq, map_task_id_forceIdx, map_task_id_forceIdx, map_task_id_forceIdx]

/-- Witness for `applied_exchange_gain_negative`: on the scheduled
`exchange_pair`, the execute-mode exchange at the tail reorders the chain,
and its computed gain is indeed strictly negative. -/
theorem applied_exchange_gain_negative_witness :
    ((improvement_move_in (schedule_res exchange_pair).2 1 true).2).map STask.task_id ≠
      ((schedule_res exchange_pair).2).map STask.task_id ∧
    (improvement_move_in (schedule_res exchange_pair).2 1 true).1 < 0 :=
  ⟨by decide, applied_exchange_gain_negative (schedule_res exchange_pair).2 1 (by decide)⟩

/-! Lemmas for the improvement loop instrumentation. -/

theorem list_sum_nonpos : ∀ (l : List Int), (∀ g ∈ l, g ≤ 0) → l.sum ≤ 0
  | [], _ => le_refl 0
  | a :: l, h => by
      rw [List.sum_cons]
      have ha := h a (List.mem_cons_self a l)
      have hl := list_sum_nonpos l (fun g hg => h g (List.mem_cons_of_mem a hg))
      omega

theorem improve_trace_agrees : ∀ (i : Nat) (c : Chain),
    (improve_trace c i).1 = (improve_aux c i).1 ∧
    (improve_trace c i).2.1 = (improve_aux c i).2 ∧
    (improve_trace c i).2.2.1 = i + 1 ∧
    (improve_trace c i).2.2.2.sum = (improve_aux c i).1 ∧
    (∀ g ∈ (improve_trace c i).2.2.2, g < 0)
  | 0, c => by
      refine ⟨rfl, rfl, rfl, rfl, ?_⟩
      intro g hg
      simp [improve_trace] at hg
  | i+1, c => by
      have ih := improve_trace_agrees i (improvement_move_in c (i+1) true).2
      rw [improve_trace, improve_aux]
      simp only []
      by_cases hs : (improvement_move_in c (i+1) true).1 < 0
      · simp only [hs, if_true, List.sum_cons]
        refine ⟨by rw [ih.1], ih.2.1, by rw [ih.2.2.1], by rw [ih.2.2.2.1], ?_⟩
        intro g hg
        rcases List.mem_cons.mp hg with rfl | hg'
        · exact hs
        · exact ih.2.2.2.2 g hg'
      · simp only [hs, if_false]
        exact ⟨ih.1, ih.2.1, by rw [ih.2.2.1], ih.2.2.2.1, ih.2.2.2.2⟩

/-- C6: for a resource with `n` tasks, the `improve()` loop performs exactly
`n` evaluations of the adjacent-exchange gain (the cursor position strictly
decreases each iteration), which is at most `n * n`; the returned improvement
equals the sum of the gains of the exchanges it actually applied, each of
which is strictly negative, hence the returned improvement is `≤ 0`. -/
theorem improve_termination_and_sum (c : Chain) (h : c ≠ []) :
    (improve_trace c (c.length - 1)).2.1 = (improve_res c).2 ∧
    (improve_trace c (c.length - 1)).2.2.1 = c.length ∧
    (improve_trace c (c.length - 1)).2.2.1 ≤ c.length * c.length ∧
    (improve_trace c (c.length - 1)).2.2.2.sum = (improve_res c).1 ∧
    (∀ g ∈ (improve_trace c (c.length - 1)).2.2.2, g < 0) ∧
    (improve_res c).1 ≤ 0 := by
  have hpos : 0 < c.length := List.length_pos.mpr h
  have hne : c.isEmpty = false := by
    cases c with
    | nil => exact absurd rfl h
    | cons a l => rfl
  have hres : improve_res c = improve_aux c (c.length - 1) := by
    rw [improve_res, hne]
    rfl
  have ha := improve_trace_agrees (c.length - 1) c
  refine ⟨by rw [ha.2.1, hres], by rw [ha.2.2.1]; omega, ?_, ?_, ha.2.2.2.2, ?_⟩
  · rw [ha.2.2.1]
    have : c.length ≤ c.length * c.length := Nat.le_mul_of_pos_left _ hpos
    omega
  · rw [ha.2.2.2.1, hres]
  · rw [hres, ← ha.2.2.2.1]
    exact list_sum_nonpos _ (fun g hg => le_of_lt (ha.2.2.2.2 g hg))

/-- Witness for `improve_termination_and_sum`: a concrete three-task
resource. -/
theorem improve_termination_and_sum_witness :
    ([mkSchedulingTask 1 5 0 0, mkSchedulingTask 2 1 0 0,
      mkSchedulingTask 3 2 1 0] : Chain) ≠ [] ∧
    ((improve_trace [mkSchedulingTask 1 5 0 0, mkSchedulingTask 2 1 0 0,
        mkSchedulingTask 3 2 1 0] 2).2.2.1 = 3 ∧
     (improve_trace [mkSchedulingTask 1 5 0 0, mkSchedulingTask 2 1 0 0,
        mkSchedulingTask 3 2 1 0] 2).2.2.2.sum =
       (improve_res [mkSchedulingTask 1 5 0 0, mkSchedulingTask 2 1 0 0,
        mkSchedulingTask 3 2 1 0]).1 ∧
     (improve_res [mkSchedulingTask 1 5 0 0, mkSchedulingTask 2 1 0 0,
        mkSchedulingTask 3 2 1 0]).1 ≤ 0) := by
  refine ⟨by decide, ?_⟩
  have := improve_termination_and_sum
    [mkSchedulingTask 1 5 0 0, mkSchedulingTask 2 1 0 0, mkSchedulingTask 3 2 1 0]
    (by decide)
  exact ⟨this.2.1, this.2.2.2.1, this.2.2.2.2.2⟩

/-! Attribute projections out of `attrs` equalities. -/

theorem target_of_attrs {a b : STask} (h : attrs a = attrs b) :
    a.target = b.target := congrArg (fun x => x.2.2.1) h

theorem duration_of_attrs {a b : STask} (h : attrs a = attrs b) :
    a.duration = b.duration := congrArg (fun x => x.2.1) h

theorem margin_of_attrs {a b : STask} (h : attrs a = attrs b) :
    a.min_margin_before = b.min_margin_before := congrArg (fun x => x.2.2.2) h

theorem id_of_attrs {a b : STask} (h : attrs a = attrs b) :
    a.task_id = b.task_id := congrArg (fun x => x.1) h

/-! Lemmas about one backward-sweep step. -/

theorem back_rhs_congr (c₁ c₂ : Chain) (j : Nat) (hlen : c₁.length = c₂.length)
    (hj : getT c₁ j = getT c₂ j) (hj1 : getT c₁ (j+1) = getT c₂ (j+1)) :
    back_rhs c₁ j = back_rhs c₂ j := by
  rw [back_rhs, back_rhs, hlen, hj, hj1]

theorem sched_back_step_length (c : Chain) (i : Nat) :
    (sched_back_step c i).length = c.length := by
  rw [sched_back_step]
  split
  · simp only [read_start]
    rw [write_start_length, forceIdx_length]
  · rw [write_start_length]

theorem sched_back_step_gt (c : Chain) (i : Nat)
    (hcl : i + 1 < c.length → (getT c (i+1)).dirty = false) :
    ∀ j, i < j → getT (sched_back_step c i) j = getT c j := by
  intro j hj
  rw [sched_back_step]
  split
  · next hlen =>
      have hc : forceIdx c (i+1) = c := forceIdx_of_clean _ _ (hcl hlen)
      simp only [read_start, hc]
      exact write_start_getT_gt c i j _ hj
  · exact write_start_getT_gt c i j _ hj

theorem sched_back_step_attrs (c : Chain) (i : Nat) :
    ∀ j, attrs (getT (sched_back_step c i) j) = attrs (getT c j) := by
  intro j
  rw [sched_back_step]
  split
  · simp only [read_start]
    rw [write_start_attrs, forceIdx_attrs]
  · rw [write_start_attrs]

theorem sched_back_step_clean_es (c : Chain) (i : Nat) (j : Nat)
    (hj : (getT c j).dirty = false) :
    (getT (sched_back_step c i) j).dirty = false ∧
    (getT (sched_back_step c i) j).earliest_start =
      (getT c j).earliest_start := by
  rw [sched_back_step]
  split
  · simp only [read_start]
    have hj' : (getT (forceIdx c (i+1)) j).dirty = false := by
      rw [forceIdx_getT_clean _ _ _ hj]; exact hj
    refine ⟨write_start_clean _ _ _ _ hj', ?_⟩
    rw [write_start_clean_es _ _ _ _ hj', forceIdx_getT_clean _ _ _ hj]
  · exact ⟨write_start_clean _ _ _ _ hj, write_start_clean_es _ _ _ _ hj⟩

theorem sched_back_step_self (c : Chain) (i : Nat) (hi : i < c.length)
    (hcl : i + 1 < c.length → (getT c (i+1)).dirty = false) :
    (getT (sched_back_step c i) i).dirty = false ∧
    (getT (sched_back_step c i) i).start =
      back_rhs (sched_back_step c i) i := by
  rw [sched_back_step]
  split
  · next hlen =>
      have hc : forceIdx c (i+1) = c := forceIdx_of_clean _ _ (hcl hlen)
      simp only [read_start, hc]
      refine ⟨write_start_dirty_self _ _ _, ?_⟩
      rw [back_rhs]
      rw [if_pos (by rw [write_start_length]; exact hlen)]
      rw [write_start_getT_gt c i (i+1) _ (Nat.lt_succ_self i)]
      rw [write_start_self c i _ hi]
      simp only []
      rw [target_of_attrs (forceIdx_attrs c i i),
        duration_of_attrs (forceIdx_attrs c i i)]
  · next hlen =>
      refine ⟨write_start_dirty_self _ _ _, ?_⟩
      rw [back_rhs]
      rw [if_neg (by rw [write_start_length]; exact hlen)]
      rw [write_start_self c i _ hi]
      simp only []
      rw [target_of_attrs (forceIdx_attrs c i i)]

/-- Master invariant of the backward sweep: walking positions `i` down to 0
over a chain whose positions above `i` are clean, the sweep preserves the
length, the positions above `i`, and all static attributes; it leaves every
visited position clean with `start` satisfying the backward recurrence
`back_rhs`; and it never disturbs the cached `earliest_start` of a position
that was already clean. -/
theorem back_aux_master : ∀ (i : Nat) (c : Chain),
    (∀ j, i < j → j < c.length → (getT c j).dirty = false) →
    (schedule_backward_aux c i).length = c.length ∧
    (∀ j, i < j → getT (schedule_backward_aux c i) j = getT c j) ∧
    (∀ j, attrs (getT (schedule_backward_aux c i) j) = attrs (getT c j)) ∧
    (∀ j, j ≤ i → j < c.length →
      (getT (schedule_backward_aux c i) j).dirty = false) ∧
    (∀ j, j ≤ i → j < c.length →
      (getT (schedule_backward_aux c i) j).start =
        back_rhs (schedule_backward_aux c i) j) ∧
    (∀ j, (getT c j).dirty = false →
      (getT (schedule_backward_aux c i) j).dirty = false ∧
      (getT (schedule_backward_aux c i) j).earliest_start =
        (getT c j).earliest_start)
  | 0, c, h => by
      rw [schedule_backward_aux]
      have hcl : 0 + 1 < c.length → (getT c 1).dirty = false :=
        fun hl => h 1 Nat.one_pos hl
      refine ⟨sched_back_step_length c 0, sched_back_step_gt c 0 hcl,
        sched_back_step_attrs c 0, ?_, ?_, fun j => sched_back_step_clean_es c 0 j⟩
      · intro j hj hjl
        interval_cases j
        exact (sched_back_step_self c 0 hjl hcl).1
      · intro j hj hjl
        interval_cases j
        exact (sched_back_step_self c 0 hjl hcl).2
  | i+1, c, h => by
      rw [schedule_backward_aux]
      have hcl : i + 1 + 1 < c.length → (getT c (i+1+1)).dirty = false :=
        fun hl => h (i+2) (Nat.lt_succ_self _) hl
      have hlen₁ : (sched_back_step c (i+1)).length = c.length :=
        sched_back_step_length c (i+1)
      have hgt₁ := sched_back_step_gt c (i+1) hcl
      have h' : ∀ j, i < j → j < (sched_back_step c (i+1)).length →
          (getT (sched_back_step c (i+1)) j).dirty = false := by
        intro j hj hjl
        rw [hlen₁] at hjl
        rcases Nat.lt_or_ge i.succ j with hj' | hj'
        · rw [hgt₁ j hj']
          exact h j hj' hjl
        · have hji : j = i + 1 := Nat.le_antisymm hj' hj
          rw [hji] at hjl ⊢
          exact (sched_back_step_self c (i+1) hjl hcl).1
      obtain ⟨ihlen, ihgt, ihattrs, ihclean, ihstart, ihces⟩ :=
        back_aux_master i (sched_back_step c (i+1)) h'
      refine ⟨by rw [ihlen, hlen₁], ?_, ?_, ?_, ?_, ?_⟩
      · intro j hj
        rw [ihgt j (Nat.lt_of_succ_lt hj), hgt₁ j hj]
      · intro j
        rw [ihattrs j, sched_back_step_attrs c (i+1) j]
      · intro j hj hjl
        rcases Nat.lt_or_ge j (i+1) with hj' | hj'
        · exact ihclean j (Nat.lt_succ_iff.mp hj') (by rw [hlen₁]; exact hjl)
        · have hji : j = i + 1 := Nat.le_antisymm hj hj'
          rw [hji] at hjl ⊢
          rw [ihgt (i+1) (Nat.lt_succ_self i)]
          exact (sched_back_step_self c (i+1) hjl hcl).1
      · intro j hj hjl
        rcases Nat.lt_or_ge j (i+1) with hj' | hj'
        · exact ihstart j (Nat.lt_succ_iff.mp hj') (by rw [hlen₁]; exact hjl)
        · have hji : j = i + 1 := Nat.le_antisymm hj hj'
          rw [hji] at hjl ⊢
          rw [ihgt (i+1) (Nat.lt_succ_self i)]
          rw [(sched_back_step_self c (i+1) hjl hcl).2]
          exact back_rhs_congr _ _ (i+1) (by rw [ihlen])
            (ihgt (i+1) (Nat.lt_succ_self i)).symm
            (ihgt (i+1+1) (Nat.lt_succ_of_lt (Nat.lt_succ_self i))).symm
      · intro j hj
        obtain ⟨h1, h2⟩ := sched_back_step_clean_es c (i+1) j hj
        obtain ⟨h3, h4⟩ := ihces j h1
        exact ⟨h3, by rw [h4, h2]⟩

/-- Backward sweep wrapper facts: on a nonempty chain, `schedule_backward`
preserves length and attributes, leaves every position clean with `start`
satisfying the backward recurrence, and preserves the cached
`earliest_start` of positions that were already clean. -/
theorem schedule_backward_master (c : Chain) (h : c ≠ []) :
    (schedule_backward c).length = c.length ∧
    (∀ j, attrs (getT (schedule_backward c) j) = attrs (getT c j)) ∧
    (∀ j, j < c.length → (getT (schedule_backward c) j).dirty = false) ∧
    (∀ j, j < c.length →
      (getT (schedule_backward c) j).start = back_rhs (schedule_backward c) j) ∧
    (∀ j, (getT c j).dirty = false →
      (getT (schedule_backward c) j).earliest_start =
        (getT c j).earliest_start) := by
  have hpos : 0 < c.length := List.length_pos.mpr h
  have hne : c.isEmpty = false := by
    cases c with
    | nil => exact absurd rfl h
    | cons a l => rfl
  have hvac : ∀ j, c.length - 1 < j → j < c.length → (getT c j).dirty = false := by
    intro j hj hjl
    omega
  obtain ⟨hlen, _, hattrs, hclean, hstart, hces⟩ :=
    back_aux_master (c.length - 1) c hvac
  rw [schedule_backward, hne]
  simp only [Bool.false_eq_true, if_false]
  exact ⟨hlen, hattrs, fun j hj => hclean j (by omega) hj,
    fun j hj => hstart j (by omega) hj, fun j hj => (hces j hj).2⟩

/-- C3 (amended): after `schedule_backward` runs from the tail of a nonempty
chain, every task with a successor has `start = max(earliest_start,
min(target, successor.start - successor.min_margin_before - duration))`, and
the tail task has `start = max(earliest_start, target)`: the `start` setter
clamps every assignment up to the earliest-start floor, so the unclamped
values of the original claim hold only when they already respect that
floor. -/
theorem schedule_backward_start_spec (c : Chain) (h : c ≠ []) (i : Nat)
    (hi : i < c.length) :
    (getT (schedule_backward c) i).start =
      if i + 1 < c.length then
        max (getT (schedule_backward c) i).earliest_start
          (min (getT (schedule_backward c) i).target
            ((getT (schedule_backward c) (i+1)).start -
              (getT (schedule_backward c) (i+1)).min_margin_before -
              (getT (schedule_backward c) i).duration))
      else
        max (getT (schedule_backward c) i).earliest_start
          (getT (schedule_backward c) i).target := by
  obtain ⟨hlen, _, _, hstart, _⟩ := schedule_backward_master c h
  rw [hstart i hi, back_rhs, hlen]

/-- Witness for `schedule_backward_start_spec`: the head of a concrete
two-task chain. -/
theorem schedule_backward_start_spec_witness :
    ([mkSchedulingTask 1 2 3 0, mkSchedulingTask 2 2 3 1] : Chain) ≠ [] ∧
    0 < ([mkSchedulingTask 1 2 3 0, mkSchedulingTask 2 2 3 1] : Chain).length ∧
    (getT (schedule_backward [mkSchedulingTask 1 2 3 0, mkSchedulingTask 2 2 3 1]) 0).start =
      if 0 + 1 < ([mkSchedulingTask 1 2 3 0, mkSchedulingTask 2 2 3 1] : Chain).length then
        max (getT (schedule_backward [mkSchedulingTask 1 2 3 0, mkSchedulingTask 2 2 3 1]) 0).earliest_start
          (min (getT (schedule_backward [mkSchedulingTask 1 2 3 0, mkSchedulingTask 2 2 3 1]) 0).target
            ((getT (schedule_backward [mkSchedulingTask 1 2 3 0, mkSchedulingTask 2 2 3 1]) 1).start -
              (getT (schedule_backward [mkSchedulingTask 1 2 3 0, mkSchedulingTask 2 2 3 1]) 1).min_margin_before -
              (getT (schedule_backward [mkSchedulingTask 1 2 3 0, mkSchedulingTask 2 2 3 1]) 0).duration))
      else
        max (getT (schedule_backward [mkSchedulingTask 1 2 3 0, mkSchedulingTask 2 2 3 1]) 0).earliest_start
          (getT (schedule_backward [mkSchedulingTask 1 2 3 0, mkSchedulingTask 2 2 3 1]) 0).target :=
  ⟨by decide, by decide,
   schedule_backward_start_spec [mkSchedulingTask 1 2 3 0, mkSchedulingTask 2 2 3 1]
     (by decide) 0 (by decide)⟩

/-! Forward sweep on an all-clean chain: only `start` fields change. -/

theorem sched_fwd_step_clean (c : Chain) (i : Nat)
    (h : ∀ k, (getT c k).dirty = false) :
    ((sched_fwd_step c i).2).length = c.length ∧
    (∀ k, (getT (sched_fwd_step c i).2 k).dirty = false) ∧
    (∀ k, (getT (sched_fwd_step c i).2 k).earliest_start =
      (getT c k).earliest_start) ∧
    (∀ k, attrs (getT (sched_fwd_step c i).2 k) = attrs (getT c k)) := by
  cases i with
  | zero =>
      have h0 : (sched_fwd_step c 0).2 = c := by
        simp only [sched_fwd_step, read_start, forceIdx_of_clean c 0 (h 0)]
      rw [h0]
      exact ⟨rfl, h, fun _ => rfl, fun _ => rfl⟩
  | succ j =>
      have hw : ∀ v, forceIdx (write_start c (j+1) v) (j+1) =
          write_start c (j+1) v :=
        fun v => forceIdx_of_clean _ _ (write_start_dirty_self c (j+1) v)
      have hstep : (sched_fwd_step c (j+1)).2 =
          write_start c (j+1)
            (max ((getT c j).start + (getT c j).duration +
              (getT c (j+1)).min_margin_before) ((getT c (j+1)).start)) := by
        simp only [sched_fwd_step, read_start,
          forceIdx_of_clean c j (h j), forceIdx_of_clean c (j+1) (h (j+1)), hw]
      rw [hstep]
      exact ⟨write_start_length _ _ _,
        fun k => write_start_clean _ _ _ _ (h k),
        fun k => write_start_clean_es _ _ _ _ (h k),
        fun k => write_start_attrs _ _ _ _⟩

theorem fwd_aux_clean : ∀ (k : Nat) (c : Chain) (i : Nat),
    (∀ m, (getT c m).dirty = false) →
    ((schedule_forward_aux c i k).2).length = c.length ∧
    (∀ m, (getT (schedule_forward_aux c i k).2 m).dirty = false) ∧
    (∀ m, (getT (schedule_forward_aux c i k).2 m).earliest_start =
      (getT c m).earliest_start) ∧
    (∀ m, attrs (getT (schedule_forward_aux c i k).2 m) = attrs (getT c m))
  | 0, c, i, h => ⟨rfl, h, fun _ => rfl, fun _ => rfl⟩
  | k+1, c, i, h => by
      rw [schedule_forward_aux]
      obtain ⟨hl, hc, he, ha⟩ := sched_fwd_step_clean c i h
      obtain ⟨ihl, ihc, ihe, iha⟩ :=
        fwd_aux_clean k (sched_fwd_step c i).2 (i+1) hc
      exact ⟨by rw [ihl, hl], ihc,
        fun m => by rw [ihe m, he m], fun m => by rw [iha m, ha m]⟩

theorem schedule_forward_clean (c : Chain)
    (h : ∀ m, (getT c m).dirty = false) :
    ((schedule_forward c).2).length = c.length ∧
    (∀ m, (getT (schedule_forward c).2 m).dirty = false) ∧
    (∀ m, (getT (schedule_forward c).2 m).earliest_start =
      (getT c m).earliest_start) ∧
    (∀ m, attrs (getT (schedule_forward c).2 m) = attrs (getT c m)) :=
  fwd_aux_clean c.length c 0 h

/-! Determinism of the backward recurrence and chain extensionality. -/

theorem back_start_unique (c₁ c₂ : Chain) (hlen : c₁.length = c₂.length)
    (hes : ∀ j, (getT c₁ j).earliest_start = (getT c₂ j).earliest_start)
    (hattrs : ∀ j, attrs (getT c₁ j) = attrs (getT c₂ j))
    (h₁ : ∀ j, j < c₁.length → (getT c₁ j).start = back_rhs c₁ j)
    (h₂ : ∀ j, j < c₂.length → (getT c₂ j).start = back_rhs c₂ j) :
    ∀ j, j < c₁.length → (getT c₁ j).start = (getT c₂ j).start := by
  have key : ∀ k j, j < c₁.length → c₁.length - (j+1) ≤ k →
      (getT c₁ j).start = (getT c₂ j).start := by
    intro k
    induction k with
    | zero =>
        intro j hj hk
        have htail : ¬ (j + 1 < c₁.length) := by omega
        rw [h₁ j hj, h₂ j (by omega), back_rhs, back_rhs,
          if_neg htail, if_neg (by rw [← hlen]; exact htail),
          hes j, target_of_attrs (hattrs j)]
    | succ k ih =>
        intro j hj hk
        by_cases hjt : j + 1 < c₁.length
        · rw [h₁ j hj, h₂ j (by omega), back_rhs, back_rhs,
            if_pos hjt, if_pos (by rw [← hlen]; exact hjt),
            hes j, target_of_attrs (hattrs j),
            duration_of_attrs (hattrs j), margin_of_attrs (hattrs (j+1)),
            ih (j+1) hjt (by omega)]
        · rw [h₁ j hj, h₂ j (by omega), back_rhs, back_rhs,
            if_neg hjt, if_neg (by rw [← hlen]; exact hjt),
            hes j, target_of_attrs (hattrs j)]
  exact fun j hj => key c₁.length j hj (by omega)

theorem stask_eq (a b : STask) (hid : a.task_id = b.task_id)
    (hd : a.duration = b.duration) (ht : a.target = b.target)
    (hm : a.min_margin_before = b.min_margin_before)
    (hdi : a.dirty = b.dirty) (he : a.earliest_start = b.earliest_start)
    (hs : a.start = b.start) : a = b := by
  cases a
  cases b
  simp only [] at hid hd ht hm hdi he hs
  subst hid hd ht hm hdi he hs
  rfl

theorem chain_ext (c₁ c₂ : Chain) (hlen : c₁.length = c₂.length)
    (h : ∀ j, j < c₁.length → getT c₁ j = getT c₂ j) : c₁ = c₂ := by
  apply List.ext_getElem hlen
  intro n h₁ h₂
  have hne := h n h₁
  rw [getT_eq_getElem _ _ h₁, getT_eq_getElem _ _ h₂] at hne
  exact hne

theorem isEmpty_false_of_ne_nil (c : Chain) (h : c ≠ []) :
    c.isEmpty = false := by
  cases c with
  | nil => exact absurd rfl h
  | cons a l => rfl

/-- C7: calling `schedule()` twice in succession with no intervening mutation
returns the same score both times, and the second call leaves every task's
state (in particular every `start`) exactly as the first call's result: the
backward sweep recomputes starts from fields the forward sweep does not
change, so the second run reproduces the first bit for bit. -/
theorem schedule_idempotent (c : Chain) :
    schedule_res (schedule_res c).2 = schedule_res c := by
  rcases c with _ | ⟨a, l⟩
  · rfl
  · have h : (a :: l : Chain) ≠ [] := List.cons_ne_nil a l
    obtain ⟨hBlen, hBattrs, hBclean, hBstart, _⟩ :=
      schedule_backward_master (a :: l) h
    set cB := schedule_backward (a :: l) with hcB
    have hBclean' : ∀ m, (getT cB m).dirty = false := by
      intro m
      rcases Nat.lt_or_ge m cB.length with hm | hm
      · exact hBclean m (by rw [← hBlen]; exact hm)
      · rw [getT_oob _ _ hm]; rfl
    obtain ⟨hFlen, hFclean, hFes, hFattrs⟩ := schedule_forward_clean cB hBclean'
    set c1 := (schedule_forward cB).2 with hc1
    have hlen1 : c1.length = (a :: l : Chain).length := by rw [hFlen, hBlen]
    have h1 : c1 ≠ [] := by
      intro hnil
      rw [hnil] at hlen1
      exact absurd hlen1.symm (by simp)
    obtain ⟨hB2len, hB2attrs, hB2clean, hB2start, hB2es⟩ :=
      schedule_backward_master c1 h1
    set cB2 := schedule_backward c1 with hcB2
    have hlen2 : cB2.length = cB.length := by
      rw [hB2len, hlen1, ← hBlen]
    have hes2 : ∀ j, (getT cB2 j).earliest_start =
        (getT cB j).earliest_start := by
      intro j
      rw [hB2es j (hFclean j), hFes j]
    have hattrs2 : ∀ j, attrs (getT cB2 j) = attrs (getT cB j) := by
      intro j
      rw [hB2attrs j, hFattrs j]
    have hdirty2 : ∀ j, (getT cB2 j).dirty = (getT cB j).dirty := by
      intro j
      rcases Nat.lt_or_ge j cB2.length with hm | hm
      · rw [hB2clean j (by rw [← hB2len]; exact hm), hBclean' j]
      · rw [getT_oob _ _ hm, getT_oob _ _ (by rw [← hlen2]; exact hm)]
    have hstart2 : ∀ j, j < cB2.length →
        (getT cB2 j).start = (getT cB j).start :=
      back_start_unique cB2 cB hlen2 hes2 hattrs2
        (fun j hj => hB2start j (by rw [← hB2len]; exact hj))
        (fun j hj => hBstart j (by rw [← hBlen]; exact hj))
    have hEq : cB2 = cB := by
      apply chain_ext cB2 cB hlen2
      intro j hj
      exact stask_eq _ _ (id_of_attrs (hattrs2 j)) (duration_of_attrs (hattrs2 j))
        (target_of_attrs (hattrs2 j)) (margin_of_attrs (hattrs2 j))
        (hdirty2 j) (hes2 j) (hstart2 j hj)
    have e2 : schedule_res c1 = schedule_forward cB2 := by
      rw [schedule_res, isEmpty_false_of_ne_nil c1 h1]
      simp only [Bool.false_eq_true, if_false]
    calc schedule_res (schedule_res (a :: l)).2
        = schedule_res c1 := rfl
      _ = schedule_forward cB2 := e2
      _ = schedule_forward cB := by rw [hEq]
      _ = schedule_res (a :: l) := rfl

/-! Store basics. -/

theorem getN_oob (s : Store) (x : Nat) (h : s.nodes.length ≤ x) :
    getN s x = blankNode := by
  simp [getN, List.getD_eq_getElem?_getD, List.getElem?_eq_none h]

theorem setN_length (s : Store) (x : Nat) (nd : Node) :
    (setN s x nd).nodes.length = s.nodes.length := by
  simp [setN]

theorem getN_setN_self (s : Store) (x : Nat) (nd : Node)
    (h : x < s.nodes.length) : getN (setN s x nd) x = nd := by
  simp [getN, setN, List.getD_eq_getElem?_getD, List.getElem?_set_self h]

theorem getN_setN_ne (s : Store) (x y : Nat) (nd : Node) (h : x ≠ y) :
    getN (setN s x nd) y = getN s y := by
  simp [getN, setN, List.getD_eq_getElem?_getD, List.getElem?_set_ne h]

theorem setN_head (s : Store) (x : Nat) (nd : Node) :
    (setN s x nd).head = s.head := rfl

theorem setN_tail (s : Store) (x : Nat) (nd : Node) :
    (setN s x nd).tail = s.tail := rfl

theorem getN_setHead (s : Store) (v : Option Nat) (y : Nat) :
    getN (setHead s v) y = getN s y := rfl

theorem getN_setTail (s : Store) (v : Option Nat) (y : Nat) :
    getN (setTail s v) y = getN s y := rfl

/-! Segment lemmas. -/

theorem dllseg_mem (s : Store) :
    ∀ (L : List Nat) (pa nb : Option Nat), dllseg s pa L nb →
      ∀ y ∈ L, y < s.nodes.length ∧ (getN s y).resource = true
  | [], _, _, _, y, hy => absurd hy (List.not_mem_nil y)
  | x :: xs, pa, nb, h, y, hy => by
      rcases List.mem_cons.mp hy with rfl | hy'
      · exact ⟨h.1, h.2.2.1⟩
      · exact dllseg_mem s xs (some x) nb h.2.2.2.2 y hy'

theorem dllseg_congr (s s' : Store)
    (hlen : s'.nodes.length = s.nodes.length) :
    ∀ (L : List Nat) (pa nb : Option Nat),
      (∀ y ∈ L, getN s' y = getN s y) → dllseg s pa L nb → dllseg s' pa L nb
  | [], _, _, _, _ => trivial
  | x :: xs, pa, nb, hy, h => by
      have hx := hy x (List.mem_cons_self x xs)
      refine ⟨by rw [hlen]; exact h.1, by rw [hx]; exact h.2.1,
        by rw [hx]; exact h.2.2.1, by rw [hx]; exact h.2.2.2.1, ?_⟩
      exact dllseg_congr s s' hlen xs (some x) nb
        (fun y hy' => hy y (List.mem_cons_of_mem x hy')) h.2.2.2.2

theorem endPrev_append (pa : Option Nat) :
    ∀ (F G : List Nat), endPrev pa (F ++ G) = endPrev (endPrev pa F) G := by
  intro F
  induction F generalizing pa with
  | nil => intro G; rfl
  | cons x F ih => intro G; exact ih (some x) G

theorem endPrev_ne_of_ne_nil (pa pa' : Option Nat) :
    ∀ (L : List Nat), L ≠ [] → endPrev pa L = endPrev pa' L
  | [], h => absurd rfl h
  | _ :: _, _ => rfl

theorem dllseg_append (s : Store) :
    ∀ (F G : List Nat) (pa nb : Option Nat),
      dllseg s pa (F ++ G) nb ↔
        dllseg s pa F ((G.head?).or nb) ∧ dllseg s (endPrev pa F) G nb := by
  intro F
  induction F with
  | nil =>
      intro G pa nb
      simp [dllseg, endPrev]
  | cons x F ih =>
      intro G pa nb
      have hh : ((F ++ G).head?).or nb = (F.head?).or ((G.head?).or nb) := by
        cases F with
        | nil => rfl
        | cons z F2 => rfl
      constructor
      · rintro ⟨h1, h2, h3, h4, h5⟩
        simp only [List.append_eq] at h4 h5
        rw [ih] at h5
        exact ⟨⟨h1, h2, h3, by rw [h4, hh], h5.1⟩, h5.2⟩
      · rintro ⟨⟨h1, h2, h3, h4, h5⟩, h6⟩
        refine ⟨h1, h2, h3, ?_, ?_⟩
        · show (getN s x).next = ((F ++ G).head?).or nb
          rw [h4, ← hh]
        · show dllseg s (some x) (F ++ G) nb
          exact (ih G (some x) nb).mpr ⟨h5, h6⟩

theorem dllseg_snoc (s : Store) (F : List Nat) (p : Nat)
    (pa nb : Option Nat) :
    dllseg s pa (F ++ [p]) nb ↔
      dllseg s pa F (some p) ∧ p < s.nodes.length ∧
      (getN s p).previous = endPrev pa F ∧ (getN s p).resource = true ∧
      (getN s p).next = nb := by
  rw [dllseg_append]
  simp [dllseg]

/-! Walk lemmas: a represented store's traversals recover the member list. -/

theorem walk_next_dllseg (s : Store) :
    ∀ (L : List Nat) (k : Nat) (pa : Option Nat), dllseg s pa L none →
      L.length ≤ k → walk_next s k L.head? = L
  | [], k, _, _, _ => by cases k <;> rfl
  | x :: xs, k+1, pa, h, hk => by
      show walk_next s (k+1) (some x) = x :: xs
      rw [show walk_next s (k+1) (some x) =
        x :: walk_next s k (getN s x).next from rfl]
      have hnext : (getN s x).next = xs.head? := by
        rw [h.2.2.2.1]
        cases xs with
        | nil => rfl
        | cons z zs => rfl
      rw [hnext,
        walk_next_dllseg s xs k (some x) h.2.2.2.2 (Nat.le_of_succ_le_succ hk)]

theorem walk_prev_dllseg (s : Store) (L : List Nat) :
    ∀ (k : Nat) (nb : Option Nat), dllseg s none L nb →
      L.length ≤ k → walk_prev s k (endPrev none L) = L.reverse := by
  induction L using List.reverseRecOn with
  | nil =>
      intro k nb _ _
      cases k <;> rfl
  | append_singleton F z ih =>
      intro k nb h hk
      have hz := (dllseg_snoc s F z none nb).mp h
      have hend : endPrev none (F ++ [z]) = some z := by
        rw [endPrev_append]
        rfl
      rw [hend]
      simp only [List.length_append, List.length_singleton] at hk
      cases k with
      | zero => omega
      | succ k =>
          rw [show walk_prev s (k+1) (some z) =
            z :: walk_prev s k (getN s z).previous from rfl]
          rw [hz.2.2.1, ih k (some z) hz.1 (by omega)]
          simp

theorem length_le_of_nodup_bounded (n : Nat) :
    ∀ (L : List Nat), L.Nodup → (∀ y ∈ L, y < n) → L.length ≤ n := by
  intro L hnd hb
  have hsub : L.toFinset ⊆ Finset.range n := by
    intro y hy
    rw [Finset.mem_range]
    exact hb y (List.mem_toFinset.mp hy)
  have := Finset.card_le_card hsub
  rw [List.toFinset_card_of_nodup hnd, Finset.card_range] at this
  exact this

/-- A store representing member list `L` walks `L` forward from the head and
`L.reverse` backward from the tail, and every member's resource flag is
set. -/
theorem encodes_walks (s : Store) (L : List Nat) (h : encodes s L) :
    forward_walk s = L ∧ backward_walk s = L.reverse ∧
    (∀ x ∈ forward_walk s, (getN s x).resource = true) := by
  obtain ⟨hnd, hhead, htail, hseg, _⟩ := h
  have hlen : L.length ≤ s.nodes.length :=
    length_le_of_nodup_bounded s.nodes.length L hnd
      (fun y hy => (dllseg_mem s L none none hseg y hy).1)
  have hf : forward_walk s = L := by
    rw [forward_walk, hhead]
    exact walk_next_dllseg s L s.nodes.length none hseg hlen
  refine ⟨hf, ?_, ?_⟩
  · rw [backward_walk, htail]
    exact walk_prev_dllseg s L s.nodes.length none hseg hlen
  · intro x hx
    rw [hf] at hx
    exact (dllseg_mem s L none none hseg x hx).2

/-! Effects of `res_add_tail` on the store. -/

theorem res_add_tail_effects_nil (s : Store) (x : Nat) (hx : x < s.nodes.length)
    (hblank : getN s x = blankNode) (ht : s.tail = none) (hh : s.head = none) :
    (res_add_tail s x).nodes.length = s.nodes.length ∧
    (res_add_tail s x).head = some x ∧
    (res_add_tail s x).tail = some x ∧
    getN (res_add_tail s x) x =
      { next := none, previous := none, resource := true } ∧
    (∀ y, y ≠ x → getN (res_add_tail s x) y = getN s y) := by
  have e1 : res_add_tail s x =
      setHead (setTail (setPrev (setNext (setRes s x true) x none) x none)
        (some x)) (some x) := by
    rw [res_add_tail]
    rw [show (setNext (setRes s x true) x none).tail = s.tail from rfl, ht]
    rw [show (setTail (setPrev (setNext (setRes s x true) x none) x none)
      (some x)).head = s.head from rfl, hh]
    rfl
  rw [e1]
  refine ⟨by simp [setHead, setTail, setPrev, setNext, setRes, setN], rfl, rfl, ?_, ?_⟩
  · rw [show getN (setHead (setTail (setPrev (setNext (setRes s x true) x none)
      x none) (some x)) (some x)) x =
      getN (setPrev (setNext (setRes s x true) x none) x none) x from rfl]
    rw [setPrev, getN_setN_self _ _ _ (by simp [setNext, setRes, setN]; exact hx)]
    rw [setNext, getN_setN_self _ _ _ (by simp [setRes, setN]; exact hx)]
    rw [setRes, getN_setN_self _ _ _ hx, hblank]
  · intro y hy
    rw [show getN (setHead (setTail (setPrev (setNext (setRes s x true) x none)
      x none) (some x)) (some x)) y =
      getN (setPrev (setNext (setRes s x true) x none) x none) y from rfl]
    rw [setPrev, getN_setN_ne _ _ _ _ (fun e => hy e.symm)]
    rw [setNext, getN_setN_ne _ _ _ _ (fun e => hy e.symm)]
    rw [setRes, getN_setN_ne _ _ _ _ (fun e => hy e.symm)]

/-! Field-setter access lemmas. -/

theorem getN_setNext_self (s : Store) (x : Nat) (v : Option Nat)
    (h : x < s.nodes.length) :
    getN (setNext s x v) x = { getN s x with next := v } :=
  getN_setN_self s x _ h

theorem getN_setNext_ne (s : Store) (x y : Nat) (v : Option Nat) (h : x ≠ y) :
    getN (setNext s x v) y = getN s y :=
  getN_setN_ne s x y _ h

theorem getN_setPrev_self (s : Store) (x : Nat) (v : Option Nat)
    (h : x < s.nodes.length) :
    getN (setPrev s x v) x = { getN s x with previous := v } :=
  getN_setN_self s x _ h

theorem getN_setPrev_ne (s : Store) (x y : Nat) (v : Option Nat) (h : x ≠ y) :
    getN (setPrev s x v) y = getN s y :=
  getN_setN_ne s x y _ h

theorem getN_setRes_self (s : Store) (x : Nat) (v : Bool)
    (h : x < s.nodes.length) :
    getN (setRes s x v) x = { getN s x with resource := v } :=
  getN_setN_self s x _ h

theorem getN_setRes_ne (s : Store) (x y : Nat) (v : Bool) (h : x ≠ y) :
    getN (setRes s x v) y = getN s y :=
  getN_setN_ne s x y _ h

theorem setNext_length (s : Store) (x : Nat) (v : Option Nat) :
    (setNext s x v).nodes.length = s.nodes.length := setN_length s x _

theorem setPrev_length (s : Store) (x : Nat) (v : Option Nat) :
    (setPrev s x v).nodes.length = s.nodes.length := setN_length s x _

theorem setRes_length (s : Store) (x : Nat) (v : Bool) :
    (setRes s x v).nodes.length = s.nodes.length := setN_length s x _

theorem res_add_tail_effects_cons (s : Store) (x t : Nat)
    (hx : x < s.nodes.length) (htl : t < s.nodes.length) (htx : t ≠ x)
    (hblank : getN s x = blankNode) (ht : s.tail = some t)
    (hh : s.head ≠ none) :
    (res_add_tail s x).nodes.length = s.nodes.length ∧
    (res_add_tail s x).head = s.head ∧
    (res_add_tail s x).tail = some x ∧
    getN (res_add_tail s x) x =
      { next := none, previous := some t, resource := true } ∧
    getN (res_add_tail s x) t = { getN s t with next := some x } ∧
    (∀ y, y ≠ x → y ≠ t → getN (res_add_tail s x) y = getN s y) := by
  have e1 : res_add_tail s x =
      setTail (setNext (setPrev (setNext (setRes s x true) x none) x (some t))
        t (some x)) (some x) := by
    rw [res_add_tail]
    rw [show (setNext (setRes s x true) x none).tail = s.tail from rfl, ht]
    have hh4 : (setTail (setNext (setPrev (setNext (setRes s x true) x none) x
        (some t)) t (some x)) (some x)).head = s.head := rfl
    simp only [hh4]
    rw [if_neg hh]
  have hlen : ∀ y v, (setPrev (setNext (setRes s x true) x none) y v).nodes.length
      = s.nodes.length := by
    intro y v
    rw [setPrev_length, setNext_length, setRes_length]
  rw [e1]
  refine ⟨?_, rfl, rfl, ?_, ?_, ?_⟩
  · rw [show (setTail (setNext (setPrev (setNext (setRes s x true) x none) x
      (some t)) t (some x)) (some x)).nodes.length =
      (setNext (setPrev (setNext (setRes s x true) x none) x (some t)) t
        (some x)).nodes.length from rfl]
    rw [setNext_length, hlen]
  · rw [show getN (setTail (setNext (setPrev (setNext (setRes s x true) x none)
      x (some t)) t (some x)) (some x)) x =
      getN (setNext (setPrev (setNext (setRes s x true) x none) x (some t)) t
        (some x)) x from rfl]
    rw [getN_setNext_ne _ _ _ _ htx]
    rw [getN_setPrev_self _ _ _ (by rw [setNext_length, setRes_length]; exact hx)]
    rw [getN_setNext_self _ _ _ (by rw [setRes_length]; exact hx)]
    rw [getN_setRes_self _ _ _ hx, hblank]
  · rw [show getN (setTail (setNext (setPrev (setNext (setRes s x true) x none)
      x (some t)) t (some x)) (some x)) t =
      getN (setNext (setPrev (setNext (setRes s x true) x none) x (some t)) t
        (some x)) t from rfl]
    rw [getN_setNext_self _ _ _ (by rw [hlen]; exact htl)]
    rw [getN_setPrev_ne _ _ _ _ (fun e => htx e.symm)]
    rw [getN_setNext_ne _ _ _ _ (fun e => htx e.symm)]
    rw [getN_setRes_ne _ _ _ _ (fun e => htx e.symm)]
  · intro y hyx hyt
    rw [show getN (setTail (setNext (setPrev (setNext (setRes s x true) x none)
      x (some t)) t (some x)) (some x)) y =
      getN (setNext (setPrev (setNext (setRes s x true) x none) x (some t)) t
        (some x)) y from rfl]
    rw [getN_setNext_ne _ _ _ _ (fun e => hyt e.symm)]
    rw [getN_setPrev_ne _ _ _ _ (fun e => hyx e.symm)]
    rw [getN_setNext_ne _ _ _ _ (fun e => hyx e.symm)]
    rw [getN_setRes_ne _ _ _ _ (fun e => hyx e.symm)]

theorem head?_append_ne_nil {α : Type} (L M : List α) (h : L ≠ []) :
    (L ++ M).head? = L.head? := by
  cases L with
  | nil => exact absurd rfl h
  | cons a l => rfl

theorem not_mem_of_blank (s : Store) (L : List Nat) (x : Nat)
    (hseg : dllseg s none L none) (hblank : getN s x = blankNode) : x ∉ L := by
  intro hm
  have := (dllseg_mem s L none none hseg x hm).2
  rw [hblank] at this
  exact absurd this (by decide)

theorem nodup_append_singleton {L : List Nat} {x : Nat} (hnd : L.Nodup)
    (hx : x ∉ L) : (L ++ [x]).Nodup := by
  rw [List.nodup_append]
  exact ⟨hnd, List.nodup_singleton x,
    fun y hy hm => hx (by rwa [List.mem_singleton.mp hm] at hy)⟩

/-- Resource.add_tail on a detached node appends it to the member list. -/
theorem encodes_res_add_tail (s : Store) (L : List Nat) (x : Nat)
    (h : encodes s L) (hx : x < s.nodes.length)
    (hblank : getN s x = blankNode) :
    encodes (res_add_tail s x) (L ++ [x]) := by
  obtain ⟨hnd, hhead, htail, hseg, hbl⟩ := h
  have hxL : x ∉ L := not_mem_of_blank s L x hseg hblank
  rcases List.eq_nil_or_concat L with rfl | ⟨F, t, hL⟩
  · obtain ⟨e1, e2, e3, e4, e5⟩ :=
      res_add_tail_effects_nil s x hx hblank htail hhead
    refine ⟨List.nodup_singleton x, by rw [e2]; rfl, by rw [e3]; rfl, ?_, ?_⟩
    · exact ⟨by rw [e1]; exact hx, by rw [e4], by rw [e4], by rw [e4]; rfl,
        trivial⟩
    · intro y hyl hym
      have hyx : y ≠ x := fun e => hym (by rw [e]; exact List.mem_singleton_self x)
      rw [e5 y hyx]
      exact hbl y (by rw [← e1]; exact hyl) (List.not_mem_nil y)
  · rw [List.concat_eq_append] at hL
    subst hL
    have htail' : s.tail = some t := by
      rw [htail, endPrev_append]
      rfl
    obtain ⟨hsegF, htlen, htprev, htres, htnext⟩ :=
      (dllseg_snoc s F t none none).mp hseg
    have htF : t ∉ F := by
      rw [List.nodup_append] at hnd
      exact fun hm => hnd.2.2 hm (List.mem_singleton_self t)
    have htx : t ≠ x := fun e => hxL (by rw [← e]; exact List.mem_append_right F (List.mem_singleton_self t))
    have hhne : s.head ≠ none := by
      rw [hhead]
      cases F with
      | nil => exact fun e => by cases e
      | cons a l => exact fun e => by cases e
    obtain ⟨e1, e2, e3, e4, e5, e6⟩ :=
      res_add_tail_effects_cons s x t hx htlen htx hblank htail' hhne
    have hxF : x ∉ F := fun hm => hxL (List.mem_append_left [t] hm)
    refine ⟨nodup_append_singleton hnd hxL, ?_, ?_, ?_, ?_⟩
    · rw [e2, hhead, head?_append_ne_nil (F ++ [t]) [x] (by simp)]
    · rw [e3, endPrev_append]
      rfl
    · rw [dllseg_snoc]
      refine ⟨?_, by rw [e1]; exact hx, ?_, by rw [e4], by rw [e4]⟩
      · rw [dllseg_snoc]
        refine ⟨?_, by rw [e1]; exact htlen, ?_, ?_, by rw [e5]⟩
        · refine dllseg_congr s _ e1 F none (some t) ?_ hsegF
          intro y hy
          exact e6 y (fun e => hxF (e ▸ hy)) (fun e => htF (e ▸ hy))
        · rw [e5]
          exact htprev
        · rw [e5]
          exact htres
      · rw [e4, endPrev_append]
        rfl
    · intro y hyl hym
      have hyx : y ≠ x := fun e => hym (by rw [e]; exact List.mem_append_right _ (List.mem_singleton_self x))
      have hyL : y ∉ F ++ [t] := fun hm => hym (List.mem_append_left [x] hm)
      have hyt : y ≠ t := fun e => hyL (by rw [e]; exact List.mem_append_right F (List.mem_singleton_self t))
      rw [e6 y hyx hyt]
      exact hbl y (by rw [← e1]; exact hyl) hyL

theorem res_add_head_effects_nil (s : Store) (x : Nat) (hx : x < s.nodes.length)
    (hblank : getN s x = blankNode) (hh : s.head = none) (ht : s.tail = none) :
    (res_add_head s x).nodes.length = s.nodes.length ∧
    (res_add_head s x).head = some x ∧
    (res_add_head s x).tail = some x ∧
    getN (res_add_head s x) x =
      { next := none, previous := none, resource := true } ∧
    (∀ y, y ≠ x → getN (res_add_head s x) y = getN s y) := by
  have e1 : res_add_head s x =
      setTail (setHead (setNext (setPrev (setRes s x true) x none) x none)
        (some x)) (some x) := by
    rw [res_add_head]
    rw [show (setPrev (setRes s x true) x none).head = s.head from rfl, hh]
    rw [show (setHead (setNext (setPrev (setRes s x true) x none) x none)
      (some x)).tail = s.tail from rfl, ht]
    rfl
  rw [e1]
  refine ⟨by simp [setTail, setHead, setPrev, setNext, setRes, setN], rfl, rfl,
    ?_, ?_⟩
  · rw [show getN (setTail (setHead (setNext (setPrev (setRes s x true) x none)
      x none) (some x)) (some x)) x =
      getN (setNext (setPrev (setRes s x true) x none) x none) x from rfl]
    rw [getN_setNext_self _ _ _ (by rw [setPrev_length, setRes_length]; exact hx)]
    rw [getN_setPrev_self _ _ _ (by rw [setRes_length]; exact hx)]
    rw [getN_setRes_self _ _ _ hx, hblank]
  · intro y hy
    rw [show getN (setTail (setHead (setNext (setPrev (setRes s x true) x none)
      x none) (some x)) (some x)) y =
      getN (setNext (setPrev (setRes s x true) x none) x none) y from rfl]
    rw [getN_setNext_ne _ _ _ _ (fun e => hy e.symm)]
    rw [getN_setPrev_ne _ _ _ _ (fun e => hy e.symm)]
    rw [getN_setRes_ne _ _ _ _ (fun e => hy e.symm)]

theorem res_add_head_effects_cons (s : Store) (x h0 : Nat)
    (hx : x < s.nodes.length) (hhl : h0 < s.nodes.length) (hhx : h0 ≠ x)
    (hblank : getN s x = blankNode) (hh : s.head = some h0)
    (ht : s.tail ≠ none) :
    (res_add_head s x).nodes.length = s.nodes.length ∧
    (res_add_head s x).head = some x ∧
    (res_add_head s x).tail = s.tail ∧
    getN (res_add_head s x) x =
      { next := some h0, previous := none, resource := true } ∧
    getN (res_add_head s x) h0 = { getN s h0 with previous := some x } ∧
    (∀ y, y ≠ x → y ≠ h0 → getN (res_add_head s x) y = getN s y) := by
  have e1 : res_add_head s x =
      setHead (setPrev (setNext (setPrev (setRes s x true) x none) x (some h0))
        h0 (some x)) (some x) := by
    rw [res_add_head]
    rw [show (setPrev (setRes s x true) x none).head = s.head from rfl, hh]
    have ht4 : (setHead (setPrev (setNext (setPrev (setRes s x true) x none) x
        (some h0)) h0 (some x)) (some x)).tail = s.tail := rfl
    simp only [ht4]
    rw [if_neg ht]
  have hlen : ∀ y v, (setNext (setPrev (setRes s x true) x none) y v).nodes.length
      = s.nodes.length := by
    intro y v
    rw [setNext_length, setPrev_length, setRes_length]
  rw [e1]
  refine ⟨?_, rfl, rfl, ?_, ?_, ?_⟩
  · rw [show (setHead (setPrev (setNext (setPrev (setRes s x true) x none) x
      (some h0)) h0 (some x)) (some x)).nodes.length =
      (setPrev (setNext (setPrev (setRes s x true) x none) x (some h0)) h0
        (some x)).nodes.length from rfl]
    rw [setPrev_length, hlen]
  · rw [show getN (setHead (setPrev (setNext (setPrev (setRes s x true) x none)
      x (some h0)) h0 (some x)) (some x)) x =
      getN (setPrev (setNext (setPrev (setRes s x true) x none) x (some h0)) h0
        (some x)) x from rfl]
    rw [getN_setPrev_ne _ _ _ _ hhx]
    rw [getN_setNext_self _ _ _ (by rw [setPrev_length, setRes_length]; exact hx)]
    rw [getN_setPrev_self _ _ _ (by rw [setRes_length]; exact hx)]
    rw [getN_setRes_self _ _ _ hx, hblank]
  · rw [show getN (setHead (setPrev (setNext (setPrev (setRes s x true) x none)
      x (some h0)) h0 (some x)) (some x)) h0 =
      getN (setPrev (setNext (setPrev (setRes s x true) x none) x (some h0)) h0
        (some x)) h0 from rfl]
    rw [getN_setPrev_self _ _ _ (by rw [hlen]; exact hhl)]
    rw [getN_setNext_ne _ _ _ _ (fun e => hhx e.symm)]
    rw [getN_setPrev_ne _ _ _ _ (fun e => hhx e.symm)]
    rw [getN_setRes_ne _ _ _ _ (fun e => hhx e.symm)]
  · intro y hyx hyh
    rw [show getN (setHead (setPrev (setNext (setPrev (setRes s x true) x none)
      x (some h0)) h0 (some x)) (some x)) y =
      getN (setPrev (setNext (setPrev (setRes s x true) x none) x (some h0)) h0
        (some x)) y from rfl]
    rw [getN_setPrev_ne _ _ _ _ (fun e => hyh e.symm)]
    rw [getN_setNext_ne _ _ _ _ (fun e => hyx e.symm)]
    rw [getN_setPrev_ne _ _ _ _ (fun e => hyx e.symm)]
    rw [getN_setRes_ne _ _ _ _ (fun e => hyx e.symm)]

theorem endPrev_some_ne_none :
    ∀ (L : List Nat) (a : Nat), endPrev (some a) L ≠ none
  | [], _ => fun e => by cases e
  | z :: zs, _ => endPrev_some_ne_none zs z

/-- Resource.add_head on a detached node prepends it to the member list. -/
theorem encodes_res_add_head (s : Store) (L : List Nat) (x : Nat)
    (h : encodes s L) (hx : x < s.nodes.length)
    (hblank : getN s x = blankNode) :
    encodes (res_add_head s x) (x :: L) := by
  obtain ⟨hnd, hhead, htail, hseg, hbl⟩ := h
  have hxL : x ∉ L := not_mem_of_blank s L x hseg hblank
  cases L with
  | nil =>
      obtain ⟨e1, e2, e3, e4, e5⟩ :=
        res_add_head_effects_nil s x hx hblank hhead htail
      refine ⟨List.nodup_singleton x, by rw [e2]; rfl, by rw [e3]; rfl, ?_, ?_⟩
      · exact ⟨by rw [e1]; exact hx, by rw [e4], by rw [e4], by rw [e4]; rfl,
          trivial⟩
      · intro y hyl hym
        have hyx : y ≠ x :=
          fun e => hym (by rw [e]; exact List.mem_singleton_self x)
        rw [e5 y hyx]
        exact hbl y (by rw [← e1]; exact hyl) (List.not_mem_nil y)
  | cons h0 L' =>
      have hh0 : s.head = some h0 := hhead
      obtain ⟨hh0l, _⟩ := dllseg_mem s (h0 :: L') none none hseg h0
        (List.mem_cons_self h0 L')
      have hh0x : h0 ≠ x := fun e => hxL (by rw [← e]; exact List.mem_cons_self h0 L')
      have htne : s.tail ≠ none := by
        rw [htail]
        exact endPrev_some_ne_none L' h0
      obtain ⟨e1, e2, e3, e4, e5, e6⟩ :=
        res_add_head_effects_cons s x h0 hx hh0l hh0x hblank hh0 htne
      obtain ⟨_, hprev0, hres0, hnext0, hsegL'⟩ := hseg
      have hh0L' : h0 ∉ L' := (List.nodup_cons.mp hnd).1
      have hxL' : x ∉ L' := fun hm => hxL (List.mem_cons_of_mem h0 hm)
      refine ⟨List.nodup_cons.mpr ⟨hxL, hnd⟩, by rw [e2]; rfl, ?_, ?_, ?_⟩
      · rw [e3, htail]
        rfl
      · refine ⟨by rw [e1]; exact hx, by rw [e4], by rw [e4], by rw [e4]; rfl, ?_⟩
        refine ⟨by rw [e1]; exact hh0l, by rw [e5], ?_, ?_, ?_⟩
        · rw [e5]
          show (getN s h0).resource = true
          exact hres0
        · rw [e5]
          show (getN s h0).next = (L'.head?).or none
          exact hnext0
        · refine dllseg_congr s _ e1 L' (some h0) none ?_ hsegL'
          intro y hy
          exact e6 y (fun e => hxL' (e ▸ hy)) (fun e => hh0L' (e ▸ hy))
      · intro y hyl hym
        have hyx : y ≠ x := fun e => hym (by rw [e]; exact List.mem_cons_self x _)
        have hyL : y ∉ h0 :: L' := fun hm => hym (List.mem_cons_of_mem x hm)
        have hyh0 : y ≠ h0 := fun e => hyL (by rw [e]; exact List.mem_cons_self h0 L')
        rw [e6 y hyx hyh0]
        exact hbl y (by rw [← e1]; exact hyl) hyL

theorem setHead_length (s : Store) (v : Option Nat) :
    (setHead s v).nodes.length = s.nodes.length := rfl

theorem setTail_length (s : Store) (v : Option Nat) :
    (setTail s v).nodes.length = s.nodes.length := rfl

/-! Effects of `task_drop`. -/

theorem task_drop_effects_mid (s : Store) (x p q : Nat)
    (hx : x < s.nodes.length) (hp : p < s.nodes.length)
    (hq : q < s.nodes.length) (hpx : p ≠ x) (hqx : q ≠ x) (hpq : p ≠ q)
    (hprev : (getN s x).previous = some p) (hnext : (getN s x).next = some q) :
    (task_drop s x).nodes.length = s.nodes.length ∧
    (task_drop s x).head = s.head ∧ (task_drop s x).tail = s.tail ∧
    getN (task_drop s x) x = blankNode ∧
    getN (task_drop s x) p = { getN s p with next := some q } ∧
    getN (task_drop s x) q = { getN s q with previous := some p } ∧
    (∀ y, y ≠ x → y ≠ p → y ≠ q → getN (task_drop s x) y = getN s y) := by
  have e1 : task_drop s x =
      setN (setPrev (setNext s p (some q)) q (some p)) x blankNode := by
    rw [task_drop, hprev, hnext]
    rw [show getN (setNext s p (some q)) x = getN s x from
      getN_setNext_ne s p x _ hpx, hnext, hprev]
  rw [e1]
  have hgx : getN (setN (setPrev (setNext s p (some q)) q (some p)) x blankNode) x
      = blankNode :=
    getN_setN_self _ _ _ (by rw [setPrev_length, setNext_length]; exact hx)
  refine ⟨by rw [setN_length, setPrev_length, setNext_length], rfl, rfl,
    hgx, ?_, ?_, ?_⟩
  · rw [getN_setN_ne _ _ _ _ (fun e => hpx e.symm)]
    rw [getN_setPrev_ne _ _ _ _ (fun e => hpq e.symm)]
    rw [getN_setNext_self _ _ _ hp]
  · rw [getN_setN_ne _ _ _ _ (fun e => hqx e.symm)]
    rw [getN_setPrev_self _ _ _ (by rw [setNext_length]; exact hq)]
    rw [getN_setNext_ne _ _ _ _ hpq]
  · intro y hyx hyp hyq
    rw [getN_setN_ne _ _ _ _ (fun e => hyx e.symm)]
    rw [getN_setPrev_ne _ _ _ _ (fun e => hyq e.symm)]
    rw [getN_setNext_ne _ _ _ _ (fun e => hyp e.symm)]

theorem task_drop_effects_tail (s : Store) (x p : Nat)
    (hx : x < s.nodes.length) (hp : p < s.nodes.length) (hpx : p ≠ x)
    (hres : (getN s x).resource = true)
    (hprev : (getN s x).previous = some p) (hnext : (getN s x).next = none) :
    (task_drop s x).nodes.length = s.nodes.length ∧
    (task_drop s x).head = s.head ∧ (task_drop s x).tail = some p ∧
    getN (task_drop s x) x = blankNode ∧
    getN (task_drop s x) p = { getN s p with next := none } ∧
    (∀ y, y ≠ x → y ≠ p → getN (task_drop s x) y = getN s y) := by
  have e1 : task_drop s x =
      setN (setTail (setNext s p none) (some p)) x blankNode := by
    simp only [task_drop, hprev, hnext, getN_setNext_ne s p x none hpx, hres,
      if_true]
  rw [e1]
  refine ⟨by rw [setN_length, setTail_length, setNext_length], rfl, rfl,
    ?_, ?_, ?_⟩
  · exact getN_setN_self _ _ _
      (by rw [setTail_length, setNext_length]; exact hx)
  · rw [getN_setN_ne _ _ _ _ (fun e => hpx e.symm)]
    rw [show getN (setTail (setNext s p none) (some p)) p =
      getN (setNext s p none) p from rfl]
    rw [getN_setNext_self _ _ _ hp]
  · intro y hyx hyp
    rw [getN_setN_ne _ _ _ _ (fun e => hyx e.symm)]
    rw [show getN (setTail (setNext s p none) (some p)) y =
      getN (setNext s p none) y from rfl]
    rw [getN_setNext_ne _ _ _ _ (fun e => hyp e.symm)]

theorem task_drop_effects_head (s : Store) (x q : Nat)
    (hx : x < s.nodes.length) (hq : q < s.nodes.length) (hqx : q ≠ x)
    (hres : (getN s x).resource = true)
    (hprev : (getN s x).previous = none) (hnext : (getN s x).next = some q) :
    (task_drop s x).nodes.length = s.nodes.length ∧
    (task_drop s x).head = some q ∧ (task_drop s x).tail = s.tail ∧
    getN (task_drop s x) x = blankNode ∧
    getN (task_drop s x) q = { getN s q with previous := none } ∧
    (∀ y, y ≠ x → y ≠ q → getN (task_drop s x) y = getN s y) := by
  have e1 : task_drop s x =
      setN (setPrev (setHead s (some q)) q none) x blankNode := by
    simp only [task_drop, hprev, hres, hnext, if_true,
      getN_setHead s (some q) x]
  rw [e1]
  refine ⟨by rw [setN_length, setPrev_length]; rfl, rfl, rfl, ?_, ?_, ?_⟩
  · exact getN_setN_self _ _ _ (by rw [setPrev_length]; exact hx)
  · rw [getN_setN_ne _ _ _ _ (fun e => hqx e.symm)]
    rw [getN_setPrev_self (setHead s (some q)) q none
      (by rw [setHead_length]; exact hq)]
    rfl
  · intro y hyx hyq
    rw [getN_setN_ne _ _ _ _ (fun e => hyx e.symm)]
    rw [getN_setPrev_ne _ _ _ _ (fun e => hyq e.symm)]
    rfl

theorem task_drop_effects_solo (s : Store) (x : Nat)
    (hx : x < s.nodes.length) (hres : (getN s x).resource = true)
    (hprev : (getN s x).previous = none) (hnext : (getN s x).next = none) :
    (task_drop s x).nodes.length = s.nodes.length ∧
    (task_drop s x).head = none ∧ (task_drop s x).tail = none ∧
    getN (task_drop s x) x = blankNode ∧
    (∀ y, y ≠ x → getN (task_drop s x) y = getN s y) := by
  have e1 : task_drop s x =
      setN (setTail (setHead s none) none) x blankNode := by
    simp only [task_drop, hprev, hres, hnext, if_true, getN_setHead s none x]
  rw [e1]
  refine ⟨by rw [setN_length]; rfl, rfl, rfl, ?_, ?_⟩
  · exact getN_setN_self _ _ _ hx
  · intro y hyx
    rw [getN_setN_ne _ _ _ _ (fun e => hyx e.symm)]
    rfl

theorem task_drop_blank (s : Store) (x : Nat)
    (hblank : getN s x = blankNode) : task_drop s x = s := by
  have e1 : task_drop s x = setN s x blankNode := by
    simp only [task_drop, hblank, blankNode, Bool.false_eq_true, if_false]
  rw [e1, setN]
  have h2 : s.nodes.set x blankNode = s.nodes := by
    have h3 := list_set_getD_self s.nodes x blankNode
    rwa [show s.nodes.getD x blankNode = blankNode from hblank] at h3
  rw [h2]

theorem mem_erase_mid {F R : List Nat} {x y : Nat} (hxF : x ∉ F)
    (hxR : x ∉ R) : y ∈ F ++ R ↔ (y ∈ F ++ x :: R ∧ y ≠ x) := by
  simp only [List.mem_append, List.mem_cons]
  constructor
  · rintro (hy | hy)
    · exact ⟨Or.inl hy, fun e => hxF (e ▸ hy)⟩
    · exact ⟨Or.inr (Or.inr hy), fun e => hxR (e ▸ hy)⟩
  · rintro ⟨hy | rfl | hy, hne⟩
    · exact Or.inl hy
    · exact absurd rfl hne
    · exact Or.inr hy

/-- Task.drop removes the node from the member list (or is a no-op on a
detached node), leaving the node blank. -/
theorem encodes_task_drop (s : Store) (L : List Nat) (x : Nat)
    (h : encodes s L) (hx : x < s.nodes.length) :
    ∃ L', encodes (task_drop s x) L' ∧
      (∀ y, y ∈ L' ↔ (y ∈ L ∧ y ≠ x)) ∧
      (task_drop s x).nodes.length = s.nodes.length := by
  obtain ⟨hnd, hhead, htail, hseg, hbl⟩ := h
  by_cases hxL : x ∈ L
  · obtain ⟨F, R, rfl⟩ := List.append_of_mem hxL
    have hndF : F.Nodup := ((List.nodup_append).mp hnd).1
    have hndXR : (x :: R).Nodup := ((List.nodup_append).mp hnd).2.1
    have hdisj : F.Disjoint (x :: R) := ((List.nodup_append).mp hnd).2.2
    have hxF : x ∉ F := fun hm => hdisj hm (List.mem_cons_self x R)
    have hxR : x ∉ R := (List.nodup_cons.mp hndXR).1
    have hsplit := (dllseg_append s F (x :: R) none none).mp hseg
    have hsegF : dllseg s none F (some x) := by
      have := hsplit.1
      simpa using this
    obtain ⟨hxlen, hxprev, hxres, hxnext, hsegR⟩ := hsplit.2
    refine ⟨F ++ R, ?_, fun y => mem_erase_mid hxF hxR, ?_⟩
    swap
    · rcases List.eq_nil_or_concat F with rfl | ⟨F0, p, hF⟩
      · cases R with
        | nil => exact (task_drop_effects_solo s x hx hxres hxprev
            (by simpa using hxnext)).1
        | cons q R' =>
            have hql := (dllseg_mem s (q :: R') (some x) none hsegR q
              (List.mem_cons_self q R')).1
            exact (task_drop_effects_head s x q hx hql
              (fun e => hxR (e ▸ List.mem_cons_self q R')) hxres hxprev
              (by simpa using hxnext)).1
      · rw [List.concat_eq_append] at hF
        subst hF
        have hprev' : (getN s x).previous = some p := by
          rw [hxprev, endPrev_append]
          rfl
        have hpl := (dllseg_mem s (F0 ++ [p]) none (some x) hsegF p
          (List.mem_append_right F0 (List.mem_singleton_self p))).1
        have hpx : p ≠ x :=
          fun e => hxF (e ▸ List.mem_append_right F0 (List.mem_singleton_self p))
        cases R with
        | nil => exact (task_drop_effects_tail s x p hx hpl hpx hxres hprev'
            (by simpa using hxnext)).1
        | cons q R' =>
            have hql := (dllseg_mem s (q :: R') (some x) none hsegR q
              (List.mem_cons_self q R')).1
            have hqx : q ≠ x :=
              fun e => hxR (e ▸ List.mem_cons_self q R')
            have hpq : p ≠ q := by
              intro e
              apply hdisj (List.mem_append_right F0 (List.mem_singleton_self p))
              rw [e]
              exact List.mem_cons_of_mem x (List.mem_cons_self q R')
            exact (task_drop_effects_mid s x p q hx hpl hql hpx hqx hpq hprev'
              (by simpa using hxnext)).1
    · have hndFR : (F ++ R).Nodup := by
        rw [List.nodup_append] at hnd ⊢
        exact ⟨hnd.1, (List.nodup_cons.mp hnd.2.1).2,
          fun a ha hm => hnd.2.2 ha (List.mem_cons_of_mem x hm)⟩
      have hblanks : ∀ s' : Store, s'.nodes.length = s.nodes.length →
          getN s' x = blankNode →
          (∀ y, y ≠ x → y ∉ F → y ∉ R → getN s' y = getN s y) →
          (∀ y, y < s'.nodes.length → y ∉ F ++ R → getN s' y = blankNode) := by
        intro s' hl hbx hfr y hyl hym
        rcases eq_or_ne y x with rfl | hyx
        · exact hbx
        · have hyF : y ∉ F := fun hm => hym (List.mem_append_left R hm)
          have hyR : y ∉ R := fun hm => hym (List.mem_append_right F hm)
          rw [hfr y hyx hyF hyR]
          refine hbl y (by rw [← hl]; exact hyl) ?_
          intro hm
          rcases List.mem_append.mp hm with hm | hm
          · exact hyF hm
          · rcases List.mem_cons.mp hm with rfl | hm
            · exact hyx rfl
            · exact hyR hm
      rcases List.eq_nil_or_concat F with rfl | ⟨F0, p, hF⟩
      · cases R with
        | nil =>
            obtain ⟨e1, e2, e3, e4, e5⟩ := task_drop_effects_solo s x hx hxres
              hxprev (by simpa using hxnext)
            exact ⟨List.nodup_nil, by rw [e2]; rfl, by rw [e3]; rfl, trivial,
              hblanks _ e1 e4 (fun y hyx _ _ => e5 y hyx)⟩
        | cons q R' =>
            have hq := dllseg_mem s (q :: R') (some x) none hsegR q
              (List.mem_cons_self q R')
            have hqx : q ≠ x := fun e => hxR (e ▸ List.mem_cons_self q R')
            obtain ⟨e1, e2, e3, e4, e5, e6⟩ := task_drop_effects_head s x q hx
              hq.1 hqx hxres hxprev (by simpa using hxnext)
            obtain ⟨_, hqprev, hqres, hqnext, hsegR'⟩ := hsegR
            have hqR' : q ∉ R' := (List.nodup_cons.mp (List.nodup_cons.mp hndXR).2).1
            have hxR' : x ∉ R' := fun hm => hxR (List.mem_cons_of_mem q hm)
            refine ⟨(List.nodup_cons.mp hndXR).2, by rw [e2]; rfl, ?_, ?_, ?_⟩
            · rw [e3, htail]
              rfl
            · refine ⟨by rw [e1]; exact hq.1, by rw [e5], ?_, ?_, ?_⟩
              · rw [e5]
                show (getN s q).resource = true
                exact hqres
              · rw [e5]
                show (getN s q).next = (R'.head?).or none
                exact hqnext
              · refine dllseg_congr s _ e1 R' (some q) none ?_ hsegR'
                intro y hy
                exact e6 y (fun e => hxR' (e ▸ hy)) (fun e => hqR' (e ▸ hy))
            · exact hblanks _ e1 e4
                (fun y hyx _ hyR => e6 y hyx
                  (fun e => hyR (e ▸ List.mem_cons_self q R')))
      · rw [List.concat_eq_append] at hF
        subst hF
        have hprev' : (getN s x).previous = some p := by
          rw [hxprev, endPrev_append]
          rfl
        have hp := dllseg_mem s (F0 ++ [p]) none (some x) hsegF p
          (List.mem_append_right F0 (List.mem_singleton_self p))
        have hpx : p ≠ x :=
          fun e => hxF (e ▸ List.mem_append_right F0 (List.mem_singleton_self p))
        have hpF0 : p ∉ F0 := by
          rw [List.nodup_append] at hndF
          exact fun hm => hndF.2.2 hm (List.mem_singleton_self p)
        have hxF0 : x ∉ F0 := fun hm => hxF (List.mem_append_left [p] hm)
        obtain ⟨hsegF0, _, hpprev, hpres, hpnext⟩ :=
          (dllseg_snoc s F0 p none (some x)).mp hsegF
        cases R with
        | nil =>
            obtain ⟨e1, e2, e3, e4, e5, e6⟩ := task_drop_effects_tail s x p hx
              hp.1 hpx hxres hprev' (by simpa using hxnext)
            refine ⟨by simpa using hndF, ?_, ?_, ?_, ?_⟩
            · rw [e2, hhead, List.append_nil,
                head?_append_ne_nil (F0 ++ [p]) (x :: []) (by simp)]
            · rw [e3, List.append_nil, endPrev_append]
              rfl
            · rw [List.append_nil, dllseg_snoc]
              refine ⟨?_, by rw [e1]; exact hp.1, by rw [e5]; exact hpprev,
                ?_, by rw [e5]⟩
              · refine dllseg_congr s _ e1 F0 none (some p) ?_ hsegF0
                intro y hy
                exact e6 y (fun e => hxF0 (e ▸ hy)) (fun e => hpF0 (e ▸ hy))
              · rw [e5]
                show (getN s p).resource = true
                exact hpres
            · exact hblanks _ e1 e4
                (fun y hyx hyF _ => e6 y hyx
                  (fun e => hyF (by
                    rw [e]
                    exact List.mem_append_right F0 (List.mem_singleton_self p))))
        | cons q R' =>
            have hq := dllseg_mem s (q :: R') (some x) none hsegR q
              (List.mem_cons_self q R')
            have hqx : q ≠ x := fun e => hxR (e ▸ List.mem_cons_self q R')
            have hpq : p ≠ q := by
              intro e
              apply hdisj (List.mem_append_right F0 (List.mem_singleton_self p))
              rw [e]
              exact List.mem_cons_of_mem x (List.mem_cons_self q R')
            obtain ⟨e1, e2, e3, e4, e5, e6, e7⟩ := task_drop_effects_mid s x p q
              hx hp.1 hq.1 hpx hqx hpq hprev' (by simpa using hxnext)
            obtain ⟨_, hqprev, hqres, hqnext, hsegR'⟩ := hsegR
            have hqR' : q ∉ R' :=
              (List.nodup_cons.mp (List.nodup_cons.mp hndXR).2).1
            have hxR' : x ∉ R' := fun hm => hxR (List.mem_cons_of_mem q hm)
            have hqF0 : q ∉ F0 := fun hm =>
              hdisj (List.mem_append_left [p] hm)
                (List.mem_cons_of_mem x (List.mem_cons_self q R'))
            refine ⟨hndFR, ?_, ?_, ?_, ?_⟩
            · rw [e2, hhead,
                head?_append_ne_nil (F0 ++ [p]) (x :: q :: R') (by simp),
                head?_append_ne_nil (F0 ++ [p]) (q :: R') (by simp)]
            · rw [e3, htail, endPrev_append none (F0 ++ [p]) (x :: q :: R'),
                endPrev_append none (F0 ++ [p]) (q :: R')]
              rfl
            · rw [dllseg_append]
              constructor
              · rw [show ((q :: R').head?).or none = some q from rfl,
                  dllseg_snoc]
                refine ⟨?_, by rw [e1]; exact hp.1, by rw [e5]; exact hpprev,
                  ?_, by rw [e5]⟩
                · refine dllseg_congr s _ e1 F0 none (some p) ?_ hsegF0
                  intro y hy
                  refine e7 y (fun e => hxF0 (e ▸ hy))
                    (fun e => hpF0 (e ▸ hy)) (fun e => hqF0 (e ▸ hy))
                · rw [e5]
                  show (getN s p).resource = true
                  exact hpres
              · rw [endPrev_append]
                have hpR' : p ∉ R' := fun hm =>
                  hdisj (List.mem_append_right F0 (List.mem_singleton_self p))
                    (List.mem_cons_of_mem x (List.mem_cons_of_mem q hm))
                refine ⟨by rw [e1]; exact hq.1, by rw [e6]; rfl, ?_, ?_, ?_⟩
                · rw [e6]
                  show (getN s q).resource = true
                  exact hqres
                · rw [e6]
                  show (getN s q).next = (R'.head?).or none
                  exact hqnext
                · refine dllseg_congr s _ e1 R' (some q) none ?_ hsegR'
                  intro y hy
                  refine e7 y (fun e => hxR' (e ▸ hy))
                    (fun e => hpR' (e ▸ hy)) (fun e => hqR' (e ▸ hy))
            · exact hblanks _ e1 e4
                (fun y hyx hyF hyR => e7 y hyx
                  (fun e => hyF (by
                    rw [e]
                    exact List.mem_append_right F0 (List.mem_singleton_self p)))
                  (fun e => hyR (by
                    rw [e]
                    exact List.mem_cons_self q R')))
  · have hblank : getN s x = blankNode := hbl x hx hxL
    rw [task_drop_blank s x hblank]
    exact ⟨L, ⟨hnd, hhead, htail, hseg, hbl⟩,
      fun y => ⟨fun hy => ⟨hy, fun e => hxL (e ▸ hy)⟩, fun hy => hy.1⟩, rfl⟩

/-! Effects of the splice part of `task_insert`, on the store left by the
initial `task_drop` of the argument. -/

theorem task_insert_effects_head (s s1 : Store) (x t : Nat)
    (hdrop : task_drop s t = s1)
    (hx : x < s1.nodes.length) (ht : t < s1.nodes.length) (htx : t ≠ x)
    (hxres : (getN s1 x).resource = true)
    (hxprev : (getN s1 x).previous = none) :
    (task_insert s x t).nodes.length = s1.nodes.length ∧
    (task_insert s x t).head = some t ∧
    (task_insert s x t).tail = s1.tail ∧
    getN (task_insert s x t) t =
      { next := some x, previous := none, resource := true } ∧
    getN (task_insert s x t) x = { getN s1 x with previous := some t } ∧
    (∀ y, y ≠ x → y ≠ t → getN (task_insert s x t) y = getN s1 y) := by
  have e1 : task_insert s x t =
      setPrev (setPrev (setNext (setHead (setRes s1 t true) (some t)) t
        (some x)) t none) x (some t) := by
    simp only [task_insert, hdrop,
      getN_setRes_ne s1 t x ((getN s1 x).resource) htx,
      getN_setRes_ne s1 t x true htx, hxres, hxprev, if_true,
      getN_setHead, getN_setNext_ne _ t x (some x) htx,
      getN_setPrev_ne _ t x none htx]
  have hb1 : t < (setNext (setHead (setRes s1 t true) (some t)) t
      (some x)).nodes.length := by
    rw [setNext_length, setHead_length, setRes_length]
    exact ht
  have hb2 : t < (setHead (setRes s1 t true) (some t)).nodes.length := by
    rw [setHead_length, setRes_length]
    exact ht
  have hb3 : x < (setPrev (setNext (setHead (setRes s1 t true) (some t)) t
      (some x)) t none).nodes.length := by
    rw [setPrev_length, setNext_length, setHead_length, setRes_length]
    exact hx
  rw [e1]
  refine ⟨?_, rfl, rfl, ?_, ?_, ?_⟩
  · rw [setPrev_length, setPrev_length, setNext_length, setHead_length,
      setRes_length]
  · rw [getN_setPrev_ne _ x t (some t) (fun e => htx e.symm)]
    rw [getN_setPrev_self _ t none hb1]
    rw [getN_setNext_self _ t (some x) hb2]
    rw [getN_setHead, getN_setRes_self s1 t true ht]
  · rw [getN_setPrev_self _ x (some t) hb3]
    rw [getN_setPrev_ne _ t x none htx, getN_setNext_ne _ t x (some x) htx,
      getN_setHead, getN_setRes_ne s1 t x true htx]
  · intro y hyx hyt
    rw [getN_setPrev_ne _ x y (some t) (fun e => hyx e.symm)]
    rw [getN_setPrev_ne _ t y none (fun e => hyt e.symm)]
    rw [getN_setNext_ne _ t y (some x) (fun e => hyt e.symm)]
    rw [getN_setHead, getN_setRes_ne s1 t y true (fun e => hyt e.symm)]

theorem task_insert_effects_mid (s s1 : Store) (x t p : Nat)
    (hdrop : task_drop s t = s1)
    (hx : x < s1.nodes.length) (ht : t < s1.nodes.length)
    (hpl : p < s1.nodes.length) (htx : t ≠ x) (hpx : p ≠ x) (hpt : p ≠ t)
    (hxres : (getN s1 x).resource = true)
    (hxprev : (getN s1 x).previous = some p) :
    (task_insert s x t).nodes.length = s1.nodes.length ∧
    (task_insert s x t).head = s1.head ∧
    (task_insert s x t).tail = s1.tail ∧
    getN (task_insert s x t) t =
      { next := some x, previous := some p, resource := true } ∧
    getN (task_insert s x t) x = { getN s1 x with previous := some t } ∧
    getN (task_insert s x t) p = { getN s1 p with next := some t } ∧
    (∀ y, y ≠ x → y ≠ t → y ≠ p → getN (task_insert s x t) y = getN s1 y) := by
  have e1 : task_insert s x t =
      setPrev (setPrev (setNext (setNext (setRes s1 t true) p (some t)) t
        (some x)) t (some p)) x (some t) := by
    simp only [task_insert, hdrop,
      getN_setRes_ne s1 t x ((getN s1 x).resource) htx,
      getN_setRes_ne s1 t x true htx, hxres, hxprev,
      getN_setNext_ne _ p x (some t) hpx, getN_setNext_ne _ t x (some x) htx,
      getN_setPrev_ne _ t x (some p) htx]
  have hb1 : t < (setNext (setNext (setRes s1 t true) p (some t)) t
      (some x)).nodes.length := by
    rw [setNext_length, setNext_length, setRes_length]
    exact ht
  have hb2 : t < (setNext (setRes s1 t true) p (some t)).nodes.length := by
    rw [setNext_length, setRes_length]
    exact ht
  have hb3 : x < (setPrev (setNext (setNext (setRes s1 t true) p (some t)) t
      (some x)) t (some p)).nodes.length := by
    rw [setPrev_length, setNext_length, setNext_length, setRes_length]
    exact hx
  have hb4 : p < (setRes s1 t true).nodes.length := by
    rw [setRes_length]
    exact hpl
  rw [e1]
  refine ⟨?_, rfl, rfl, ?_, ?_, ?_, ?_⟩
  · rw [setPrev_length, setPrev_length, setNext_length, setNext_length,
      setRes_length]
  · rw [getN_setPrev_ne _ x t (some t) (fun e => htx e.symm)]
    rw [getN_setPrev_self _ t (some p) hb1]
    rw [getN_setNext_self _ t (some x) hb2]
    rw [getN_setNext_ne _ p t (some t) hpt, getN_setRes_self s1 t true ht]
  · rw [getN_setPrev_self _ x (some t) hb3]
    rw [getN_setPrev_ne _ t x (some p) htx, getN_setNext_ne _ t x (some x) htx,
      getN_setNext_ne _ p x (some t) hpx, getN_setRes_ne s1 t x true htx]
  · rw [getN_setPrev_ne _ x p (some t) (fun e => hpx e.symm)]
    rw [getN_setPrev_ne _ t p (some p) (fun e => hpt e.symm)]
    rw [getN_setNext_ne _ t p (some x) (fun e => hpt e.symm)]
    rw [getN_setNext_self _ p (some t) hb4]
    rw [getN_setRes_ne s1 t p true (fun e => hpt e.symm)]
  · intro y hyx hyt hyp
    rw [getN_setPrev_ne _ x y (some t) (fun e => hyx e.symm)]
    rw [getN_setPrev_ne _ t y (some p) (fun e => hyt e.symm)]
    rw [getN_setNext_ne _ t y (some x) (fun e => hyt e.symm)]
    rw [getN_setNext_ne _ p y (some t) (fun e => hyp e.symm)]
    rw [getN_setRes_ne s1 t y true (fun e => hyt e.symm)]

/-- Task.insert: the argument is auto-detached, then spliced immediately
before the (attached) receiver. -/
theorem encodes_task_insert (s : Store) (L : List Nat) (x t : Nat)
    (h : encodes s L) (hx : x < s.nodes.length) (ht : t < s.nodes.length)
    (htx : t ≠ x) (hxres : (getN s x).resource = true) :
    ∃ L', encodes (task_insert s x t) L' := by
  have hxL : x ∈ L := by
    by_contra hxm
    have := h.2.2.2.2 x hx hxm
    rw [this] at hxres
    exact absurd hxres (by decide)
  obtain ⟨L1, henc1, hmem1, hlen1⟩ := encodes_task_drop s L t h ht
  have hxL1 : x ∈ L1 := (hmem1 x).mpr ⟨hxL, fun e => htx e.symm⟩
  have htL1 : t ∉ L1 := fun hm => ((hmem1 t).mp hm).2 rfl
  obtain ⟨hnd1, hhead1, htail1, hseg1, hbl1⟩ := henc1
  have hx1 : x < (task_drop s t).nodes.length := by rw [hlen1]; exact hx
  have ht1 : t < (task_drop s t).nodes.length := by rw [hlen1]; exact ht
  obtain ⟨F, R, hL1⟩ := List.append_of_mem hxL1
  subst hL1
  have hsplit := (dllseg_append _ F (x :: R) none none).mp hseg1
  have hsegF : dllseg (task_drop s t) none F (some x) := by
    have := hsplit.1
    simpa using this
  obtain ⟨_, hxprev, hx1res, hxnext, hsegR⟩ := hsplit.2
  have hndF : F.Nodup := ((List.nodup_append).mp hnd1).1
  have hndXR : (x :: R).Nodup := ((List.nodup_append).mp hnd1).2.1
  have hdisj : F.Disjoint (x :: R) := ((List.nodup_append).mp hnd1).2.2
  have hxF : x ∉ F := fun hm => hdisj hm (List.mem_cons_self x R)
  have hxR : x ∉ R := (List.nodup_cons.mp hndXR).1
  have htF : t ∉ F := fun hm => htL1 (List.mem_append_left (x :: R) hm)
  have htR : t ∉ R := fun hm =>
    htL1 (List.mem_append_right F (List.mem_cons_of_mem x hm))
  have hndnew : (F ++ t :: x :: R).Nodup := by
    rw [List.nodup_append]
    refine ⟨hndF, List.nodup_cons.mpr ⟨?_, hndXR⟩, ?_⟩
    · intro hm
      rcases List.mem_cons.mp hm with e | hm'
      · exact htx e
      · exact htR hm'
    · intro a ha hm
      rcases List.mem_cons.mp hm with e | hm'
      · exact htF (e ▸ ha)
      · exact hdisj ha hm'
  have hblanknew : ∀ s' : Store,
      s'.nodes.length = (task_drop s t).nodes.length →
      (∀ y, y ≠ x → y ≠ t → y ∉ F → y ∉ R → getN s' y = getN (task_drop s t) y) →
      (∀ y, y < s'.nodes.length → y ∉ F ++ t :: x :: R →
        getN s' y = blankNode) := by
    intro s' hl hfr y hyl hym
    have hyt : y ≠ t := fun e => hym (by
      rw [e]
      exact List.mem_append_right F (List.mem_cons_self t (x :: R)))
    have hyx : y ≠ x := fun e => hym (by
      rw [e]
      exact List.mem_append_right F (List.mem_cons_of_mem t
        (List.mem_cons_self x R)))
    have hyF : y ∉ F := fun hm => hym (List.mem_append_left _ hm)
    have hyR : y ∉ R := fun hm => hym (List.mem_append_right F
      (List.mem_cons_of_mem t (List.mem_cons_of_mem x hm)))
    rw [hfr y hyx hyt hyF hyR]
    refine hbl1 y (by rw [← hl]; exact hyl) ?_
    intro hm
    rcases List.mem_append.mp hm with hm | hm
    · exact hyF hm
    · rcases List.mem_cons.mp hm with e | hm'
      · exact hyx e
      · exact hyR hm'
  rcases List.eq_nil_or_concat F with rfl | ⟨F0, p, hF⟩
  · have hxprev' : (getN (task_drop s t) x).previous = none := hxprev
    obtain ⟨e1, e2, e3, e4, e5, e6⟩ := task_insert_effects_head s
      (task_drop s t) x t rfl hx1 ht1 htx hx1res hxprev'
    refine ⟨t :: x :: R, by simpa using hndnew, by rw [e2]; rfl, ?_, ?_, ?_⟩
    · rw [e3, htail1]
      cases R with
      | nil => rfl
      | cons z zs => rfl
    · refine ⟨by rw [e1]; exact ht1, by rw [e4], by rw [e4], by rw [e4]; rfl, ?_⟩
      refine ⟨by rw [e1]; exact hx1, by rw [e5], ?_, ?_, ?_⟩
      · rw [e5]
        show (getN (task_drop s t) x).resource = true
        exact hx1res
      · rw [e5]
        show (getN (task_drop s t) x).next = (R.head?).or none
        exact by simpa using hxnext
      · refine dllseg_congr _ _ e1 R (some x) none ?_ hsegR
        intro y hy
        exact e6 y (fun e => hxR (e ▸ hy)) (fun e => htR (e ▸ hy))
    · exact hblanknew _ e1 (fun y hyx hyt _ _ => e6 y hyx hyt)
  · rw [List.concat_eq_append] at hF
    subst hF
    have hxprev' : (getN (task_drop s t) x).previous = some p := by
      rw [hxprev, endPrev_append]
      rfl
    have hpmem := dllseg_mem _ (F0 ++ [p]) none (some x) hsegF p
      (List.mem_append_right F0 (List.mem_singleton_self p))
    have hpx : p ≠ x :=
      fun e => hxF (e ▸ List.mem_append_right F0 (List.mem_singleton_self p))
    have hpt : p ≠ t :=
      fun e => htF (e ▸ List.mem_append_right F0 (List.mem_singleton_self p))
    have hpF0 : p ∉ F0 := by
      rw [List.nodup_append] at hndF
      exact fun hm => hndF.2.2 hm (List.mem_singleton_self p)
    have hxF0 : x ∉ F0 := fun hm => hxF (List.mem_append_left [p] hm)
    have htF0 : t ∉ F0 := fun hm => htF (List.mem_append_left [p] hm)
    obtain ⟨hsegF0, _, hpprev, hpres, hpnext⟩ :=
      (dllseg_snoc _ F0 p none (some x)).mp hsegF
    obtain ⟨e1, e2, e3, e4, e5, e6, e7⟩ := task_insert_effects_mid s
      (task_drop s t) x t p rfl hx1 ht1 hpmem.1 htx hpx hpt hx1res hxprev'
    refine ⟨(F0 ++ [p]) ++ t :: x :: R, hndnew, ?_, ?_, ?_, ?_⟩
    · rw [e2, hhead1,
        head?_append_ne_nil (F0 ++ [p]) (x :: R) (by simp),
        head?_append_ne_nil (F0 ++ [p]) (t :: x :: R) (by simp)]
    · rw [e3, htail1, endPrev_append none (F0 ++ [p]) (x :: R),
        endPrev_append none (F0 ++ [p]) (t :: x :: R)]
      cases R with
      | nil => rfl
      | cons z zs => rfl
    · rw [dllseg_append]
      constructor
      · rw [show ((t :: x :: R).head?).or none = some t from rfl, dllseg_snoc]
        refine ⟨?_, by rw [e1]; exact hpmem.1, by rw [e6]; exact hpprev, ?_,
          by rw [e6]⟩
        · refine dllseg_congr _ _ e1 F0 none (some p) ?_ hsegF0
          intro y hy
          exact e7 y (fun e => hxF0 (e ▸ hy)) (fun e => htF0 (e ▸ hy))
            (fun e => hpF0 (e ▸ hy))
        · rw [e6]
          show (getN (task_drop s t) p).resource = true
          exact hpres
      · rw [endPrev_append none F0 [p]]
        refine ⟨by rw [e1]; exact ht1, by rw [e4]; rfl, by rw [e4], ?_, ?_⟩
        · rw [e4]
          rfl
        · refine ⟨by rw [e1]; exact hx1, by rw [e5], ?_, ?_, ?_⟩
          · rw [e5]
            show (getN (task_drop s t) x).resource = true
            exact hx1res
          · rw [e5]
            show (getN (task_drop s t) x).next = (R.head?).or none
            exact by simpa using hxnext
          · have hpR : p ∉ R := fun hm =>
              hdisj (List.mem_append_right F0 (List.mem_singleton_self p))
                (List.mem_cons_of_mem x hm)
            refine dllseg_congr _ _ e1 R (some x) none ?_ hsegR
            intro y hy
            exact e7 y (fun e => hxR (e ▸ hy)) (fun e => htR (e ▸ hy))
              (fun e => hpR (e ▸ hy))
    · exact hblanknew _ e1 (fun y hyx hyt hyF _ => e7 y hyx hyt
        (fun e => hyF (by
          rw [e]
          exact List.mem_append_right F0 (List.mem_singleton_self p))))

/-! Effects of `task_move_out` (exchange with the successor `y`). -/

theorem task_move_out_noop (s : Store) (x : Nat)
    (h : (getN s x).next = none) : task_move_out s x = s := by
  simp only [task_move_out, h]

theorem task_move_out_effects_mid (s : Store) (x y p q : Nat)
    (hx : x < s.nodes.length) (hy : y < s.nodes.length)
    (hp : p < s.nodes.length) (hq : q < s.nodes.length)
    (hyx : y ≠ x) (hpx : p ≠ x) (hpy : p ≠ y) (hqx : q ≠ x) (hqy : q ≠ y)
    (hpq : p ≠ q)
    (hxnext : (getN s x).next = some y)
    (hxprev : (getN s x).previous = some p)
    (hynext : (getN s y).next = some q) :
    (task_move_out s x).nodes.length = s.nodes.length ∧
    (task_move_out s x).head = s.head ∧
    (task_move_out s x).tail = s.tail ∧
    getN (task_move_out s x) x =
      { getN s x with previous := some y, next := some q } ∧
    getN (task_move_out s x) y =
      { getN s y with previous := some p, next := some x } ∧
    getN (task_move_out s x) p = { getN s p with next := some y } ∧
    getN (task_move_out s x) q = { getN s q with previous := some x } ∧
    (∀ z, z ≠ x → z ≠ y → z ≠ p → z ≠ q →
      getN (task_move_out s x) z = getN s z) := by
  have e1 : task_move_out s x =
      setNext (setPrev (setNext (setPrev (setNext (setPrev s y (some p)) p
        (some y)) x (some y)) x (some q)) q (some x)) y (some x) := by
    simp only [task_move_out, hxnext, hxprev,
      getN_setPrev_ne s y x (some p) hyx,
      getN_setNext_ne _ p x (some y) hpx,
      getN_setPrev_self s y (some p) hy,
      getN_setNext_ne _ p y (some y) hpy,
      getN_setPrev_ne _ x y (some y) (fun e => hyx e.symm),
      getN_setNext_ne _ x y (some q) (fun e => hyx e.symm),
      hynext]
  have hby : y < (setPrev (setNext (setPrev (setNext (setPrev s y (some p)) p
      (some y)) x (some y)) x (some q)) q (some x)).nodes.length := by
    rw [setPrev_length, setNext_length, setPrev_length, setNext_length,
      setPrev_length]
    exact hy
  rw [e1]
  refine ⟨?_, rfl, rfl, ?_, ?_, ?_, ?_, ?_⟩
  · rw [setNext_length, setPrev_length, setNext_length, setPrev_length,
      setNext_length, setPrev_length]
  · rw [getN_setNext_ne _ y x (some x) hyx]
    rw [getN_setPrev_ne _ q x (some x) hqx]
    rw [getN_setNext_self _ x (some q) (by
      rw [setPrev_length, setNext_length, setPrev_length]
      exact hx)]
    rw [getN_setPrev_self _ x (some y) (by
      rw [setNext_length, setPrev_length]
      exact hx)]
    rw [getN_setNext_ne _ p x (some y) hpx]
    rw [getN_setPrev_ne s y x (some p) hyx]
  · rw [getN_setNext_self _ y (some x) hby]
    rw [getN_setPrev_ne _ q y (some x) hqy]
    rw [getN_setNext_ne _ x y (some q) (fun e => hyx e.symm)]
    rw [getN_setPrev_ne _ x y (some y) (fun e => hyx e.symm)]
    rw [getN_setNext_ne _ p y (some y) hpy]
    rw [getN_setPrev_self s y (some p) hy]
  · rw [getN_setNext_ne _ y p (some x) (fun e => hpy e.symm)]
    rw [getN_setPrev_ne _ q p (some x) (fun e => hpq e.symm)]
    rw [getN_setNext_ne _ x p (some q) (fun e => hpx e.symm)]
    rw [getN_setPrev_ne _ x p (some y) (fun e => hpx e.symm)]
    rw [getN_setNext_self _ p (some y) (by rw [setPrev_length]; exact hp)]
    rw [getN_setPrev_ne s y p (some p) (fun e => hpy e.symm)]
  · rw [getN_setNext_ne _ y q (some x) (fun e => hqy e.symm)]
    rw [getN_setPrev_self _ q (some x) (by
      rw [setNext_length, setPrev_length, setNext_length, setPrev_length]
      exact hq)]
    rw [getN_setNext_ne _ x q (some q) (fun e => hqx e.symm)]
    rw [getN_setPrev_ne _ x q (some y) (fun e => hqx e.symm)]
    rw [getN_setNext_ne _ p q (some y) hpq]
    rw [getN_setPrev_ne s y q (some p) (fun e => hqy e.symm)]
  · intro z hzx hzy hzp hzq
    rw [getN_setNext_ne _ y z (some x) (fun e => hzy e.symm)]
    rw [getN_setPrev_ne _ q z (some x) (fun e => hzq e.symm)]
    rw [getN_setNext_ne _ x z (some q) (fun e => hzx e.symm)]
    rw [getN_setPrev_ne _ x z (some y) (fun e => hzx e.symm)]
    rw [getN_setNext_ne _ p z (some y) (fun e => hzp e.symm)]
    rw [getN_setPrev_ne s y z (some p) (fun e => hzy e.symm)]

theorem task_move_out_effects_tail (s : Store) (x y p : Nat)
    (hx : x < s.nodes.length) (hy : y < s.nodes.length)
    (hp : p < s.nodes.length)
    (hyx : y ≠ x) (hpx : p ≠ x) (hpy : p ≠ y)
    (hxres : (getN s x).resource = true)
    (hxnext : (getN s x).next = some y)
    (hxprev : (getN s x).previous = some p)
    (hynext : (getN s y).next = none) :
    (task_move_out s x).nodes.length = s.nodes.length ∧
    (task_move_out s x).head = s.head ∧
    (task_move_out s x).tail = some x ∧
    getN (task_move_out s x) x =
      { getN s x with previous := some y, next := none } ∧
    getN (task_move_out s x) y =
      { getN s y with previous := some p, next := some x } ∧
    getN (task_move_out s x) p = { getN s p with next := some y } ∧
    (∀ z, z ≠ x → z ≠ y → z ≠ p → getN (task_move_out s x) z = getN s z) := by
  have e1 : task_move_out s x =
      setNext (setTail (setNext (setPrev (setNext (setPrev s y (some p)) p
        (some y)) x (some y)) x none) (some x)) y (some x) := by
    simp only [task_move_out, hxnext, hxprev,
      getN_setPrev_ne s y x (some p) hyx,
      getN_setNext_ne _ p x (some y) hpx,
      getN_setPrev_self s y (some p) hy,
      getN_setNext_ne _ p y (some y) hpy,
      getN_setPrev_ne _ x y (some y) (fun e => hyx e.symm),
      getN_setNext_ne _ x y none (fun e => hyx e.symm),
      getN_setPrev_self (setNext (setPrev s y (some p)) p (some y)) x (some y)
        (by
          rw [setNext_length, setPrev_length]
          exact hx),
      getN_setNext_self (setPrev (setNext (setPrev s y (some p)) p (some y)) x
        (some y)) x none
        (by
          rw [setPrev_length, setNext_length, setPrev_length]
          exact hx),
      hynext, hxres, if_true]
  have hby : y < (setTail (setNext (setPrev (setNext (setPrev s y (some p)) p
      (some y)) x (some y)) x none) (some x)).nodes.length := by
    rw [setTail_length, setNext_length, setPrev_length, setNext_length,
      setPrev_length]
    exact hy
  rw [e1]
  refine ⟨?_, rfl, rfl, ?_, ?_, ?_, ?_⟩
  · rw [setNext_length, setTail_length, setNext_length, setPrev_length,
      setNext_length, setPrev_length]
  · rw [getN_setNext_ne _ y x (some x) hyx]
    rw [show getN (setTail (setNext (setPrev (setNext (setPrev s y (some p)) p
      (some y)) x (some y)) x none) (some x)) x =
      getN (setNext (setPrev (setNext (setPrev s y (some p)) p (some y)) x
        (some y)) x none) x from rfl]
    rw [getN_setNext_self _ x none (by
      rw [setPrev_length, setNext_length, setPrev_length]
      exact hx)]
    rw [getN_setPrev_self _ x (some y) (by
      rw [setNext_length, setPrev_length]
      exact hx)]
    rw [getN_setNext_ne _ p x (some y) hpx]
    rw [getN_setPrev_ne s y x (some p) hyx]
  · rw [getN_setNext_self _ y (some x) hby]
    rw [show getN (setTail (setNext (setPrev (setNext (setPrev s y (some p)) p
      (some y)) x (some y)) x none) (some x)) y =
      getN (setNext (setPrev (setNext (setPrev s y (some p)) p (some y)) x
        (some y)) x none) y from rfl]
    rw [getN_setNext_ne _ x y none (fun e => hyx e.symm)]
    rw [getN_setPrev_ne _ x y (some y) (fun e => hyx e.symm)]
    rw [getN_setNext_ne _ p y (some y) hpy]
    rw [getN_setPrev_self s y (some p) hy]
  · rw [getN_setNext_ne _ y p (some x) (fun e => hpy e.symm)]
    rw [show getN (setTail (setNext (setPrev (setNext (setPrev s y (some p)) p
      (some y)) x (some y)) x none) (some x)) p =
      getN (setNext (setPrev (setNext (setPrev s y (some p)) p (some y)) x
        (some y)) x none) p from rfl]
    rw [getN_setNext_ne _ x p none (fun e => hpx e.symm)]
    rw [getN_setPrev_ne _ x p (some y) (fun e => hpx e.symm)]
    rw [getN_setNext_self _ p (some y) (by rw [setPrev_length]; exact hp)]
    rw [getN_setPrev_ne s y p (some p) (fun e => hpy e.symm)]
  · intro z hzx hzy hzp
    rw [getN_setNext_ne _ y z (some x) (fun e => hzy e.symm)]
    rw [show getN (setTail (setNext (setPrev (setNext (setPrev s y (some p)) p
      (some y)) x (some y)) x none) (some x)) z =
      getN (setNext (setPrev (setNext (setPrev s y (some p)) p (some y)) x
        (some y)) x none) z from rfl]
    rw [getN_setNext_ne _ x z none (fun e => hzx e.symm)]
    rw [getN_setPrev_ne _ x z (some y) (fun e => hzx e.symm)]
    rw [getN_setNext_ne _ p z (some y) (fun e => hzp e.symm)]
    rw [getN_setPrev_ne s y z (some p) (fun e => hzy e.symm)]

theorem task_move_out_effects_front (s : Store) (x y q : Nat)
    (hx : x < s.nodes.length) (hy : y < s.nodes.length)
    (hq : q < s.nodes.length)
    (hyx : y ≠ x) (hqx : q ≠ x) (hqy : q ≠ y)
    (hxres : (getN s x).resource = true)
    (hxnext : (getN s x).next = some y)
    (hxprev : (getN s x).previous = none)
    (hynext : (getN s y).next = some q) :
    (task_move_out s x).nodes.length = s.nodes.length ∧
    (task_move_out s x).head = some y ∧
    (task_move_out s x).tail = s.tail ∧
    getN (task_move_out s x) x =
      { getN s x with previous := some y, next := some q } ∧
    getN (task_move_out s x) y =
      { getN s y with previous := none, next := some x } ∧
    getN (task_move_out s x) q = { getN s q with previous := some x } ∧
    (∀ z, z ≠ x → z ≠ y → z ≠ q → getN (task_move_out s x) z = getN s z) := by
  have e1 : task_move_out s x =
      setNext (setPrev (setNext (setPrev (setHead (setPrev s y none) (some y))
        x (some y)) x (some q)) q (some x)) y (some x) := by
    simp only [task_move_out, hxnext, hxprev,
      getN_setPrev_ne s y x none hyx, hxres, if_true, getN_setHead,
      getN_setPrev_self s y none hy,
      getN_setPrev_ne _ x y (some y) (fun e => hyx e.symm),
      getN_setNext_ne _ x y (some q) (fun e => hyx e.symm),
      hynext]
  have hby : y < (setPrev (setNext (setPrev (setHead (setPrev s y none)
      (some y)) x (some y)) x (some q)) q (some x)).nodes.length := by
    rw [setPrev_length, setNext_length, setPrev_length, setHead_length,
      setPrev_length]
    exact hy
  rw [e1]
  refine ⟨?_, rfl, rfl, ?_, ?_, ?_, ?_⟩
  · rw [setNext_length, setPrev_length, setNext_length, setPrev_length,
      setHead_length, setPrev_length]
  · rw [getN_setNext_ne _ y x (some x) hyx]
    rw [getN_setPrev_ne _ q x (some x) hqx]
    rw [getN_setNext_self _ x (some q) (by
      rw [setPrev_length, setHead_length, setPrev_length]
      exact hx)]
    rw [getN_setPrev_self _ x (some y) (by
      rw [setHead_length, setPrev_length]
      exact hx)]
    rw [getN_setHead]
    rw [getN_setPrev_ne s y x none hyx]
  · rw [getN_setNext_self _ y (some x) hby]
    rw [getN_setPrev_ne _ q y (some x) hqy]
    rw [getN_setNext_ne _ x y (some q) (fun e => hyx e.symm)]
    rw [getN_setPrev_ne _ x y (some y) (fun e => hyx e.symm)]
    rw [getN_setHead]
    rw [getN_setPrev_self s y none hy]
  · rw [getN_setNext_ne _ y q (some x) (fun e => hqy e.symm)]
    rw [getN_setPrev_self _ q (some x) (by
      rw [setNext_length, setPrev_length, setHead_length, setPrev_length]
      exact hq)]
    rw [getN_setNext_ne _ x q (some q) (fun e => hqx e.symm)]
    rw [getN_setPrev_ne _ x q (some y) (fun e => hqx e.symm)]
    rw [getN_setHead]
    rw [getN_setPrev_ne s y q none (fun e => hqy e.symm)]
  · intro z hzx hzy hzq
    rw [getN_setNext_ne _ y z (some x) (fun e => hzy e.symm)]
    rw [getN_setPrev_ne _ q z (some x) (fun e => hzq e.symm)]
    rw [getN_setNext_ne _ x z (some q) (fun e => hzx e.symm)]
    rw [getN_setPrev_ne _ x z (some y) (fun e => hzx e.symm)]
    rw [getN_setHead]
    rw [getN_setPrev_ne s y z none (fun e => hzy e.symm)]

theorem task_move_out_effects_pair (s : Store) (x y : Nat)
    (hx : x < s.nodes.length) (hy : y < s.nodes.length) (hyx : y ≠ x)
    (hxres : (getN s x).resource = true)
    (hxnext : (getN s x).next = some y)
    (hxprev : (getN s x).previous = none)
    (hynext : (getN s y).next = none) :
    (task_move_out s x).nodes.length = s.nodes.length ∧
    (task_move_out s x).head = some y ∧
    (task_move_out s x).tail = some x ∧
    getN (task_move_out s x) x =
      { getN s x with previous := some y, next := none } ∧
    getN (task_move_out s x) y =
      { getN s y with previous := none, next := some x } ∧
    (∀ z, z ≠ x → z ≠ y → getN (task_move_out s x) z = getN s z) := by
  have e1 : task_move_out s x =
      setNext (setTail (setNext (setPrev (setHead (setPrev s y none) (some y))
        x (some y)) x none) (some x)) y (some x) := by
    simp only [task_move_out, hxnext, hxprev,
      getN_setPrev_ne s y x none hyx, hxres, if_true, getN_setHead,
      getN_setPrev_self s y none hy,
      getN_setPrev_ne _ x y (some y) (fun e => hyx e.symm),
      getN_setNext_ne _ x y none (fun e => hyx e.symm),
      getN_setPrev_self (setHead (setPrev s y none) (some y)) x (some y)
        (by
          rw [setHead_length, setPrev_length]
          exact hx),
      getN_setNext_self (setPrev (setHead (setPrev s y none) (some y)) x
        (some y)) x none
        (by
          rw [setPrev_length, setHead_length, setPrev_length]
          exact hx),
      hynext]
  have hby : y < (setTail (setNext (setPrev (setHead (setPrev s y none)
      (some y)) x (some y)) x none) (some x)).nodes.length := by
    rw [setTail_length, setNext_length, setPrev_length, setHead_length,
      setPrev_length]
    exact hy
  rw [e1]
  refine ⟨?_, rfl, rfl, ?_, ?_, ?_⟩
  · rw [setNext_length, setTail_length, setNext_length, setPrev_length,
      setHead_length, setPrev_length]
  · rw [getN_setNext_ne _ y x (some x) hyx]
    rw [show getN (setTail (setNext (setPrev (setHead (setPrev s y none)
      (some y)) x (some y)) x none) (some x)) x =
      getN (setNext (setPrev (setHead (setPrev s y none) (some y)) x (some y))
        x none) x from rfl]
    rw [getN_setNext_self _ x none (by
      rw [setPrev_length, setHead_length, setPrev_length]
      exact hx)]
    rw [getN_setPrev_self _ x (some y) (by
      rw [setHead_length, setPrev_length]
      exact hx)]
    rw [getN_setHead]
    rw [getN_setPrev_ne s y x none hyx]
  · rw [getN_setNext_self _ y (some x) hby]
    rw [show getN (setTail (setNext (setPrev (setHead (setPrev s y none)
      (some y)) x (some y)) x none) (some x)) y =
      getN (setNext (setPrev (setHead (setPrev s y none) (some y)) x (some y))
        x none) y from rfl]
    rw [getN_setNext_ne _ x y none (fun e => hyx e.symm)]
    rw [getN_setPrev_ne _ x y (some y) (fun e => hyx e.symm)]
    rw [getN_setHead]
    rw [getN_setPrev_self s y none hy]
  · intro z hzx hzy
    rw [getN_setNext_ne _ y z (some x) (fun e => hzy e.symm)]
    rw [show getN (setTail (setNext (setPrev (setHead (setPrev s y none)
      (some y)) x (some y)) x none) (some x)) z =
      getN (setNext (setPrev (setHead (setPrev s y none) (some y)) x (some y))
        x none) z from rfl]
    rw [getN_setNext_ne _ x z none (fun e => hzx e.symm)]
    rw [getN_setPrev_ne _ x z (some y) (fun e => hzx e.symm)]
    rw [getN_setHead]
    rw [getN_setPrev_ne s y z none (fun e => hzy e.symm)]

theorem nodup_swap_pair {F R2 : List Nat} {x y : Nat}
    (h : (F ++ x :: y :: R2).Nodup) : (F ++ y :: x :: R2).Nodup := by
  rw [List.nodup_append] at h ⊢
  obtain ⟨hF, hm, hd⟩ := h
  obtain ⟨hxm, hm2⟩ := List.nodup_cons.mp hm
  obtain ⟨hym, hR2⟩ := List.nodup_cons.mp hm2
  refine ⟨hF, ?_, ?_⟩
  · refine List.nodup_cons.mpr ⟨?_, List.nodup_cons.mpr ⟨?_, hR2⟩⟩
    · intro hmem
      rcases List.mem_cons.mp hmem with e | hmem'
      · exact hxm (List.mem_cons.mpr (Or.inl e.symm))
      · exact hym hmem'
    · exact fun hmem => hxm (List.mem_cons_of_mem y hmem)
  · intro a ha hmem
    apply hd ha
    rcases List.mem_cons.mp hmem with e | hmem'
    · exact List.mem_cons_of_mem x (by rw [e]; exact List.mem_cons_self y R2)
    · rcases List.mem_cons.mp hmem' with e | hmem''
      · exact (by rw [e]; exact List.mem_cons_self x (y :: R2))
      · exact List.mem_cons_of_mem x (List.mem_cons_of_mem y hmem'')

/-- Task.move_out exchanges the node with its successor in the member list
(no-op without a successor or on a detached node). -/
theorem encodes_task_move_out (s : Store) (L : List Nat) (x : Nat)
    (h : encodes s L) (hx : x < s.nodes.length) :
    ∃ L', encodes (task_move_out s x) L' := by
  obtain ⟨hnd, hhead, htail, hseg, hbl⟩ := h
  by_cases hxL : x ∈ L
  swap
  · have hblank : getN s x = blankNode := hbl x hx hxL
    rw [task_move_out_noop s x (by rw [hblank]; rfl)]
    exact ⟨L, hnd, hhead, htail, hseg, hbl⟩
  · obtain ⟨F, R, rfl⟩ := List.append_of_mem hxL
    have hsplit := (dllseg_append s F (x :: R) none none).mp hseg
    have hsegF : dllseg s none F (some x) := by
      have := hsplit.1
      simpa using this
    obtain ⟨_, hxprev, hxres, hxnext, hsegR⟩ := hsplit.2
    cases R with
    | nil =>
        rw [task_move_out_noop s x (by simpa using hxnext)]
        exact ⟨F ++ x :: [], hnd, hhead, htail, hseg, hbl⟩
    | cons y R2 =>
        have hxnext' : (getN s x).next = some y := by simpa using hxnext
        obtain ⟨hyl, hyprev, hyres, hynext, hsegR2⟩ := hsegR
        have hndF : F.Nodup := ((List.nodup_append).mp hnd).1
        have hdisj : F.Disjoint (x :: y :: R2) := ((List.nodup_append).mp hnd).2.2
        have hndM : (x :: y :: R2).Nodup := ((List.nodup_append).mp hnd).2.1
        have hyx : y ≠ x := fun e =>
          (List.nodup_cons.mp hndM).1 (List.mem_cons.mpr (Or.inl e.symm))
        have hxR2 : x ∉ R2 := fun hm =>
          (List.nodup_cons.mp hndM).1 (List.mem_cons_of_mem y hm)
        have hyR2 : y ∉ R2 :=
          (List.nodup_cons.mp (List.nodup_cons.mp hndM).2).1
        have hxF : x ∉ F := fun hm => hdisj hm (List.mem_cons_self x (y :: R2))
        have hyF : y ∉ F := fun hm =>
          hdisj hm (List.mem_cons_of_mem x (List.mem_cons_self y R2))
        have hndnew : (F ++ y :: x :: R2).Nodup := nodup_swap_pair hnd
        have hblanks : ∀ s' : Store, s'.nodes.length = s.nodes.length →
            (∀ z, z ≠ x → z ≠ y → z ∉ F → z ∉ R2 → getN s' z = getN s z) →
            (∀ z, z < s'.nodes.length → z ∉ F ++ y :: x :: R2 →
              getN s' z = blankNode) := by
          intro s' hl hfr z hzl hzm
          have hzx : z ≠ x := fun e => hzm (by
            rw [e]
            exact List.mem_append_right F (List.mem_cons_of_mem y
              (List.mem_cons_self x R2)))
          have hzy : z ≠ y := fun e => hzm (by
            rw [e]
            exact List.mem_append_right F (List.mem_cons_self y (x :: R2)))
          have hzF : z ∉ F := fun hm => hzm (List.mem_append_left _ hm)
          have hzR2 : z ∉ R2 := fun hm => hzm (List.mem_append_right F
            (List.mem_cons_of_mem y (List.mem_cons_of_mem x hm)))
          rw [hfr z hzx hzy hzF hzR2]
          refine hbl z (by rw [← hl]; exact hzl) ?_
          intro hm
          rcases List.mem_append.mp hm with hm | hm
          · exact hzF hm
          · rcases List.mem_cons.mp hm with e | hm
            · exact hzx e
            · rcases List.mem_cons.mp hm with e | hm
              · exact hzy e
              · exact hzR2 hm
        rcases List.eq_nil_or_concat F with rfl | ⟨F0, p, hF⟩
        · have hxprev' : (getN s x).previous = none := hxprev
          cases R2 with
          | nil =>
              obtain ⟨e1, e2, e3, e4, e5, e6⟩ := task_move_out_effects_pair s
                x y hx hyl hyx hxres hxnext' hxprev' (by simpa using hynext)
              refine ⟨[y, x], by simpa using hndnew, by rw [e2]; rfl,
                by rw [e3]; rfl, ?_, ?_⟩
              · refine ⟨by rw [e1]; exact hyl, by rw [e5], ?_, by rw [e5]; rfl, ?_⟩
                · rw [e5]
                  show (getN s y).resource = true
                  exact hyres
                · refine ⟨by rw [e1]; exact hx, by rw [e4], ?_, by rw [e4]; rfl,
                    trivial⟩
                  rw [e4]
                  show (getN s x).resource = true
                  exact hxres
              · exact hblanks _ e1 (fun z hzx hzy _ _ => e6 z hzx hzy)
          | cons q R2' =>
              have hq := dllseg_mem s (q :: R2') (some y) none hsegR2 q
                (List.mem_cons_self q R2')
              have hqx : q ≠ x := fun e => hxR2 (e ▸ List.mem_cons_self q R2')
              have hqy : q ≠ y := fun e => hyR2 (e ▸ List.mem_cons_self q R2')
              obtain ⟨e1, e2, e3, e4, e5, e6, e7⟩ :=
                task_move_out_effects_front s x y q hx hyl hq.1 hyx hqx hqy
                  hxres hxnext' hxprev' (by simpa using hynext)
              obtain ⟨_, hqprev, hqres, hqnext, hsegR2'⟩ := hsegR2
              have hqR2' : q ∉ R2' := (List.nodup_cons.mp
                (List.nodup_cons.mp (List.nodup_cons.mp hndM).2).2).1
              have hxR2' : x ∉ R2' := fun hm => hxR2 (List.mem_cons_of_mem q hm)
              have hyR2' : y ∉ R2' := fun hm => hyR2 (List.mem_cons_of_mem q hm)
              refine ⟨y :: x :: q :: R2', by simpa using hndnew,
                by rw [e2]; rfl, ?_, ?_, ?_⟩
              · rw [e3, htail]
                rfl
              · refine ⟨by rw [e1]; exact hyl, by rw [e5], ?_, by rw [e5]; rfl, ?_⟩
                · rw [e5]
                  show (getN s y).resource = true
                  exact hyres
                · refine ⟨by rw [e1]; exact hx, by rw [e4], ?_, by rw [e4]; rfl, ?_⟩
                  · rw [e4]
                    show (getN s x).resource = true
                    exact hxres
                  · refine ⟨by rw [e1]; exact hq.1, by rw [e6],
                      ?_, ?_, ?_⟩
                    · rw [e6]
                      show (getN s q).resource = true
                      exact hqres
                    · rw [e6]
                      show (getN s q).next = (R2'.head?).or none
                      exact hqnext
                    · refine dllseg_congr s _ e1 R2' (some q) none ?_ hsegR2'
                      intro z hz
                      exact e7 z (fun e => hxR2' (e ▸ hz))
                        (fun e => hyR2' (e ▸ hz)) (fun e => hqR2' (e ▸ hz))
              · exact hblanks _ e1 (fun z hzx hzy _ hzR2 => e7 z hzx hzy
                  (fun e => hzR2 (by
                    rw [e]
                    exact List.mem_cons_self q R2')))
        · rw [List.concat_eq_append] at hF
          subst hF
          have hxprev' : (getN s x).previous = some p := by
            rw [hxprev, endPrev_append]
            rfl
          have hpmem := dllseg_mem s (F0 ++ [p]) none (some x) hsegF p
            (List.mem_append_right F0 (List.mem_singleton_self p))
          have hpx : p ≠ x := fun e =>
            hxF (e ▸ List.mem_append_right F0 (List.mem_singleton_self p))
          have hpy : p ≠ y := fun e =>
            hyF (e ▸ List.mem_append_right F0 (List.mem_singleton_self p))
          have hpF0 : p ∉ F0 := by
            rw [List.nodup_append] at hndF
            exact fun hm => hndF.2.2 hm (List.mem_singleton_self p)
          have hxF0 : x ∉ F0 := fun hm => hxF (List.mem_append_left [p] hm)
          have hyF0 : y ∉ F0 := fun hm => hyF (List.mem_append_left [p] hm)
          obtain ⟨hsegF0, _, hpprev, hpres, hpnext⟩ :=
            (dllseg_snoc s F0 p none (some x)).mp hsegF
          cases R2 with
          | nil =>
              obtain ⟨e1, e2, e3, e4, e5, e6, e7⟩ :=
                task_move_out_effects_tail s x y p hx hyl hpmem.1 hyx hpx hpy
                  hxres hxnext' hxprev' (by simpa using hynext)
              refine ⟨(F0 ++ [p]) ++ y :: x :: [], hndnew, ?_, ?_, ?_, ?_⟩
              · rw [e2, hhead,
                  head?_append_ne_nil (F0 ++ [p]) (x :: y :: []) (by simp),
                  head?_append_ne_nil (F0 ++ [p]) (y :: x :: []) (by simp)]
              · rw [e3, endPrev_append none (F0 ++ [p]) (y :: x :: [])]
                rfl
              · rw [dllseg_append]
                constructor
                · rw [show ((y :: x :: []).head?).or none = some y from rfl,
                    dllseg_snoc]
                  refine ⟨?_, by rw [e1]; exact hpmem.1,
                    by rw [e6]; exact hpprev, ?_, by rw [e6]⟩
                  · refine dllseg_congr s _ e1 F0 none (some p) ?_ hsegF0
                    intro z hz
                    exact e7 z (fun e => hxF0 (e ▸ hz)) (fun e => hyF0 (e ▸ hz))
                      (fun e => hpF0 (e ▸ hz))
                  · rw [e6]
                    show (getN s p).resource = true
                    exact hpres
                · rw [endPrev_append none F0 [p]]
                  refine ⟨by rw [e1]; exact hyl, by rw [e5]; rfl, ?_,
                    by rw [e5]; rfl, ?_⟩
                  · rw [e5]
                    show (getN s y).resource = true
                    exact hyres
                  · refine ⟨by rw [e1]; exact hx, by rw [e4], ?_,
                      by rw [e4]; rfl, trivial⟩
                    rw [e4]
                    show (getN s x).resource = true
                    exact hxres
              · exact hblanks _ e1 (fun z hzx hzy hzF _ => e7 z hzx hzy
                  (fun e => hzF (by
                    rw [e]
                    exact List.mem_append_right F0 (List.mem_singleton_self p))))
          | cons q R2' =>
              have hq := dllseg_mem s (q :: R2') (some y) none hsegR2 q
                (List.mem_cons_self q R2')
              have hqx : q ≠ x := fun e => hxR2 (e ▸ List.mem_cons_self q R2')
              have hqy : q ≠ y := fun e => hyR2 (e ▸ List.mem_cons_self q R2')
              have hpq : p ≠ q := by
                intro e
                apply hdisj (List.mem_append_right F0 (List.mem_singleton_self p))
                rw [e]
                exact List.mem_cons_of_mem x (List.mem_cons_of_mem y
                  (List.mem_cons_self q R2'))
              obtain ⟨e1, e2, e3, e4, e5, e6, e7, e8⟩ :=
                task_move_out_effects_mid s x y p q hx hyl hpmem.1 hq.1 hyx hpx
                  hpy hqx hqy hpq hxnext' hxprev' (by simpa using hynext)
              obtain ⟨_, hqprev, hqres, hqnext, hsegR2'⟩ := hsegR2
              have hqR2' : q ∉ R2' := (List.nodup_cons.mp
                (List.nodup_cons.mp (List.nodup_cons.mp hndM).2).2).1
              have hxR2' : x ∉ R2' := fun hm => hxR2 (List.mem_cons_of_mem q hm)
              have hyR2' : y ∉ R2' := fun hm => hyR2 (List.mem_cons_of_mem q hm)
              have hpR2' : p ∉ R2' := fun hm =>
                hdisj (List.mem_append_right F0 (List.mem_singleton_self p))
                  (List.mem_cons_of_mem x (List.mem_cons_of_mem y
                    (List.mem_cons_of_mem q hm)))
              refine ⟨(F0 ++ [p]) ++ y :: x :: q :: R2', hndnew, ?_, ?_, ?_, ?_⟩
              · rw [e2, hhead,
                  head?_append_ne_nil (F0 ++ [p]) (x :: y :: q :: R2') (by simp),
                  head?_append_ne_nil (F0 ++ [p]) (y :: x :: q :: R2') (by simp)]
              · rw [e3, htail,
                  endPrev_append none (F0 ++ [p]) (x :: y :: q :: R2'),
                  endPrev_append none (F0 ++ [p]) (y :: x :: q :: R2')]
                rfl
              · rw [dllseg_append]
                constructor
                · rw [show ((y :: x :: q :: R2').head?).or none = some y from rfl,
                    dllseg_snoc]
                  refine ⟨?_, by rw [e1]; exact hpmem.1,
                    by rw [e6]; exact hpprev, ?_, by rw [e6]⟩
                  · refine dllseg_congr s _ e1 F0 none (some p) ?_ hsegF0
                    intro z hz
                    exact e8 z (fun e => hxF0 (e ▸ hz)) (fun e => hyF0 (e ▸ hz))
                      (fun e => hpF0 (e ▸ hz))
                      (fun e => (hdisj (List.mem_append_left [p] (e ▸ hz))
                        (List.mem_cons_of_mem x (List.mem_cons_of_mem y
                          (List.mem_cons_self q R2')))))
                  · rw [e6]
                    show (getN s p).resource = true
                    exact hpres
                · rw [endPrev_append none F0 [p]]
                  refine ⟨by rw [e1]; exact hyl, by rw [e5]; rfl, ?_,
                    by rw [e5]; rfl, ?_⟩
                  · rw [e5]
                    show (getN s y).resource = true
                    exact hyres
                  · refine ⟨by rw [e1]; exact hx, by rw [e4], ?_,
                      by rw [e4]; rfl, ?_⟩
                    · rw [e4]
                      show (getN s x).resource = true
                      exact hxres
                    · refine ⟨by rw [e1]; exact hq.1,
                        by rw [e7], ?_, ?_, ?_⟩
                      · rw [e7]
                        show (getN s q).resource = true
                        exact hqres
                      · rw [e7]
                        show (getN s q).next = (R2'.head?).or none
                        exact hqnext
                      · refine dllseg_congr s _ e1 R2' (some q) none ?_ hsegR2'
                        intro z hz
                        exact e8 z (fun e => hxR2' (e ▸ hz))
                          (fun e => hyR2' (e ▸ hz)) (fun e => hpR2' (e ▸ hz))
                          (fun e => hqR2' (e ▸ hz))
              · exact hblanks _ e1 (fun z hzx hzy hzF hzR2 => e8 z hzx hzy
                  (fun e => hzF (by
                    rw [e]
                    exact List.mem_append_right F0 (List.mem_singleton_self p)))
                  (fun e => hzR2 (by
                    rw [e]
                    exact List.mem_cons_self q R2')))

/-! Effects of `task_move_in` (exchange with the predecessor `y`). -/

theorem task_move_in_noop (s : Store) (x : Nat)
    (h : (getN s x).previous = none) : task_move_in s x = s := by
  simp only [task_move_in, h]

theorem task_move_in_effects_mid (s : Store) (x y p q : Nat)
    (hx : x < s.nodes.length) (hy : y < s.nodes.length)
    (hp : p < s.nodes.length) (hq : q < s.nodes.length)
    (hyx : y ≠ x) (hpx : p ≠ x) (hpy : p ≠ y) (hqx : q ≠ x) (hqy : q ≠ y)
    (hpq : p ≠ q)
    (hxprev : (getN s x).previous = some y)
    (hxnext : (getN s x).next = some q)
    (hyprev : (getN s y).previous = some p) :
    (task_move_in s x).nodes.length = s.nodes.length ∧
    (task_move_in s x).head = s.head ∧
    (task_move_in s x).tail = s.tail ∧
    getN (task_move_in s x) x =
      { getN s x with previous := some p, next := some y } ∧
    getN (task_move_in s x) y =
      { getN s y with previous := some x, next := some q } ∧
    getN (task_move_in s x) p = { getN s p with next := some x } ∧
    getN (task_move_in s x) q = { getN s q with previous := some y } ∧
    (∀ z, z ≠ x → z ≠ y → z ≠ p → z ≠ q →
      getN (task_move_in s x) z = getN s z) := by
  have e1 : task_move_in s x =
      setPrev (setNext (setPrev (setNext (setPrev (setNext s y (some q)) q
        (some y)) x (some y)) x (some p)) p (some x)) y (some x) := by
    simp only [task_move_in, hxprev, hxnext,
      getN_setNext_ne s y x (some q) hyx,
      getN_setPrev_ne _ q x (some y) hqx,
      getN_setNext_self s y (some q) hy,
      getN_setPrev_ne _ q y (some y) hqy,
      getN_setNext_ne _ x y (some y) (fun e => hyx e.symm),
      getN_setPrev_ne _ x y (some p) (fun e => hyx e.symm),
      hyprev]
  have hby : y < (setNext (setPrev (setNext (setPrev (setNext s y (some q)) q
      (some y)) x (some y)) x (some p)) p (some x)).nodes.length := by
    rw [setNext_length, setPrev_length, setNext_length, setPrev_length,
      setNext_length]
    exact hy
  rw [e1]
  refine ⟨?_, rfl, rfl, ?_, ?_, ?_, ?_, ?_⟩
  · rw [setPrev_length, setNext_length, setPrev_length, setNext_length,
      setPrev_length, setNext_length]
  · rw [getN_setPrev_ne _ y x (some x) hyx]
    rw [getN_setNext_ne _ p x (some x) hpx]
    rw [getN_setPrev_self _ x (some p) (by
      rw [setNext_length, setPrev_length, setNext_length]
      exact hx)]
    rw [getN_setNext_self _ x (some y) (by
      rw [setPrev_length, setNext_length]
      exact hx)]
    rw [getN_setPrev_ne _ q x (some y) hqx]
    rw [getN_setNext_ne s y x (some q) hyx]
  · rw [getN_setPrev_self _ y (some x) hby]
    rw [getN_setNext_ne _ p y (some x) hpy]
    rw [getN_setPrev_ne _ x y (some p) (fun e => hyx e.symm)]
    rw [getN_setNext_ne _ x y (some y) (fun e => hyx e.symm)]
    rw [getN_setPrev_ne _ q y (some y) hqy]
    rw [getN_setNext_self s y (some q) hy]
  · rw [getN_setPrev_ne _ y p (some x) (fun e => hpy e.symm)]
    rw [getN_setNext_self _ p (some x) (by
      rw [setPrev_length, setNext_length, setPrev_length, setNext_length]
      exact hp)]
    rw [getN_setPrev_ne _ x p (some p) (fun e => hpx e.symm)]
    rw [getN_setNext_ne _ x p (some y) (fun e => hpx e.symm)]
    rw [getN_setPrev_ne _ q p (some y) (fun e => hpq e.symm)]
    rw [getN_setNext_ne s y p (some q) (fun e => hpy e.symm)]
  · rw [getN_setPrev_ne _ y q (some x) (fun e => hqy e.symm)]
    rw [getN_setNext_ne _ p q (some x) hpq]
    rw [getN_setPrev_ne _ x q (some p) (fun e => hqx e.symm)]
    rw [getN_setNext_ne _ x q (some y) (fun e => hqx e.symm)]
    rw [getN_setPrev_self _ q (some y) (by
      rw [setNext_length]
      exact hq)]
    rw [getN_setNext_ne s y q (some q) (fun e => hqy e.symm)]
  · intro z hzx hzy hzp hzq
    rw [getN_setPrev_ne _ y z (some x) (fun e => hzy e.symm)]
    rw [getN_setNext_ne _ p z (some x) (fun e => hzp e.symm)]
    rw [getN_setPrev_ne _ x z (some p) (fun e => hzx e.symm)]
    rw [getN_setNext_ne _ x z (some y) (fun e => hzx e.symm)]
    rw [getN_setPrev_ne _ q z (some y) (fun e => hzq e.symm)]
    rw [getN_setNext_ne s y z (some q) (fun e => hzy e.symm)]

theorem task_move_in_effects_front (s : Store) (x y q : Nat)
    (hx : x < s.nodes.length) (hy : y < s.nodes.length)
    (hq : q < s.nodes.length)
    (hyx : y ≠ x) (hqx : q ≠ x) (hqy : q ≠ y)
    (hxres : (getN s x).resource = true)
    (hxprev : (getN s x).previous = some y)
    (hxnext : (getN s x).next = some q)
    (hyprev : (getN s y).previous = none) :
    (task_move_in s x).nodes.length = s.nodes.length ∧
    (task_move_in s x).head = some x ∧
    (task_move_in s x).tail = s.tail ∧
    getN (task_move_in s x) x =
      { getN s x with previous := none, next := some y } ∧
    getN (task_move_in s x) y =
      { getN s y with previous := some x, next := some q } ∧
    getN (task_move_in s x) q = { getN s q with previous := some y } ∧
    (∀ z, z ≠ x → z ≠ y → z ≠ q → getN (task_move_in s x) z = getN s z) := by
  have e1 : task_move_in s x =
      setPrev (setHead (setPrev (setNext (setPrev (setNext s y (some q)) q
        (some y)) x (some y)) x none) (some x)) y (some x) := by
    simp only [task_move_in, hxprev, hxnext,
      getN_setNext_ne s y x (some q) hyx,
      getN_setPrev_ne _ q x (some y) hqx,
      getN_setNext_self s y (some q) hy,
      getN_setPrev_ne _ q y (some y) hqy,
      getN_setNext_ne _ x y (some y) (fun e => hyx e.symm),
      getN_setPrev_ne _ x y none (fun e => hyx e.symm),
      getN_setNext_self (setPrev (setNext s y (some q)) q (some y)) x (some y)
        (by
          rw [setPrev_length, setNext_length]
          exact hx),
      getN_setPrev_self (setNext (setPrev (setNext s y (some q)) q (some y)) x
        (some y)) x none
        (by
          rw [setNext_length, setPrev_length, setNext_length]
          exact hx),
      hyprev, hxres, if_true]
  have hby : y < (setHead (setPrev (setNext (setPrev (setNext s y (some q)) q
      (some y)) x (some y)) x none) (some x)).nodes.length := by
    rw [setHead_length, setPrev_length, setNext_length, setPrev_length,
      setNext_length]
    exact hy
  rw [e1]
  refine ⟨?_, rfl, rfl, ?_, ?_, ?_, ?_⟩
  · rw [setPrev_length, setHead_length, setPrev_length, setNext_length,
      setPrev_length, setNext_length]
  · rw [getN_setPrev_ne _ y x (some x) hyx, getN_setHead]
    rw [getN_setPrev_self _ x none (by
      rw [setNext_length, setPrev_length, setNext_length]
      exact hx)]
    rw [getN_setNext_self _ x (some y) (by
      rw [setPrev_length, setNext_length]
      exact hx)]
    rw [getN_setPrev_ne _ q x (some y) hqx]
    rw [getN_setNext_ne s y x (some q) hyx]
  · rw [getN_setPrev_self _ y (some x) hby, getN_setHead]
    rw [getN_setPrev_ne _ x y none (fun e => hyx e.symm)]
    rw [getN_setNext_ne _ x y (some y) (fun e => hyx e.symm)]
    rw [getN_setPrev_ne _ q y (some y) hqy]
    rw [getN_setNext_self s y (some q) hy]
  · rw [getN_setPrev_ne _ y q (some x) (fun e => hqy e.symm), getN_setHead]
    rw [getN_setPrev_ne _ x q none (fun e => hqx e.symm)]
    rw [getN_setNext_ne _ x q (some y) (fun e => hqx e.symm)]
    rw [getN_setPrev_self _ q (some y) (by
      rw [setNext_length]
      exact hq)]
    rw [getN_setNext_ne s y q (some q) (fun e => hqy e.symm)]
  · intro z hzx hzy hzq
    rw [getN_setPrev_ne _ y z (some x) (fun e => hzy e.symm), getN_setHead]
    rw [getN_setPrev_ne _ x z none (fun e => hzx e.symm)]
    rw [getN_setNext_ne _ x z (some y) (fun e => hzx e.symm)]
    rw [getN_setPrev_ne _ q z (some y) (fun e => hzq e.symm)]
    rw [getN_setNext_ne s y z (some q) (fun e => hzy e.symm)]

theorem task_move_in_effects_back (s : Store) (x y p : Nat)
    (hx : x < s.nodes.length) (hy : y < s.nodes.length)
    (hp : p < s.nodes.length)
    (hyx : y ≠ x) (hpx : p ≠ x) (hpy : p ≠ y)
    (hxres : (getN s x).resource = true)
    (hxprev : (getN s x).previous = some y)
    (hxnext : (getN s x).next = none)
    (hyprev : (getN s y).previous = some p) :
    (task_move_in s x).nodes.length = s.nodes.length ∧
    (task_move_in s x).head = s.head ∧
    (task_move_in s x).tail = some y ∧
    getN (task_move_in s x) x =
      { getN s x with previous := some p, next := some y } ∧
    getN (task_move_in s x) y =
      { getN s y with previous := some x, next := none } ∧
    getN (task_move_in s x) p = { getN s p with next := some x } ∧
    (∀ z, z ≠ x → z ≠ y → z ≠ p → getN (task_move_in s x) z = getN s z) := by
  have e1 : task_move_in s x =
      setPrev (setNext (setPrev (setNext (setTail (setNext s y none) (some y))
        x (some y)) x (some p)) p (some x)) y (some x) := by
    simp only [task_move_in, hxprev, hxnext,
      getN_setNext_ne s y x none hyx, hxres, if_true, getN_setTail,
      getN_setNext_self s y none hy,
      getN_setNext_ne _ x y (some y) (fun e => hyx e.symm),
      getN_setPrev_ne _ x y (some p) (fun e => hyx e.symm),
      hyprev]
  have hby : y < (setNext (setPrev (setNext (setTail (setNext s y none)
      (some y)) x (some y)) x (some p)) p (some x)).nodes.length := by
    rw [setNext_length, setPrev_length, setNext_length, setTail_length,
      setNext_length]
    exact hy
  rw [e1]
  refine ⟨?_, rfl, rfl, ?_, ?_, ?_, ?_⟩
  · rw [setPrev_length, setNext_length, setPrev_length, setNext_length,
      setTail_length, setNext_length]
  · rw [getN_setPrev_ne _ y x (some x) hyx]
    rw [getN_setNext_ne _ p x (some x) hpx]
    rw [getN_setPrev_self _ x (some p) (by
      rw [setNext_length, setTail_length, setNext_length]
      exact hx)]
    rw [getN_setNext_self _ x (some y) (by
      rw [setTail_length, setNext_length]
      exact hx)]
    rw [getN_setTail, getN_setNext_ne s y x none hyx]
  · rw [getN_setPrev_self _ y (some x) hby]
    rw [getN_setNext_ne _ p y (some x) hpy]
    rw [getN_setPrev_ne _ x y (some p) (fun e => hyx e.symm)]
    rw [getN_setNext_ne _ x y (some y) (fun e => hyx e.symm)]
    rw [getN_setTail, getN_setNext_self s y none hy]
  · rw [getN_setPrev_ne _ y p (some x) (fun e => hpy e.symm)]
    rw [getN_setNext_self _ p (some x) (by
      rw [setPrev_length, setNext_length, setTail_length, setNext_length]
      exact hp)]
    rw [getN_setPrev_ne _ x p (some p) (fun e => hpx e.symm)]
    rw [getN_setNext_ne _ x p (some y) (fun e => hpx e.symm)]
    rw [getN_setTail, getN_setNext_ne s y p none (fun e => hpy e.symm)]
  · intro z hzx hzy hzp
    rw [getN_setPrev_ne _ y z (some x) (fun e => hzy e.symm)]
    rw [getN_setNext_ne _ p z (some x) (fun e => hzp e.symm)]
    rw [getN_setPrev_ne _ x z (some p) (fun e => hzx e.symm)]
    rw [getN_setNext_ne _ x z (some y) (fun e => hzx e.symm)]
    rw [getN_setTail, getN_setNext_ne s y z none (fun e => hzy e.symm)]

theorem task_move_in_effects_pair (s : Store) (x y : Nat)
    (hx : x < s.nodes.length) (hy : y < s.nodes.length) (hyx : y ≠ x)
    (hxres : (getN s x).resource = true)
    (hxprev : (getN s x).previous = some y)
    (hxnext : (getN s x).next = none)
    (hyprev : (getN s y).previous = none) :
    (task_move_in s x).nodes.length = s.nodes.length ∧
    (task_move_in s x).head = some x ∧
    (task_move_in s x).tail = some y ∧
    getN (task_move_in s x) x =
      { getN s x with previous := none, next := some y } ∧
    getN (task_move_in s x) y =
      { getN s y with previous := some x, next := none } ∧
    (∀ z, z ≠ x → z ≠ y → getN (task_move_in s x) z = getN s z) := by
  have e1 : task_move_in s x =
      setPrev (setHead (setPrev (setNext (setTail (setNext s y none) (some y))
        x (some y)) x none) (some x)) y (some x) := by
    simp only [task_move_in, hxprev, hxnext,
      getN_setNext_ne s y x none hyx, hxres, if_true, getN_setTail,
      getN_setNext_self s y none hy,
      getN_setNext_ne _ x y (some y) (fun e => hyx e.symm),
      getN_setPrev_ne _ x y none (fun e => hyx e.symm),
      getN_setNext_self (setTail (setNext s y none) (some y)) x (some y)
        (by
          rw [setTail_length, setNext_length]
          exact hx),
      getN_setPrev_self (setNext (setTail (setNext s y none) (some y)) x
        (some y)) x none
        (by
          rw [setNext_length, setTail_length, setNext_length]
          exact hx),
      hyprev]
  have hby : y < (setHead (setPrev (setNext (setTail (setNext s y none)
      (some y)) x (some y)) x none) (some x)).nodes.length := by
    rw [setHead_length, setPrev_length, setNext_length, setTail_length,
      setNext_length]
    exact hy
  rw [e1]
  refine ⟨?_, rfl, rfl, ?_, ?_, ?_⟩
  · rw [setPrev_length, setHead_length, setPrev_length, setNext_length,
      setTail_length, setNext_length]
  · rw [getN_setPrev_ne _ y x (some x) hyx, getN_setHead]
    rw [getN_setPrev_self _ x none (by
      rw [setNext_length, setTail_length, setNext_length]
      exact hx)]
    rw [getN_setNext_self _ x (some y) (by
      rw [setTail_length, setNext_length]
      exact hx)]
    rw [getN_setTail, getN_setNext_ne s y x none hyx]
  · rw [getN_setPrev_self _ y (some x) hby, getN_setHead]
    rw [getN_setPrev_ne _ x y none (fun e => hyx e.symm)]
    rw [getN_setNext_ne _ x y (some y) (fun e => hyx e.symm)]
    rw [getN_setTail, getN_setNext_self s y none hy]
  · intro z hzx hzy
    rw [getN_setPrev_ne _ y z (some x) (fun e => hzy e.symm), getN_setHead]
    rw [getN_setPrev_ne _ x z none (fun e => hzx e.symm)]
    rw [getN_setNext_ne _ x z (some y) (fun e => hzx e.symm)]
    rw [getN_setTail, getN_setNext_ne s y z none (fun e => hzy e.symm)]

/-- Task.move_in exchanges the node with its predecessor in the member list
(no-op without a predecessor or on a detached node). -/
theorem encodes_task_move_in (s : Store) (L : List Nat) (x : Nat)
    (h : encodes s L) (hx : x < s.nodes.length) :
    ∃ L', encodes (task_move_in s x) L' := by
  obtain ⟨hnd, hhead, htail, hseg, hbl⟩ := h
  by_cases hxL : x ∈ L
  swap
  · have hblank : getN s x = blankNode := hbl x hx hxL
    rw [task_move_in_noop s x (by rw [hblank]; rfl)]
    exact ⟨L, hnd, hhead, htail, hseg, hbl⟩
  · obtain ⟨F', R, rfl⟩ := List.append_of_mem hxL
    have hsplit := (dllseg_append s F' (x :: R) none none).mp hseg
    have hsegF' : dllseg s none F' (some x) := by
      have := hsplit.1
      simpa using this
    obtain ⟨_, hxprev, hxres, hxnext, hsegR⟩ := hsplit.2
    rcases List.eq_nil_or_concat F' with rfl | ⟨F0, y, hF⟩
    · rw [task_move_in_noop s x (by simpa using hxprev)]
      exact ⟨[] ++ x :: R, hnd, hhead, htail, hseg, hbl⟩
    · rw [List.concat_eq_append] at hF
      subst hF
      have hxprev' : (getN s x).previous = some y := by
        rw [hxprev, endPrev_append]
        rfl
      obtain ⟨hsegF0, hyl, hyprev, hyres, hynext⟩ :=
        (dllseg_snoc s F0 y none (some x)).mp hsegF'
      have hnd' : (F0 ++ y :: x :: R).Nodup := by
        rw [List.append_assoc] at hnd
        exact hnd
      have hndnew : (F0 ++ x :: y :: R).Nodup := nodup_swap_pair hnd'
      have hndF0 : F0.Nodup := ((List.nodup_append).mp hnd').1
      have hndM : (y :: x :: R).Nodup := ((List.nodup_append).mp hnd').2.1
      have hdisj : F0.Disjoint (y :: x :: R) := ((List.nodup_append).mp hnd').2.2
      have hyx : y ≠ x := fun e =>
        (List.nodup_cons.mp hndM).1 (List.mem_cons.mpr (Or.inl e))
      have hyR : y ∉ R := fun hm =>
        (List.nodup_cons.mp hndM).1 (List.mem_cons_of_mem x hm)
      have hxR : x ∉ R :=
        (List.nodup_cons.mp (List.nodup_cons.mp hndM).2).1
      have hyF0 : y ∉ F0 := fun hm => hdisj hm (List.mem_cons_self y (x :: R))
      have hxF0 : x ∉ F0 := fun hm =>
        hdisj hm (List.mem_cons_of_mem y (List.mem_cons_self x R))
      have hblanks : ∀ s' : Store, s'.nodes.length = s.nodes.length →
          (∀ z, z ≠ x → z ≠ y → z ∉ F0 → z ∉ R → getN s' z = getN s z) →
          (∀ z, z < s'.nodes.length → z ∉ F0 ++ x :: y :: R →
            getN s' z = blankNode) := by
        intro s' hl hfr z hzl hzm
        have hzx : z ≠ x := fun e => hzm (by
          rw [e]
          exact List.mem_append_right F0 (List.mem_cons_self x (y :: R)))
        have hzy : z ≠ y := fun e => hzm (by
          rw [e]
          exact List.mem_append_right F0 (List.mem_cons_of_mem x
            (List.mem_cons_self y R)))
        have hzF0 : z ∉ F0 := fun hm => hzm (List.mem_append_left _ hm)
        have hzR : z ∉ R := fun hm => hzm (List.mem_append_right F0
          (List.mem_cons_of_mem x (List.mem_cons_of_mem y hm)))
        rw [hfr z hzx hzy hzF0 hzR]
        refine hbl z (by rw [← hl]; exact hzl) ?_
        intro hm
        rw [List.append_assoc] at hm
        rcases List.mem_append.mp hm with hm | hm
        · exact hzF0 hm
        · rcases List.mem_cons.mp hm with e | hm
          · exact hzy e
          · rcases List.mem_cons.mp hm with e | hm
            · exact hzx e
            · exact hzR hm
      have hheadF0 : F0 ≠ [] → s.head = F0.head? := by
        intro hne
        rw [hhead, List.append_assoc, head?_append_ne_nil F0 _ hne]
      rcases List.eq_nil_or_concat F0 with rfl | ⟨F1, p, hF0⟩
      · have hyprev' : (getN s y).previous = none := hyprev
        cases R with
        | nil =>
            obtain ⟨e1, e2, e3, e4, e5, e6⟩ := task_move_in_effects_pair s x y
              hx hyl hyx hxres hxprev' (by simpa using hxnext) hyprev'
            refine ⟨[x, y], by simpa using hndnew, by rw [e2]; rfl,
              by rw [e3]; rfl, ?_, ?_⟩
            · refine ⟨by rw [e1]; exact hx, by rw [e4], ?_, by rw [e4]; rfl, ?_⟩
              · rw [e4]
                show (getN s x).resource = true
                exact hxres
              · refine ⟨by rw [e1]; exact hyl, by rw [e5], ?_, by rw [e5]; rfl,
                  trivial⟩
                rw [e5]
                show (getN s y).resource = true
                exact hyres
            · exact hblanks _ e1 (fun z hzx hzy _ _ => e6 z hzx hzy)
        | cons q R' =>
            have hq := dllseg_mem s (q :: R') (some x) none hsegR q
              (List.mem_cons_self q R')
            have hqx : q ≠ x := fun e => hxR (e ▸ List.mem_cons_self q R')
            have hqy : q ≠ y := fun e => hyR (e ▸ List.mem_cons_self q R')
            obtain ⟨e1, e2, e3, e4, e5, e6, e7⟩ :=
              task_move_in_effects_front s x y q hx hyl hq.1 hyx hqx hqy hxres
                hxprev' (by simpa using hxnext) hyprev'
            obtain ⟨_, hqprev, hqres, hqnext, hsegR'⟩ := hsegR
            have hqR' : q ∉ R' := (List.nodup_cons.mp
              (List.nodup_cons.mp (List.nodup_cons.mp hndM).2).2).1
            have hxR' : x ∉ R' := fun hm => hxR (List.mem_cons_of_mem q hm)
            have hyR' : y ∉ R' := fun hm => hyR (List.mem_cons_of_mem q hm)
            refine ⟨x :: y :: q :: R', by simpa using hndnew,
              by rw [e2]; rfl, ?_, ?_, ?_⟩
            · rw [e3, htail]
              rfl
            · refine ⟨by rw [e1]; exact hx, by rw [e4], ?_, by rw [e4]; rfl, ?_⟩
              · rw [e4]
                show (getN s x).resource = true
                exact hxres
              · refine ⟨by rw [e1]; exact hyl, by rw [e5], ?_, by rw [e5]; rfl, ?_⟩
                · rw [e5]
                  show (getN s y).resource = true
                  exact hyres
                · refine ⟨by rw [e1]; exact hq.1, by rw [e6], ?_, ?_, ?_⟩
                  · rw [e6]
                    show (getN s q).resource = true
                    exact hqres
                  · rw [e6]
                    show (getN s q).next = (R'.head?).or none
                    exact hqnext
                  · refine dllseg_congr s _ e1 R' (some q) none ?_ hsegR'
                    intro z hz
                    exact e7 z (fun e => hxR' (e ▸ hz))
                      (fun e => hyR' (e ▸ hz)) (fun e => hqR' (e ▸ hz))
            · exact hblanks _ e1 (fun z hzx hzy _ hzR => e7 z hzx hzy
                (fun e => hzR (by
                  rw [e]
                  exact List.mem_cons_self q R')))
      · rw [List.concat_eq_append] at hF0
        subst hF0
        have hyprev' : (getN s y).previous = some p := by
          rw [hyprev, endPrev_append]
          rfl
        have hpmem := dllseg_mem s (F1 ++ [p]) none (some y) hsegF0 p
          (List.mem_append_right F1 (List.mem_singleton_self p))
        have hpx : p ≠ x := fun e =>
          hxF0 (e ▸ List.mem_append_right F1 (List.mem_singleton_self p))
        have hpy : p ≠ y := fun e =>
          hyF0 (e ▸ List.mem_append_right F1 (List.mem_singleton_self p))
        have hpF1 : p ∉ F1 := by
          rw [List.nodup_append] at hndF0
          exact fun hm => hndF0.2.2 hm (List.mem_singleton_self p)
        have hxF1 : x ∉ F1 := fun hm => hxF0 (List.mem_append_left [p] hm)
        have hyF1 : y ∉ F1 := fun hm => hyF0 (List.mem_append_left [p] hm)
        obtain ⟨hsegF1, _, hpprev, hpres, hpnext⟩ :=
          (dllseg_snoc s F1 p none (some y)).mp hsegF0
        cases R with
        | nil =>
            obtain ⟨e1, e2, e3, e4, e5, e6, e7⟩ := task_move_in_effects_back s
              x y p hx hyl hpmem.1 hyx hpx hpy hxres hxprev'
              (by simpa using hxnext) hyprev'
            refine ⟨(F1 ++ [p]) ++ x :: y :: [], hndnew, ?_, ?_, ?_, ?_⟩
            · rw [e2, hheadF0 (by simp), head?_append_ne_nil (F1 ++ [p]) _
                (by simp)]
            · rw [e3, endPrev_append none (F1 ++ [p]) (x :: y :: [])]
              rfl
            · rw [dllseg_append]
              constructor
              · rw [show ((x :: y :: []).head?).or none = some x from rfl,
                  dllseg_snoc]
                refine ⟨?_, by rw [e1]; exact hpmem.1,
                  by rw [e6]; exact hpprev, ?_, by rw [e6]⟩
                · refine dllseg_congr s _ e1 F1 none (some p) ?_ hsegF1
                  intro z hz
                  exact e7 z (fun e => hxF1 (e ▸ hz)) (fun e => hyF1 (e ▸ hz))
                    (fun e => hpF1 (e ▸ hz))
                · rw [e6]
                  show (getN s p).resource = true
                  exact hpres
              · rw [endPrev_append none F1 [p]]
                refine ⟨by rw [e1]; exact hx, by rw [e4]; rfl, ?_,
                  by rw [e4]; rfl, ?_⟩
                · rw [e4]
                  show (getN s x).resource = true
                  exact hxres
                · refine ⟨by rw [e1]; exact hyl, by rw [e5], ?_,
                    by rw [e5]; rfl, trivial⟩
                  rw [e5]
                  show (getN s y).resource = true
                  exact hyres
            · exact hblanks _ e1 (fun z hzx hzy hzF0 _ => e7 z hzx hzy
                (fun e => hzF0 (by
                  rw [e]
                  exact List.mem_append_right F1 (List.mem_singleton_self p))))
        | cons q R' =>
            have hq := dllseg_mem s (q :: R') (some x) none hsegR q
              (List.mem_cons_self q R')
            have hqx : q ≠ x := fun e => hxR (e ▸ List.mem_cons_self q R')
            have hqy : q ≠ y := fun e => hyR (e ▸ List.mem_cons_self q R')
            have hpq : p ≠ q := by
              intro e
              apply hdisj (List.mem_append_right F1 (List.mem_singleton_self p))
              rw [e]
              exact List.mem_cons_of_mem y (List.mem_cons_of_mem x
                (List.mem_cons_self q R'))
            obtain ⟨e1, e2, e3, e4, e5, e6, e7, e8⟩ :=
              task_move_in_effects_mid s x y p q hx hyl hpmem.1 hq.1 hyx hpx
                hpy hqx hqy hpq hxprev' (by simpa using hxnext) hyprev'
            obtain ⟨_, hqprev, hqres, hqnext, hsegR'⟩ := hsegR
            have hqR' : q ∉ R' := (List.nodup_cons.mp
              (List.nodup_cons.mp (List.nodup_cons.mp hndM).2).2).1
            have hxR' : x ∉ R' := fun hm => hxR (List.mem_cons_of_mem q hm)
            have hyR' : y ∉ R' := fun hm => hyR (List.mem_cons_of_mem q hm)
            have hpR' : p ∉ R' := fun hm =>
              hdisj (List.mem_append_right F1 (List.mem_singleton_self p))
                (List.mem_cons_of_mem y (List.mem_cons_of_mem x
                  (List.mem_cons_of_mem q hm)))
            refine ⟨(F1 ++ [p]) ++ x :: y :: q :: R', hndnew, ?_, ?_, ?_, ?_⟩
            · rw [e2, hheadF0 (by simp), head?_append_ne_nil (F1 ++ [p]) _
                (by simp)]
            · rw [e3, htail, List.append_assoc,
                endPrev_append none (F1 ++ [p]) ([y] ++ x :: q :: R'),
                endPrev_append none (F1 ++ [p]) (x :: y :: q :: R')]
              rfl
            · rw [dllseg_append]
              constructor
              · rw [show ((x :: y :: q :: R').head?).or none = some x from rfl,
                  dllseg_snoc]
                refine ⟨?_, by rw [e1]; exact hpmem.1,
                  by rw [e6]; exact hpprev, ?_, by rw [e6]⟩
                · refine dllseg_congr s _ e1 F1 none (some p) ?_ hsegF1
                  intro z hz
                  refine e8 z (fun e => hxF1 (e ▸ hz)) (fun e => hyF1 (e ▸ hz))
                    (fun e => hpF1 (e ▸ hz)) (fun e => ?_)
                  exact hdisj (List.mem_append_left [p] (e ▸ hz))
                    (List.mem_cons_of_mem y (List.mem_cons_of_mem x
                      (List.mem_cons_self q R')))
                · rw [e6]
                  show (getN s p).resource = true
                  exact hpres
              · rw [endPrev_append none F1 [p]]
                refine ⟨by rw [e1]; exact hx, by rw [e4]; rfl, ?_,
                  by rw [e4]; rfl, ?_⟩
                · rw [e4]
                  show (getN s x).resource = true
                  exact hxres
                · refine ⟨by rw [e1]; exact hyl, by rw [e5], ?_,
                    by rw [e5]; rfl, ?_⟩
                  · rw [e5]
                    show (getN s y).resource = true
                    exact hyres
                  · refine ⟨by rw [e1]; exact hq.1, by rw [e7], ?_, ?_, ?_⟩
                    · rw [e7]
                      show (getN s q).resource = true
                      exact hqres
                    · rw [e7]
                      show (getN s q).next = (R'.head?).or none
                      exact hqnext
                    · refine dllseg_congr s _ e1 R' (some q) none ?_ hsegR'
                      intro z hz
                      exact e8 z (fun e => hxR' (e ▸ hz))
                        (fun e => hyR' (e ▸ hz)) (fun e => hpR' (e ▸ hz))
                        (fun e => hqR' (e ▸ hz))
            · exact hblanks _ e1 (fun z hzx hzy hzF0 hzR => e8 z hzx hzy
                (fun e => hzF0 (by
                  rw [e]
                  exact List.mem_append_right F1 (List.mem_singleton_self p)))
                (fun e => hzR (by
                  rw [e]
                  exact List.mem_cons_self q R')))

theorem getN_init_store (k y : Nat) : getN (init_store k) y = blankNode := by
  simp only [getN, init_store]
  induction k generalizing y with
  | zero => rfl
  | succ n ih =>
      cases y with
      | zero => rfl
      | succ m => exact ih m

theorem encodes_init (k : Nat) : encodes (init_store k) [] :=
  ⟨List.nodup_nil, rfl, rfl, trivial, fun y _ _ => getN_init_store k y⟩

theorem apply_op_encodes (s s' : Store) (o : LOp) (L : List Nat)
    (h : encodes s L) (hap : apply_op s o = some s') :
    ∃ L', encodes s' L' := by
  cases o with
  | moveOut x =>
      simp only [apply_op] at hap
      split at hap
      · cases hap
        exact encodes_task_move_out s L x h (by assumption)
      · cases hap
  | moveIn x =>
      simp only [apply_op] at hap
      split at hap
      · cases hap
        exact encodes_task_move_in s L x h (by assumption)
      · cases hap
  | dropN x =>
      simp only [apply_op] at hap
      split at hap
      · cases hap
        obtain ⟨L', h1, _, _⟩ := encodes_task_drop s L x h (by assumption)
        exact ⟨L', h1⟩
      · cases hap
  | insertBefore x t =>
      simp only [apply_op] at hap
      split at hap
      · cases hap
        rename_i hc
        exact encodes_task_insert s L x t h hc.1 hc.2.1 hc.2.2.1 hc.2.2.2
      · cases hap
  | addTail x =>
      simp only [apply_op] at hap
      split at hap
      · cases hap
        rename_i hc
        exact ⟨L ++ [x], encodes_res_add_tail s L x h hc.1 hc.2⟩
      · cases hap
  | addHead x =>
      simp only [apply_op] at hap
      split at hap
      · cases hap
        rename_i hc
        exact ⟨x :: L, encodes_res_add_head s L x h hc.1 hc.2⟩
      · cases hap

theorem apply_ops_encodes (ops : List LOp) :
    ∀ s s' L, encodes s L → apply_ops s ops = some s' →
      ∃ L', encodes s' L' := by
  induction ops with
  | nil =>
      intro s s' L h hap
      cases hap
      exact ⟨L, h⟩
  | cons o os ih =>
      intro s s' L h hap
      simp only [apply_ops] at hap
      cases hop : apply_op s o with
      | none => rw [hop] at hap; cases hap
      | some s1 =>
          rw [hop] at hap
          obtain ⟨L1, h1⟩ := apply_op_encodes s s1 o L h hop
          exact ih s1 s' L1 h1 hap

/-- C8: starting from a fresh resource with an arena of detached nodes, after
any finite sequence of add_tail/add_head/insert/drop/move_out/move_in
operations obeying the documented contract, walking head→tail via `next`
and tail→head via `previous` yield exact reverses of each other, and every
member node reached by the forward walk has its resource reference set. -/
theorem link_invariant (ops : List LOp) (k : Nat) (s' : Store)
    (hrun : apply_ops (init_store k) ops = some s') :
    forward_walk s' = (backward_walk s').reverse ∧
    ∀ x ∈ forward_walk s', (getN s' x).resource = true := by
  obtain ⟨L, hL⟩ :=
    apply_ops_encodes ops (init_store k) s' [] (encodes_init k) hrun
  obtain ⟨hf, hb, hres⟩ := encodes_walks s' L hL
  refine ⟨?_, hres⟩
  rw [hf, hb, List.reverse_reverse]

theorem link_invariant_witness :
    forward_walk demo_store = (backward_walk demo_store).reverse ∧
    ∀ x ∈ forward_walk demo_store, (getN demo_store x).resource = true :=
  link_invariant demo_ops 4 demo_store (by decide)
